import Mathlib

/-!
# Pitch rules engine (`src/pitch-ai.js`): shallow embedding and verified properties

The class `PitchAI` keeps one mutable `gameState` object. Every method of the
class that touches the rules is embedded here as a pure function from the state
before the call to the state after it (the state the method has produced when it
returns; work it schedules with `setTimeout` or starts in an `async` helper is a
separate function applied later). Calls that only draw on the page (`updateUI`,
`console.log`, `showRoundResults`) do not change the state and are left out.

Cards are two-character strings in the source (`rank + suit`); they are pairs here.
Seats are the numbers 0..3. A JavaScript array of length four indexed by seat is a
function on `Seat`.
-/

namespace PitchAI

/-! ## Cards -/

/-- The four suit letters of `this.suits`. -/
inductive Suit
  | C | D | H | S
  deriving DecidableEq, Repr

/-- The thirteen rank letters of `this.ranks`. -/
inductive Rank
  | r2 | r3 | r4 | r5 | r6 | r7 | r8 | r9 | T | J | Q | K | A
  deriving DecidableEq, Repr

/-- A card string: `card[0]` is the rank, `card[1]` the suit. -/
structure Card where
  rank : Rank
  suit : Suit
  deriving DecidableEq, Repr

/-- The array `this.suits = ['C', 'D', 'H', 'S']`. -/
def suits : List Suit := [.C, .D, .H, .S]

/-- The array `this.ranks = ['2', ..., '9', 'T', 'J', 'Q', 'K', 'A']`. -/
def ranks : List Rank :=
  [.r2, .r3, .r4, .r5, .r6, .r7, .r8, .r9, .T, .J, .Q, .K, .A]

/-- The expression `this.ranks.indexOf(card[0])`. -/
def rankIndex (r : Rank) : Nat := ranks.indexOf r

/-- The position of a suit letter in `this.suits`. -/
def suitIndex (u : Suit) : Nat := suits.indexOf u

/-- The table `this.cardMap`: `cardMap[ranks[i] + suits[j]] = i * suits.length + j`. -/
def cardMap (c : Card) : Nat := rankIndex c.rank * suits.length + suitIndex c.suit

/-- The keys of `cardMap` in insertion order (`Object.keys(this.cardMap)`): ranks in the
outer loop, suits in the inner loop. -/
def allCards : List Card :=
  ranks.flatMap (fun r => suits.map (fun u => Card.mk r u))

/-- The table `this.invCardMap`, filled in the same loop as `cardMap` with
`invCardMap[index] = card`; an index outside the table reads `undefined` (`none`). -/
def invCardMap (index : Nat) : Option Card :=
  allCards.find? (fun c => cardMap c = index)

/-! ## Game state -/

/-- A seat number, 0..3. Every seat the source stores is a dealer draw
`Math.floor(Math.random() * 4)`, a value `(x + 1) % 4`, or a seat stored before. -/
abbrev Seat := Fin 4

/-- The loop range `for (let i = 0; i < 4; i++)`. -/
def seats : List Seat := [0, 1, 2, 3]

/-- The expression `(p + 1) % 4`. -/
def nextSeat (p : Seat) : Seat := ⟨(p.val + 1) % 4, Nat.mod_lt _ (by decide)⟩

/-- The array literal `[a, b, c, d]` indexed by seat. -/
def four {α : Type} (a b c d : α) : Seat → α := fun i =>
  match i.val with
  | 0 => a
  | 1 => b
  | 2 => c
  | _ => d

/-- The assignment `arr[i] = v` on an array indexed by seat. -/
def upd {α : Type} (arr : Seat → α) (i : Seat) (v : α) : Seat → α :=
  fun j => if j = i then v else arr j

/-- Values of `gameState.phase`. -/
inductive Phase
  | waiting | bidding | playing | gameOver
  deriving DecidableEq, Repr

/-- Values of `gameState.biddingTeam` other than `null`: the strings `'team0'`, `'team1'`. -/
inductive Team
  | team0 | team1
  deriving DecidableEq, Repr

/-- Values of `roundResults.game` other than `null`: `'team0'`, `'team1'`, `'tie'`. -/
inductive GameWinner
  | team0 | team1 | tie
  deriving DecidableEq, Repr

/-- The object `gameState.roundResults`; `none` is `null`. -/
structure RoundResults where
  jack : Option Seat
  low : Option Seat
  high : Option Seat
  game : Option GameWinner
  deriving DecidableEq, Repr

/-- The object `this.gameState`. `none` is `null`; in `bids` it also stands for the
`undefined` that `bidActions[bidIndex]` yields outside the table (no amount recorded). -/
structure GameState where
  phase : Phase
  currentPlayer : Seat
  dealer : Seat
  hands : Seat → List Card
  currentTrick : Seat → Option Card
  playOrder : List Seat
  historyOfPlayedCards : List Card
  trumpSuit : Option Suit
  bidWinner : Option Seat
  bidAmount : Nat
  biddingTeam : Option Team
  lowTrumpHolderTeam : Option Team
  scores : Seat → Int
  trickWins : Seat → Nat
  specialPoints : Seat → Nat
  prevTrick : List (Option Card)
  prevWinner : Option Seat
  bids : Seat → Option Nat
  roundResults : RoundResults
  cardsWonInTricks : Seat → List Card
  isTransitioning : Bool

/-- The object literal `newGame` assigns to `this.gameState`, with the dealer drawn. -/
def freshState (phase : Phase) (dealer : Seat) : GameState :=
  { phase := phase
    currentPlayer := 0
    dealer := dealer
    hands := fun _ => []
    currentTrick := fun _ => none
    playOrder := []
    historyOfPlayedCards := []
    trumpSuit := none
    bidWinner := none
    bidAmount := 0
    biddingTeam := none
    lowTrumpHolderTeam := none
    scores := fun _ => 0
    trickWins := fun _ => 0
    specialPoints := fun _ => 0
    prevTrick := []
    prevWinner := none
    bids := fun _ => none
    roundResults := { jack := none, low := none, high := none, game := none }
    cardsWonInTricks := fun _ => []
    isTransitioning := false }

/-! ## Trick engine -/

/-- The method `determineTrickWinner` reads `trumpSuit`, `currentTrick` and `playOrder`.
The loop variable `winner` starts at `-1`; here `none` is `-1` and the method returns the
final `winner`. The local `winningCard` is only logged and is not kept. A seat becomes
`winner` only with a card in its slot, so `currentTrick[winner]` is a card whenever it is
read. One pass of the loop body, for the seat `playerId` of `playOrder`: -/
def trickStep (s : GameState) (leadSuit : Option Suit) (winner : Option Seat)
    (playerId : Seat) : Option Seat :=
  match s.currentTrick playerId with
  | none => winner
  | some card =>
    match winner with
    | none => some playerId
    | some w =>
      match s.currentTrick w with
      | none => winner
      | some currentWinningCard =>
        if some card.suit = s.trumpSuit ∧ some currentWinningCard.suit ≠ s.trumpSuit then
          some playerId
        else if some card.suit ≠ s.trumpSuit ∧ some currentWinningCard.suit = s.trumpSuit then
          winner
        else if some card.suit = s.trumpSuit ∧ some currentWinningCard.suit = s.trumpSuit then
          if rankIndex card.rank > rankIndex currentWinningCard.rank then some playerId
          else winner
        else if some card.suit = leadSuit ∧ some currentWinningCard.suit = leadSuit then
          if rankIndex card.rank > rankIndex currentWinningCard.rank then some playerId
          else winner
        else if some card.suit = leadSuit ∧ some currentWinningCard.suit ≠ leadSuit then
          some playerId
        else if some card.suit ≠ leadSuit ∧ some currentWinningCard.suit = leadSuit then
          winner
        else if some card.suit ≠ leadSuit ∧ some currentWinningCard.suit ≠ leadSuit then
          if rankIndex card.rank > rankIndex currentWinningCard.rank then some playerId
          else winner
        else winner

/-- The lead suit `determineTrickWinner` establishes: the suit of the card of
`playOrder[0]`, `null` when the play order is empty or that slot holds no card. -/
def trickLeadSuit (s : GameState) : Option Suit :=
  match s.playOrder with
  | [] => none
  | firstPlayer :: _ => (s.currentTrick firstPlayer).map (fun firstCard => firstCard.suit)

/-- The method `determineTrickWinner`; `none` is the return value `-1`. -/
def determineTrickWinner (s : GameState) : Option Seat :=
  s.playOrder.foldl (trickStep s (trickLeadSuit s)) none

/-- The lead suit `getLegalMoves` establishes: the suit of the first non-null slot of
`currentTrick`, scanning the slots `i = 0, 1, 2, 3`. -/
def firstSlotSuit (s : GameState) : Option Suit :=
  (seats.findSome? (fun i => s.currentTrick i)).map (fun c => c.suit)

/-- The method `getLegalMoves(playerId)`: a mask of 52 booleans indexed by `cardMap`. -/
def getLegalMoves (s : GameState) (playerId : Seat) : List Bool :=
  let hand := s.hands playerId
  let legalMask := List.replicate 52 false
  if (seats.filter (fun i => (s.currentTrick i).isSome)).length = 0 then
    hand.foldl (fun mask card => mask.set (cardMap card) true) legalMask
  else
    let leadSuit := firstSlotSuit s
    let canFollowSuit := hand.any (fun card => decide (some card.suit = leadSuit))
    hand.foldl (fun mask card =>
      if some card.suit = s.trumpSuit then mask.set (cardMap card) true
      else if canFollowSuit = true ∧ some card.suit = leadSuit then mask.set (cardMap card) true
      else if canFollowSuit = false then mask.set (cardMap card) true
      else mask) legalMask

/-- Reading `legalMoves[cardIndex]` as a condition: an index outside the mask reads
`undefined`, which is falsy. -/
def maskAt (mask : List Bool) (cardIndex : Nat) : Bool := mask.getD cardIndex false

/-! ## Trump resolver and scoring -/

/-- The team branch `if (i % 2 === 0) specialPoints[0] += 1 else specialPoints[1] += 1`. -/
def addSpecialPoint (specialPoints : Seat → Nat) (i : Seat) : Seat → Nat :=
  if i.val % 2 = 0 then upd specialPoints 0 (specialPoints 0 + 1)
  else upd specialPoints 1 (specialPoints 1 + 1)

/-- The low-trump scan of `calculateSpecialPointsWhenTrumpDetermined`: the pair
`(lowestTrump, lowestTrumpPlayer)` after the two nested loops over seats and hands. -/
def lowestTrumpScan (s : GameState) : Option Card × Option Seat :=
  seats.foldl (fun acc i =>
    (s.hands i).foldl (fun acc card =>
      if some card.suit = s.trumpSuit then
        match acc.1 with
        | none => (some card, some i)
        | some lowestTrump =>
          if rankIndex card.rank < rankIndex lowestTrump.rank then (some card, some i) else acc
      else acc) acc) (none, none)

/-- The high-trump scan of `calculateSpecialPointsWhenTrumpDetermined`: the pair
`(highestTrump, highestTrumpPlayer)` after the two nested loops. -/
def highestTrumpScan (s : GameState) : Option Card × Option Seat :=
  seats.foldl (fun acc i =>
    (s.hands i).foldl (fun acc card =>
      if some card.suit = s.trumpSuit then
        match acc.1 with
        | none => (some card, some i)
        | some highestTrump =>
          if rankIndex card.rank > rankIndex highestTrump.rank then (some card, some i) else acc
      else acc) acc) (none, none)

/-- The method `calculateSpecialPointsWhenTrumpDetermined`. It reads `this.gameState.hands`
as they are when it is called. With `trumpSuit` null the string `'J' + null` is in no hand
and no card's suit equals `null`. -/
def calculateSpecialPointsWhenTrumpDetermined (s : GameState) : GameState :=
  let s0 := { s with
    specialPoints := fun _ => 0
    roundResults := { jack := none, low := none, high := none, game := none } }
  -- 1. Jack of trump: the first seat whose hand includes it
  let jackHolder : Option Seat :=
    match s0.trumpSuit with
    | none => none
    | some t => seats.find? (fun i => decide (Card.mk Rank.J t ∈ s0.hands i))
  let s1 :=
    match jackHolder with
    | some i => { s0 with
        roundResults := { s0.roundResults with jack := some i }
        specialPoints := addSpecialPoint s0.specialPoints i }
    | none => { s0 with roundResults := { s0.roundResults with jack := none } }
  -- 2. Low trump
  let s2 :=
    match lowestTrumpScan s1 with
    | (some _, some lowestTrumpPlayer) => { s1 with
        roundResults := { s1.roundResults with low := some lowestTrumpPlayer }
        specialPoints := addSpecialPoint s1.specialPoints lowestTrumpPlayer }
    | _ => s1
  -- 3. High trump
  match highestTrumpScan s2 with
  | (some _, some highestTrumpPlayer) => { s2 with
      roundResults := { s2.roundResults with high := some highestTrumpPlayer }
      specialPoints := addSpecialPoint s2.specialPoints highestTrumpPlayer }
  | _ => s2

/-- The game value chain of `calculateSpecialPoints`: T=10, J=1, Q=2, K=3, A=4, else 0. -/
def gameValue (rank : Rank) : Nat :=
  if rank = Rank.T then 10
  else if rank = Rank.J then 1
  else if rank = Rank.Q then 2
  else if rank = Rank.K then 3
  else if rank = Rank.A then 4
  else 0

/-- The pair `(team0GamePoints, team1GamePoints)` after the counting loops of
`calculateSpecialPoints`. -/
def gamePointTotals (s : GameState) : Nat × Nat :=
  seats.foldl (fun acc i =>
    (s.cardsWonInTricks i).foldl (fun acc card =>
      if i.val % 2 = 0 then (acc.1 + gameValue card.rank, acc.2)
      else (acc.1, acc.2 + gameValue card.rank)) acc) (0, 0)

/-- The method `calculateSpecialPoints` (the game point only). -/
def calculateSpecialPoints (s : GameState) : GameState :=
  let team0GamePoints := (gamePointTotals s).1
  let team1GamePoints := (gamePointTotals s).2
  if team0GamePoints > team1GamePoints then
    { s with
      roundResults := { s.roundResults with game := some GameWinner.team0 }
      specialPoints := upd s.specialPoints 0 (s.specialPoints 0 + 1) }
  else if team1GamePoints > team0GamePoints then
    { s with
      roundResults := { s.roundResults with game := some GameWinner.team1 }
      specialPoints := upd s.specialPoints 1 (s.specialPoints 1 + 1) }
  else
    { s with roundResults := { s.roundResults with game := some GameWinner.tie } }

/-- The method `endRound`, up to the call of `showRoundResults` (which draws the overlay;
the next deal starts from its dismiss button). -/
def endRound (s : GameState) : GameState :=
  let s1 :=
    if s.trumpSuit = none ∧ s.historyOfPlayedCards.length > 0 then
      { s with trumpSuit := s.historyOfPlayedCards.head?.map (fun c => c.suit) }
    else s
  let s2 := calculateSpecialPoints s1
  let biddingTeamTricks :=
    if s2.biddingTeam = some Team.team0 then s2.trickWins 0 + s2.trickWins 2
    else s2.trickWins 1 + s2.trickWins 3
  let biddingTeamSpecialPoints :=
    if s2.biddingTeam = some Team.team0 then s2.specialPoints 0 else s2.specialPoints 1
  let totalPoints := biddingTeamTricks + biddingTeamSpecialPoints
  if totalPoints ≥ s2.bidAmount then
    if s2.biddingTeam = some Team.team0 then
      { s2 with scores := upd s2.scores 0 (s2.scores 0 + (totalPoints : Int)) }
    else
      { s2 with scores := upd s2.scores 1 (s2.scores 1 + (totalPoints : Int)) }
  else
    if s2.biddingTeam = some Team.team0 then
      { s2 with scores := upd s2.scores 0 (s2.scores 0 - (s2.bidAmount : Int)) }
    else
      { s2 with scores := upd s2.scores 1 (s2.scores 1 - (s2.bidAmount : Int)) }

/-! ## Playing a card and closing a trick -/

/-- The method `playCard(cardIndex)`, up to its return: the state it has produced before
the scheduled `endTrick` or the next seat's `makeAIPlay` run. -/
def playCard (cardIndex : Nat) (s : GameState) : GameState :=
  let playerId := s.currentPlayer
  match invCardMap cardIndex with
  | none => s
  | some card =>
    if card ∉ s.hands playerId then s
    else
      let s1 := { s with
        currentTrick := upd s.currentTrick playerId (some card)
        hands := upd s.hands playerId ((s.hands playerId).filter (fun c => decide (c ≠ card)))
        historyOfPlayedCards := s.historyOfPlayedCards ++ [card]
        playOrder := s.playOrder ++ [playerId] }
      let s2 :=
        if s1.historyOfPlayedCards.length = 1 ∧ some s1.currentPlayer = s1.bidWinner then
          calculateSpecialPointsWhenTrumpDetermined { s1 with trumpSuit := some card.suit }
        else s1
      { s2 with currentPlayer := nextSeat s2.currentPlayer }

/-- The method `selectCard(card)` of the human seat. -/
def selectCard (card : Card) (s : GameState) : GameState :=
  if s.phase ≠ Phase.playing ∨ s.currentPlayer ≠ 0 ∨ s.isTransitioning = true then s
  else
    let cardIndex := cardMap card
    let legalMoves := getLegalMoves s 0
    if maskAt legalMoves cardIndex = true then playCard cardIndex s else s

/-- The method `endTrick`, up to its return. With no winner (`winner === -1`) the source
indexes `trickWins` and `cardsWonInTricks` at `-1`, which leaves the states described
here (a `TypeError` as soon as a card lies on the trick): the result is `none`. -/
def endTrick (s : GameState) : Option GameState :=
  match determineTrickWinner s with
  | none => none
  | some winner =>
    let s1 := { s with
      prevWinner := some winner
      prevTrick := seats.map s.currentTrick
      trickWins := upd s.trickWins winner (s.trickWins winner + 1) }
    let s2 := { s1 with
      cardsWonInTricks :=
        upd s1.cardsWonInTricks winner
          (s1.cardsWonInTricks winner ++ seats.filterMap s1.currentTrick) }
    if seats.all (fun i => decide ((s2.hands i).length = 0)) then some (endRound s2)
    else some { s2 with isTransitioning := true }

/-- The callback `endTrick` schedules with `setTimeout(..., 1500)` when the round goes on;
`winner` is the value the callback closed over. -/
def nextTrickCallback (winner : Seat) (s : GameState) : GameState :=
  { s with
    currentPlayer := winner
    currentTrick := fun _ => none
    playOrder := []
    isTransitioning := false }

/-! ## Dealing and bidding -/

/-- The comparator of `sortPlayerHand`: suit order C, D, H, S, then rank order from
`'A': 0` down to `'2': 12`. -/
def handCompare (a b : Card) : Int :=
  let suitA : Int := suitIndex a.suit
  let suitB : Int := suitIndex b.suit
  if suitA ≠ suitB then suitA - suitB
  else
    let rankA : Int := 12 - (rankIndex a.rank : Int)
    let rankB : Int := 12 - (rankIndex b.rank : Int)
    rankA - rankB

/-- The method `sortPlayerHand`: sorts `hands[0]` only (`Array.prototype.sort` is stable). -/
def sortPlayerHand (s : GameState) : GameState :=
  { s with hands := upd s.hands 0 ((s.hands 0).mergeSort (fun a b => decide (handCompare a b ≤ 0))) }

/-- The swap `[deck[i], deck[j]] = [deck[j], deck[i]]`. -/
def swapAt (deck : List Card) (i j : Nat) : List Card :=
  match deck[i]?, deck[j]? with
  | some a, some b => (deck.set i b).set j a
  | _, _ => deck

/-- The shuffle loop of `dealCards`, `for (let i = deck.length - 1; i > 0; i--)`. The draw
`Math.floor(Math.random() * (i + 1))` is some integer of `0..i`; `rnd i` supplies it,
reduced into that range. -/
def shuffle (rnd : Nat → Nat) (deck : List Card) : List Card :=
  (List.range (deck.length - 1)).foldl (fun d k =>
    let i := deck.length - 1 - k
    swapAt d i (rnd i % (i + 1))) deck

/-- One `this.gameState.hands[j].push(deck.pop())`. An empty deck is never popped (24 pops
from 52 cards); the state is then left as it is. -/
def dealOne (acc : (Seat → List Card) × List Card) (j : Seat) : (Seat → List Card) × List Card :=
  match acc.2.getLast? with
  | some c => (upd acc.1 j (acc.1 j ++ [c]), acc.2.dropLast)
  | none => acc

/-- The method `dealCards`; `rnd` supplies the shuffle's random draws. -/
def dealCards (rnd : Nat → Nat) (s : GameState) : GameState :=
  let deck := shuffle rnd allCards
  let dealt := (List.range 6).foldl (fun acc _ => seats.foldl dealOne acc) (s.hands, deck)
  let s1 := sortPlayerHand { s with hands := dealt.1 }
  { s1 with trumpSuit := none }

/-- The method `startBiddingPhase`, up to its return. -/
def startBiddingPhase (s : GameState) : GameState :=
  { s with phase := Phase.bidding, currentPlayer := nextSeat s.dealer }

/-- The method `newGame`; `dealer` is the draw `Math.floor(Math.random() * 4)`. -/
def newGame (dealer : Seat) (rnd : Nat → Nat) : GameState :=
  startBiddingPhase (dealCards rnd (freshState Phase.bidding dealer))

/-- The method `dealNewHand`: the round fields are reset, the scores are kept. -/
def dealNewHand (rnd : Nat → Nat) (s : GameState) : GameState :=
  let s1 := { s with
    phase := Phase.bidding
    currentPlayer := 0
    dealer := nextSeat s.dealer
    hands := fun _ => []
    currentTrick := fun _ => none
    historyOfPlayedCards := []
    trumpSuit := none
    bidWinner := none
    bidAmount := 0
    biddingTeam := none
    lowTrumpHolderTeam := none
    trickWins := fun _ => 0
    specialPoints := fun _ => 0
    prevTrick := []
    isTransitioning := false
    prevWinner := none
    bids := fun _ => none
    roundResults := { jack := none, low := none, high := none, game := none }
    cardsWonInTricks := fun _ => []
    playOrder := [] }
  startBiddingPhase (dealCards rnd s1)

/-- The array `this.bidActions = [0, 2, 3, 4]`; 0 is Pass. -/
def bidActions : List Nat := [0, 2, 3, 4]

/-- The method `processBid(bidIndex)`, up to its return. An index outside `bidActions`
reads `undefined`, which is recorded and compares greater than nothing. -/
def processBid (bidIndex : Nat) (s : GameState) : GameState :=
  let bid := bidActions[bidIndex]?
  let playerId := s.currentPlayer
  let s1 := { s with bids := upd s.bids playerId bid }
  let s2 :=
    match bid with
    | some b => if b > s1.bidAmount then { s1 with bidWinner := some playerId, bidAmount := b } else s1
    | none => s1
  { s2 with currentPlayer := nextSeat s2.currentPlayer }

/-- The method `endBiddingPhase`, up to its return. -/
def endBiddingPhase (s : GameState) : GameState :=
  let s1 :=
    match s.bidWinner with
    | none => { s with bidWinner := some s.dealer, bidAmount := 2 }
    | some _ => s
  let w : Seat := match s1.bidWinner with
    | some w => w
    | none => s1.dealer
  { s1 with
    biddingTeam := some (if w.val % 2 = 0 then Team.team0 else Team.team1)
    phase := Phase.playing
    currentPlayer := w
    currentTrick := fun _ => none
    playOrder := [] }

/-- The method `getLegalBids`: a mask over `bidActions`; Pass (index 0) is set first, then
the loop `for (let i = 1; i < this.bidActions.length; i++)` sets the higher bids. -/
def getLegalBids (s : GameState) : List Bool :=
  let legalBids := (List.replicate bidActions.length false).set 0 true
  (List.range' 1 (bidActions.length - 1)).foldl (fun mask i =>
    match bidActions[i]? with
    | some b => if b > s.bidAmount then mask.set i true else mask
    | none => mask) legalBids

/-- The method `makeBid(bidIndex)` of the human seat; the bid buttons call it. -/
def makeBid (bidIndex : Nat) (s : GameState) : GameState :=
  if s.phase ≠ Phase.bidding ∨ s.currentPlayer ≠ 0 then s
  else processBid bidIndex s

/-- The click handler `showRoundResults` puts on the Continue button of the round results:
game over at 11 points, else the next deal (`rnd` supplies its shuffle draws).
`showGameResults` only draws. -/
def continueAfterRound (rnd : Nat → Nat) (s : GameState) : GameState :=
  let team0Score := s.scores 0
  let team1Score := s.scores 1
  if team0Score ≥ 11 ∨ team1Score ≥ 11 then { s with phase := Phase.gameOver }
  else dealNewHand rnd s

/-- The test `processBid` makes after the turn has moved on,
`currentPlayer === (dealer + 1) % 4`: when it holds, `processBid` sets the timer of
`endBiddingPhase` (2000 ms); when it does not, the next AI seat is asked to bid. It is read
on the state `processBid` returns. -/
def auctionClosing (s : GameState) : Bool :=
  decide (s.currentPlayer = nextSeat s.dealer)

/-- The method `calculateTeamGamePoints(teamId)`, called with 0 and 1 by `showRoundResults`:
the game values of the piles of the seats `teamId * 2` and `teamId * 2 + 1`. The value chain
is the one of `calculateSpecialPoints`. A seat index outside 0..3 has no pile. -/
def calculateTeamGamePoints (teamId : Nat) (s : GameState) : Nat :=
  let startPlayer := teamId * 2
  (List.range' startPlayer 2).foldl (fun totalGamePoints i =>
    let cardsWon := if h : i < 4 then s.cardsWonInTricks ⟨i, h⟩ else []
    cardsWon.foldl (fun total card => total + gameValue card.rank) totalGamePoints) 0

/-- The branch of `getAIBidAction` and `getAIPlayAction` taken when no model is loaded:
`legalIndices[Math.floor(Math.random() * legalIndices.length)]`, where `legalIndices` lists
the indices of the true entries of the mask; `none` is `undefined`. Arithmetic is exact. -/
def randomLegalAction (random : Rat) (legal : List Bool) : Option Nat :=
  let legalIndices := (List.range legal.length).filter (fun i => legal.getD i false)
  legalIndices[(random * (legalIndices.length : Rat)).floor.toNat]?

/-- The sampling loop of `getAIBidAction` and `getAIPlayAction` over the entries of
`normalizedProbs` from index `i` on, with the running `cumulative`; `none` when the loop ends
without a `return`. -/
def sampleLoop (random : Rat) : List Rat → Nat → Rat → Option Nat
  | [], _, _ => none
  | prob :: rest, i, cumulative =>
    if random ≤ cumulative + prob then some i
    else sampleLoop random rest (i + 1) (cumulative + prob)

/-- The branch of `getAIBidAction` and `getAIPlayAction` taken with a model: `actionProbs` is
the model's output for the state (non-negative numbers), taken as exact rationals. The
probabilities of illegal actions are set to 0, the rest is divided by its sum and sampled;
the loop's fallback is `return 0`. With a sum of 0 every quotient is `NaN`, no comparison
holds and the fallback is returned. -/
def sampleAction (actionProbs : List Rat) (random : Rat) (legal : List Bool) : Nat :=
  let maskedProbs := actionProbs.enum.map (fun ip => if legal.getD ip.1 false then ip.2 else 0)
  let sum := maskedProbs.foldl (fun a b => a + b) 0
  if sum = 0 then 0
  else
    let normalizedProbs := maskedProbs.map (fun prob => prob / sum)
    (sampleLoop random normalizedProbs 0 0).getD 0

/-- The method `getAIBidAction(state, legalBids)`: `model` is `none` when `models.bidding` is
null, else the output of the model for `state`; `random` is the draw `Math.random()`. -/
def getAIBidAction (model : Option (List Rat)) (random : Rat) (legalBids : List Bool) :
    Option Nat :=
  match model with
  | none => randomLegalAction random legalBids
  | some actionProbs => some (sampleAction actionProbs random legalBids)

/-- The method `getAIPlayAction(state, legalMoves)`, with `model` and `random` as in
`getAIBidAction`. -/
def getAIPlayAction (model : Option (List Rat)) (random : Rat) (legalMoves : List Bool) :
    Option Nat :=
  match model with
  | none => randomLegalAction random legalMoves
  | some actionProbs => some (sampleAction actionProbs random legalMoves)

/-! ## Vocabulary of the properties -/

/-- The priority relation of the trick rules, "card `a` beats card `b`", relative to the
trump suit and the lead suit: a trump beats any non-trump; a higher trump beats a lower
trump; a non-trump card of the lead suit beats a non-trump card off the lead suit; within
the lead suit, and among non-trump cards off the lead suit, the higher rank beats the
lower. -/
def beats (trump lead : Option Suit) (a b : Card) : Prop :=
  (some a.suit = trump ∧ some b.suit ≠ trump) ∨
  (some a.suit = trump ∧ some b.suit = trump ∧ rankIndex b.rank < rankIndex a.rank) ∨
  (some a.suit ≠ trump ∧ some a.suit = lead ∧ some b.suit ≠ trump ∧ some b.suit ≠ lead) ∨
  (some a.suit = lead ∧ some b.suit = lead ∧ rankIndex b.rank < rankIndex a.rank) ∨
  (some a.suit ≠ trump ∧ some a.suit ≠ lead ∧ some b.suit ≠ trump ∧ some b.suit ≠ lead ∧
    rankIndex b.rank < rankIndex a.rank)

instance (trump lead : Option Suit) (a b : Card) : Decidable (beats trump lead a b) := by
  unfold beats; infer_instance

/-- A numeric measure of a card's priority in a trick: trumps above lead-suit cards above
the rest, by rank inside each class. Used in the proofs only. -/
def strength (trump lead : Option Suit) (c : Card) : Nat :=
  if some c.suit = trump then 26 + rankIndex c.rank
  else if some c.suit = lead then 13 + rankIndex c.rank
  else rankIndex c.rank

/-- A state in the playing phase with the given trump suit, trick slots and play order;
every other field as in a fresh state. -/
def trickState (trump : Option Suit) (trick : Seat → Option Card) (order : List Seat) :
    GameState :=
  { freshState Phase.playing 0 with
    trumpSuit := trump
    currentTrick := trick
    playOrder := order }

/-- Scenario: trump Hearts, plays in order 2H by seat 1, KH by seat 2, 3H by seat 3,
AH by seat 0. -/
def scenarioHearts : GameState :=
  trickState (some Suit.H)
    (four (some ⟨Rank.A, Suit.H⟩) (some ⟨Rank.r2, Suit.H⟩) (some ⟨Rank.K, Suit.H⟩)
      (some ⟨Rank.r3, Suit.H⟩))
    [1, 2, 3, 0]

/-- Scenario: lead Clubs, plays in order 5C by seat 1, 9C by seat 2, QC by seat 3,
2C by seat 0; trump is Diamonds, of which no card is played. -/
def scenarioClubs : GameState :=
  trickState (some Suit.D)
    (four (some ⟨Rank.r2, Suit.C⟩) (some ⟨Rank.r5, Suit.C⟩) (some ⟨Rank.r9, Suit.C⟩)
      (some ⟨Rank.Q, Suit.C⟩))
    [1, 2, 3, 0]

/-- A deal of 24 distinct cards with dealer seat 2, at the start of the auction (seat 3 is
first to bid); seat 0's hand is in the order `sortPlayerHand` gives. The Queen of Spades of
seat 3 is the only spade dealt. -/
def exampleDeal : GameState :=
  { freshState Phase.bidding 2 with
    currentPlayer := 3
    hands := four
      [⟨Rank.r8, Suit.C⟩, ⟨Rank.r2, Suit.C⟩, ⟨Rank.r6, Suit.D⟩, ⟨Rank.r5, Suit.D⟩,
        ⟨Rank.r4, Suit.D⟩, ⟨Rank.r3, Suit.D⟩]
      [⟨Rank.r9, Suit.H⟩, ⟨Rank.r7, Suit.C⟩, ⟨Rank.r2, Suit.D⟩, ⟨Rank.r7, Suit.D⟩,
        ⟨Rank.r8, Suit.D⟩, ⟨Rank.r9, Suit.C⟩]
      [⟨Rank.T, Suit.H⟩, ⟨Rank.r3, Suit.C⟩, ⟨Rank.r9, Suit.D⟩, ⟨Rank.T, Suit.D⟩,
        ⟨Rank.T, Suit.C⟩, ⟨Rank.J, Suit.C⟩]
      [⟨Rank.r5, Suit.H⟩, ⟨Rank.J, Suit.H⟩, ⟨Rank.r4, Suit.C⟩, ⟨Rank.J, Suit.D⟩,
        ⟨Rank.Q, Suit.S⟩, ⟨Rank.Q, Suit.C⟩] }

/-- The example deal after the auction: seat 3 bids 2, seats 0, 1 and 2 pass, the auction
closes; seat 3 is the bid winner and leads. -/
def exampleAuction : GameState :=
  endBiddingPhase ([1, 0, 0, 0].foldl (fun st bidIndex => processBid bidIndex st) exampleDeal)

/-- The example round after two plays: the bid winner, seat 3, leads the 5 of Hearts (which
fixes trump Hearts); seat 0, who holds no heart, plays the 2 of Clubs. Seat 1 is to play. -/
def followState : GameState :=
  playCard (cardMap ⟨Rank.r2, Suit.C⟩) (playCard (cardMap ⟨Rank.r5, Suit.H⟩) exampleAuction)

/-- The example round with its first trick complete: after the 5 of Hearts of seat 3 and the
2 of Clubs of seat 0, seat 1 plays the 9 of Hearts and seat 2 the 10 of Hearts. -/
def fullTrickState : GameState :=
  playCard (cardMap ⟨Rank.T, Suit.H⟩) (playCard (cardMap ⟨Rank.r9, Suit.H⟩) followState)

/-- The example round when the bid winner, seat 3, leads the Jack of Hearts instead. -/
def jackLeadState : GameState :=
  playCard (cardMap ⟨Rank.J, Suit.H⟩) exampleAuction

/-- The example round when the bid winner, seat 3, leads the Queen of Spades, the only
spade of the deal. -/
def lonelyTrumpState : GameState :=
  playCard (cardMap ⟨Rank.Q, Suit.S⟩) exampleAuction

/-- The seat a trump scan leaves in `roundResults`: the scan's player when it found a card
(`if (lowestTrump) ...`), else `null`. -/
def scanSeat (r : Option Card × Option Seat) : Option Seat :=
  match r with
  | (some _, some p) => some p
  | _ => none

/-- The point a category held by seat `o` gives to the anchor slot `k` (0 or 1): one point
when the seat's parity is `k`, nothing for `null`. -/
def pointOf (o : Option Seat) (k : Nat) : Nat :=
  match o with
  | some i => if i.val % 2 = k then 1 else 0
  | none => 0

/-- The point the game category gives to the anchor slot `k`. -/
def gamePointOf (g : Option GameWinner) (k : Nat) : Nat :=
  match g with
  | some GameWinner.team0 => if k = 0 then 1 else 0
  | some GameWinner.team1 => if k = 1 then 1 else 0
  | _ => 0

/-- The jack holder `calculateSpecialPointsWhenTrumpDetermined` finds: the first seat, in
seat order, whose hand includes the jack of trump. -/
def jackHolder (s : GameState) : Option Seat :=
  match s.trumpSuit with
  | none => none
  | some t => seats.find? (fun i => decide (Card.mk Rank.J t ∈ s.hands i))

/-- Invariant of a trump scan over the cards `seen` so far: either nothing is recorded and no
trump was seen, or the recorded card is a seen trump of the recorded seat that no seen trump
precedes in the order `R` on rank indices. Used in the proofs only. -/
def ScanInv (R : Nat → Nat → Prop) (trump : Option Suit) (seen : Seat → Card → Prop)
    (acc : Option Card × Option Seat) : Prop :=
  (acc = (none, none) ∧ ∀ j d, seen j d → some d.suit ≠ trump) ∨
  (∃ c i, acc = (some c, some i) ∧ seen i c ∧ some c.suit = trump ∧
    ∀ j d, seen j d → some d.suit = trump → ¬ R (rankIndex d.rank) (rankIndex c.rank))

/-- The first step of `calculateSpecialPointsWhenTrumpDetermined`: the reset of
`specialPoints` and `roundResults`, then the jack of trump. The method is the composition of
this step with `resolveLow` and `resolveHigh`; the three are named for the proofs. -/
def resolveJack (s : GameState) : GameState :=
  let s0 := { s with
    specialPoints := fun _ => 0
    roundResults := { jack := none, low := none, high := none, game := none } }
  match jackHolder s with
  | some i => { s0 with
      roundResults := { s0.roundResults with jack := some i }
      specialPoints := addSpecialPoint s0.specialPoints i }
  | none => { s0 with roundResults := { s0.roundResults with jack := none } }

/-- The second step of `calculateSpecialPointsWhenTrumpDetermined`: the low trump. -/
def resolveLow (s1 : GameState) : GameState :=
  match lowestTrumpScan s1 with
  | (some _, some lowestTrumpPlayer) => { s1 with
      roundResults := { s1.roundResults with low := some lowestTrumpPlayer }
      specialPoints := addSpecialPoint s1.specialPoints lowestTrumpPlayer }
  | _ => s1

/-- The third step of `calculateSpecialPointsWhenTrumpDetermined`: the high trump. -/
def resolveHigh (s2 : GameState) : GameState :=
  match highestTrumpScan s2 with
  | (some _, some highestTrumpPlayer) => { s2 with
      roundResults := { s2.roundResults with high := some highestTrumpPlayer }
      specialPoints := addSpecialPoint s2.specialPoints highestTrumpPlayer }
  | _ => s2

/-- The first statement of `endRound`: a trump suit still unset is taken from the first card
of the history. `endRound` is this step, then `calculateSpecialPoints`, then `settleRound`;
the steps are named for the proofs. -/
def ensureTrumpSuit (s : GameState) : GameState :=
  if s.trumpSuit = none ∧ s.historyOfPlayedCards.length > 0 then
    { s with trumpSuit := s.historyOfPlayedCards.head?.map (fun c => c.suit) }
  else s

/-- The last part of `endRound`, after `calculateSpecialPoints`: the bidding team's total and
the change of its score. -/
def settleRound (s2 : GameState) : GameState :=
  let biddingTeamTricks :=
    if s2.biddingTeam = some Team.team0 then s2.trickWins 0 + s2.trickWins 2
    else s2.trickWins 1 + s2.trickWins 3
  let biddingTeamSpecialPoints :=
    if s2.biddingTeam = some Team.team0 then s2.specialPoints 0 else s2.specialPoints 1
  let totalPoints := biddingTeamTricks + biddingTeamSpecialPoints
  if totalPoints ≥ s2.bidAmount then
    if s2.biddingTeam = some Team.team0 then
      { s2 with scores := upd s2.scores 0 (s2.scores 0 + (totalPoints : Int)) }
    else
      { s2 with scores := upd s2.scores 1 (s2.scores 1 + (totalPoints : Int)) }
  else
    if s2.biddingTeam = some Team.team0 then
      { s2 with scores := upd s2.scores 0 (s2.scores 0 - (s2.bidAmount : Int)) }
    else
      { s2 with scores := upd s2.scores 1 (s2.scores 1 - (s2.bidAmount : Int)) }

/-- The anchor seat of a team, where its score and special points are kept: 0 or 1. -/
def anchorSeat (tm : Team) : Seat :=
  match tm with
  | Team.team0 => 0
  | Team.team1 => 1

/-- The other seat of a team: 2 or 3. -/
def partnerSeat (tm : Team) : Seat :=
  match tm with
  | Team.team0 => 2
  | Team.team1 => 3

/-- The sum of the game values of a pile of cards. -/
def pileGameValue (cards : List Card) : Nat :=
  (cards.map (fun c => gameValue c.rank)).sum

/-- A state at the end of a round in which seat 0 has captured the 10 of Hearts, the Ace of
Hearts and the Ace of Spades, and no other seat a card. -/
def captureScenario : GameState :=
  { freshState Phase.playing 0 with
    cardsWonInTricks := four
      [⟨Rank.T, Suit.H⟩, ⟨Rank.A, Suit.H⟩, ⟨Rank.A, Suit.S⟩] [] [] [] }

/-- The events that move a round on after its first card: a call of `playCard`; the timer
`playCard` sets on a full trick firing while some hand still holds a card (`endTrick` then
does not settle the round); the timer of `endTrick` firing (the next trick starts). -/
inductive RoundEvent
  | play (cardIndex : Nat)
  | trickEnd
  | nextTrick (winner : Seat)
  deriving Repr

/-- The check `this.gameState.hands.every(hand => hand.length === 0)` of `endTrick`. -/
def allHandsEmpty (s : GameState) : Bool :=
  seats.all (fun i => decide ((s.hands i).length = 0))

/-- One event of a round in progress; `none` when `endTrick` has no winner, or when it would
settle the round (that call is the round's last and is not an event in progress). -/
def midRoundStep (e : RoundEvent) (s : GameState) : Option GameState :=
  match e with
  | RoundEvent.play cardIndex => some (playCard cardIndex s)
  | RoundEvent.trickEnd => if allHandsEmpty s = true then none else endTrick s
  | RoundEvent.nextTrick winner => some (nextTrickCallback winner s)

/-- A run of events of a round in progress. -/
def midRound : List RoundEvent → GameState → Option GameState
  | [], s => some s
  | e :: rest, s =>
    match midRoundStep e s with
    | some s2 => midRound rest s2
    | none => none

/-- A full round on the example deal after the lead of the 5 of Hearts: 23 more cards, each
one allowed by the mask of `getLegalMoves`, with the five trick ends and trick starts
between them; the sixth trick is then complete. -/
def exampleRoundEvents : List RoundEvent :=
  [.play 0, .play 20, .play 4, .trickEnd, .nextTrick 3,
   .play 8, .play 24, .play 28, .play 32, .trickEnd, .nextTrick 2,
   .play 29, .play 37, .play 5, .play 1, .trickEnd, .nextTrick 3,
   .play 38, .play 9, .play 21, .play 33, .trickEnd, .nextTrick 3,
   .play 40, .play 13, .play 25, .play 34, .trickEnd, .nextTrick 2,
   .play 36, .play 43, .play 17, .play 30]

/-- The example round with its sixth trick complete and every hand empty. -/
def exampleRoundMid : GameState :=
  (midRound exampleRoundEvents
    (playCard (cardMap ⟨Rank.r5, Suit.H⟩) exampleAuction)).getD exampleAuction

/-- The example round settled: the state the last `endTrick` returns. -/
def exampleRoundEnd : GameState := (endTrick exampleRoundMid).getD exampleAuction

/-- A state at round settlement: team 0 bid 2, took one trick (seat 0) against five, holds no
special point and captured no card of value; the scores stand at 3 and 5. -/
def setScenario : GameState :=
  { freshState Phase.playing 0 with
    bidWinner := some 0
    bidAmount := 2
    biddingTeam := some Team.team0
    trickWins := four 1 3 0 2
    scores := four 3 5 0 0 }

/-- The example deal after seat 3 has bid 3: the phase is bidding and seat 0 has the turn. -/
def bidThreeState : GameState := processBid 2 exampleDeal

/-- The example deal with seat 3 as dealer: seat 0 is first to bid. -/
def dealerThreeDeal : GameState :=
  startBiddingPhase { exampleDeal with dealer := 3 }

/-- The auction of `dealerThreeDeal` after its four bids, all Pass: the turn is back with
seat 0 and the timer of `endBiddingPhase` is set, the phase is still `bidding`. -/
def dealerThreeAuction : GameState :=
  [0, 0, 0, 0].foldl (fun st bidIndex => processBid bidIndex st) dealerThreeDeal

/-- The example deal after an auction that seat 0 wins (seat 3 passes, seat 0 bids 2, seats
1 and 2 pass): seat 0 leads. -/
def humanLeadAuction : GameState :=
  endBiddingPhase ([0, 1, 0, 0].foldl (fun st bidIndex => processBid bidIndex st) exampleDeal)

/-- The first trick of that round, complete: seat 0 leads the 8 of Clubs through
`selectCard`, seats 1, 2 and 3 follow with the 7, 3 and 4 of Clubs. The timer of `endTrick`
is set and has not fired; seat 0 has the turn again. -/
def humanTrickState : GameState :=
  playCard (cardMap ⟨Rank.r4, Suit.C⟩) (playCard (cardMap ⟨Rank.r3, Suit.C⟩)
    (playCard (cardMap ⟨Rank.r7, Suit.C⟩) (selectCard ⟨Rank.r8, Suit.C⟩ humanLeadAuction)))

/-- The part of `dealCards` that follows the shuffle: 24 pops, the sort of `hands[0]`, and
`trumpSuit = null`. -/
def dealFrom (deck : List Card) (s : GameState) : GameState :=
  let dealt := (List.range 6).foldl (fun acc _ => seats.foldl dealOne acc) (s.hands, deck)
  let s1 := sortPlayerHand { s with hands := dealt.1 }
  { s1 with trumpSuit := none }

/-- The cards of four seat-indexed lists (the hands, or the piles of won cards), as a
multiset. -/
def cardsOf (f : Seat → List Card) : Multiset Card := ∑ j : Seat, (f j : Multiset Card)

/-- The count `this.gameState.currentTrick.filter(c => c !== null).length` that `playCard`
compares with 4. -/
def trickCount (s : GameState) : Nat :=
  (seats.filter (fun i => (s.currentTrick i).isSome)).length

/-- One turn of a round in which every seat plays one card per trick: the seat to play puts
a card `c` of its hand on the trick with `playCard`; when the trick then holds four cards the
timer of `playCard` runs `endTrick`, and unless that call settled the round the timer of
`endTrick` runs its callback, before anything else happens. `none` when `playCard` does not
accept the card, or when `endTrick` has no winner. -/
def playTurn (c : Card) (s : GameState) : Option GameState :=
  if c ∈ s.hands s.currentPlayer then
    let s1 := playCard (cardMap c) s
    if trickCount s1 = 4 then
      match determineTrickWinner s1, endTrick s1 with
      | some winner, some s2 =>
        if allHandsEmpty s1 = true then some s2 else some (nextTrickCallback winner s2)
      | _, _ => none
    else some s1
  else none

/-- A run of turns. -/
def playTurns : List Card → GameState → Option GameState
  | [], s => some s
  | c :: rest, s =>
    match playTurn c s with
    | some s2 => playTurns rest s2
    | none => none

/-- The cards on the current trick, as a multiset. -/
def trickCards (s : GameState) : Multiset Card :=
  ∑ j : Seat, ((s.currentTrick j).toList : Multiset Card)

/-- The seat `m` places after `p` in turn order. -/
def seatAfter (p : Seat) (m : Nat) : Seat := ⟨(p.val + m) % 4, Nat.mod_lt _ (by decide)⟩

/-- The start of the play of a round: four hands of six cards, no card twice, and nothing
played or won yet. -/
structure FreshRound (s : GameState) : Prop where
  handsNodup : (s.hands 0 ++ s.hands 1 ++ s.hands 2 ++ s.hands 3).Nodup
  handsSix : ∀ j, (s.hands j).length = 6
  trickEmpty : ∀ j, s.currentTrick j = none
  orderEmpty : s.playOrder = []
  historyEmpty : s.historyOfPlayedCards = []
  pilesEmpty : ∀ j, s.cardsWonInTricks j = []
  winsZero : ∀ j, s.trickWins j = 0

/-- The state of a round after `k` complete tricks and `m` cards of the next one, the cards
`dealt` being those of the four hands at the start. -/
structure TrickInv (dealt : Multiset Card) (s : GameState) (k m : Nat) : Prop where
  tricks : k < 6
  order : ∃ p, s.playOrder = (List.range m).map (seatAfter p) ∧ s.currentPlayer = seatAfter p m
  filled : ∀ j, s.currentTrick j ≠ none ↔ j ∈ s.playOrder
  handLength : ∀ j, (s.hands j).length + k + (if j ∈ s.playOrder then 1 else 0) = 6
  wins : ∑ j : Seat, s.trickWins j = k
  cards : cardsOf s.hands + trickCards s + cardsOf s.cardsWonInTricks = dealt
  history : (s.historyOfPlayedCards : Multiset Card) = trickCards s + cardsOf s.cardsWonInTricks

/-- The cards of the example round in the order played, the lead of the 5 of Hearts
first. -/
def exampleRoundCards : List Card :=
  ⟨Rank.r5, Suit.H⟩ :: exampleRoundEvents.filterMap (fun e =>
    match e with
    | RoundEvent.play cardIndex => invCardMap cardIndex
    | _ => none)

/-- The complete trick of `humanTrickState` after seat 0, whose turn it is again, has
selected the 2 of Clubs before the timer of `endTrick` ran. -/
def overplayedTrick : GameState := selectCard ⟨Rank.r2, Suit.C⟩ humanTrickState

/-- The state after the timers set so far have run: the `endTrick` set by the fourth card,
the `endTrick` set by the fifth, and the callback of the first `endTrick`, which starts the
next trick. -/
def overplayedRound : GameState :=
  (midRound [RoundEvent.trickEnd, RoundEvent.trickEnd, RoundEvent.nextTrick 1]
    overplayedTrick).getD overplayedTrick

/-- The example round played in turns from the end of the auction. -/
def exampleRoundPlayed : GameState :=
  (playTurns exampleRoundCards exampleAuction).getD exampleAuction

/-! ## Basic facts about cards and seats -/

theorem rankIndex_lt (r : Rank) : rankIndex r < 13 := by
  cases r <;> decide

theorem suitIndex_lt (u : Suit) : suitIndex u < 4 := by
  cases u <;> decide

theorem rankIndex_injective {a b : Rank} (h : rankIndex a = rankIndex b) : a = b := by
  cases a <;> cases b <;> first | rfl | (exfalso; revert h; decide)

theorem cardMap_lt (c : Card) : cardMap c < 52 := by
  have h1 := rankIndex_lt c.rank
  have h2 := suitIndex_lt c.suit
  have h3 : suits.length = 4 := rfl
  unfold cardMap
  rw [h3]
  omega

theorem invCardMap_cardMap (c : Card) : invCardMap (cardMap c) = some c := by
  rcases c with ⟨r, u⟩
  cases r <;> cases u <;> rfl

theorem cardMap_of_invCardMap {n : Nat} {c : Card} (h : invCardMap n = some c) :
    cardMap c = n := by
  unfold invCardMap at h
  have := List.find?_some h
  simpa using this

theorem cardMap_injective {a b : Card} (h : cardMap a = cardMap b) : a = b := by
  have ha := invCardMap_cardMap a
  rw [h, invCardMap_cardMap b] at ha
  exact (Option.some.inj ha).symm

theorem seat_mem_of_nodup {l : List Seat} (hnd : l.Nodup) (hlen : l.length = 4) (j : Seat) :
    j ∈ l := by
  have hcard : l.toFinset.card = Fintype.card Seat := by
    rw [List.toFinset_card_of_nodup hnd, hlen]; rfl
  have huniv : l.toFinset = Finset.univ := Finset.eq_univ_of_card _ hcard
  have : j ∈ l.toFinset := by rw [huniv]; exact Finset.mem_univ j
  exact List.mem_toFinset.mp this

/-! ## The trick winner -/

/-- One comparison of the loop of `determineTrickWinner` keeps the stronger card, and the
running winner on a tie. -/
theorem trickStep_some (s : GameState) (lead : Option Suit) (w p : Seat) (c cw : Card)
    (hw : s.currentTrick w = some cw) (hp : s.currentTrick p = some c) :
    trickStep s lead (some w) p =
      if strength s.trumpSuit lead cw < strength s.trumpSuit lead c then some p else some w := by
  have hc := rankIndex_lt c.rank
  have hcw := rankIndex_lt cw.rank
  simp only [trickStep, hw, hp, strength]
  rcases Classical.em (some c.suit = s.trumpSuit) with h1 | h1 <;>
    rcases Classical.em (some cw.suit = s.trumpSuit) with h2 | h2 <;>
    rcases Classical.em (some c.suit = lead) with h3 | h3 <;>
    rcases Classical.em (some cw.suit = lead) with h4 | h4 <;>
    (first | have e1 := eq_false h1 | have e1 := eq_true h1) <;>
    (first | have e2 := eq_false h2 | have e2 := eq_true h2) <;>
    (first | have e3 := eq_false h3 | have e3 := eq_true h3) <;>
    (first | have e4 := eq_false h4 | have e4 := eq_true h4) <;>
    simp only [e1, e2, e3, e4, ne_eq, not_true_eq_false, not_false_eq_true, and_self, and_true,
      and_false, true_and, false_and, if_true, if_false, gt_iff_lt] <;>
    split_ifs <;> first | rfl | omega

/-- The loop of `determineTrickWinner`, started with a winner that holds a card, ends with
a seat of the list (or the start seat) whose card is at least as strong as every card met. -/
theorem trickFold_spec (s : GameState) (lead : Option Suit) (l : List Seat) :
    ∀ (w : Seat) (cw : Card), s.currentTrick w = some cw →
      ∃ w2 cw2, l.foldl (trickStep s lead) (some w) = some w2 ∧
        s.currentTrick w2 = some cw2 ∧
        (w2 = w ∨ w2 ∈ l) ∧
        strength s.trumpSuit lead cw ≤ strength s.trumpSuit lead cw2 ∧
        ∀ p ∈ l, ∀ c, s.currentTrick p = some c →
          strength s.trumpSuit lead c ≤ strength s.trumpSuit lead cw2 := by
  induction l with
  | nil =>
    intro w cw hw
    exact ⟨w, cw, rfl, hw, Or.inl rfl, le_refl _, by simp⟩
  | cons p rest ih =>
    intro w cw hw
    rw [List.foldl_cons]
    cases hp : s.currentTrick p with
    | none =>
      have hstep : trickStep s lead (some w) p = some w := by simp [trickStep, hp]
      rw [hstep]
      obtain ⟨w2, cw2, hf, hc2, hmem, hle, hall⟩ := ih w cw hw
      refine ⟨w2, cw2, hf, hc2, ?_, hle, ?_⟩
      · rcases hmem with h | h
        · exact Or.inl h
        · exact Or.inr (List.mem_cons_of_mem _ h)
      · intro q hq c hqc
        rcases List.mem_cons.mp hq with h | h
        · subst h; rw [hp] at hqc; cases hqc
        · exact hall q h c hqc
    | some c =>
      rw [trickStep_some s lead w p c cw hw hp]
      by_cases hlt : strength s.trumpSuit lead cw < strength s.trumpSuit lead c
      · rw [if_pos hlt]
        obtain ⟨w2, cw2, hf, hc2, hmem, hle, hall⟩ := ih p c hp
        refine ⟨w2, cw2, hf, hc2, ?_, by omega, ?_⟩
        · rcases hmem with h | h
          · exact Or.inr (h ▸ List.mem_cons_self _ _)
          · exact Or.inr (List.mem_cons_of_mem _ h)
        · intro q hq d hqd
          rcases List.mem_cons.mp hq with h | h
          · subst h; rw [hp] at hqd; cases hqd; exact hle
          · exact hall q h d hqd
      · rw [if_neg hlt]
        obtain ⟨w2, cw2, hf, hc2, hmem, hle, hall⟩ := ih w cw hw
        refine ⟨w2, cw2, hf, hc2, ?_, hle, ?_⟩
        · rcases hmem with h | h
          · exact Or.inl h
          · exact Or.inr (List.mem_cons_of_mem _ h)
        · intro q hq d hqd
          rcases List.mem_cons.mp hq with h | h
          · subst h; rw [hp] at hqd; cases hqd; omega
          · exact hall q h d hqd

/-- With a card in the slot of the first seat in play order, `determineTrickWinner` returns a
seat of the play order whose card is at least as strong as the lead card and as every card
played. -/
theorem determineTrickWinner_spec (s : GameState) (p0 : Seat) (rest : List Seat) (c0 : Card)
    (horder : s.playOrder = p0 :: rest) (h0 : s.currentTrick p0 = some c0) :
    ∃ w cw, determineTrickWinner s = some w ∧ s.currentTrick w = some cw ∧
      w ∈ s.playOrder ∧
      strength s.trumpSuit (some c0.suit) c0 ≤ strength s.trumpSuit (some c0.suit) cw ∧
      ∀ p ∈ s.playOrder, ∀ c, s.currentTrick p = some c →
        strength s.trumpSuit (some c0.suit) c ≤ strength s.trumpSuit (some c0.suit) cw := by
  have hlead : trickLeadSuit s = some c0.suit := by
    simp [trickLeadSuit, horder, h0]
  have hfirst : trickStep s (some c0.suit) none p0 = some p0 := by
    simp [trickStep, h0]
  obtain ⟨w, cw, hf, hc, hmem, hle, hall⟩ := trickFold_spec s (some c0.suit) rest p0 c0 h0
  refine ⟨w, cw, ?_, hc, ?_, hle, ?_⟩
  · unfold determineTrickWinner
    rw [hlead, horder, List.foldl_cons, hfirst]
    exact hf
  · rw [horder]
    rcases hmem with h | h
    · exact h ▸ List.mem_cons_self _ _
    · exact List.mem_cons_of_mem _ h
  · intro p hp c hpc
    rw [horder] at hp
    rcases List.mem_cons.mp hp with h | h
    · subst h; rw [h0] at hpc; cases hpc; exact hle
    · exact hall p h c hpc

/-- A card that beats another is strictly stronger. -/
theorem strength_lt_of_beats (trump lead : Option Suit) (a b : Card)
    (h : beats trump lead a b) : strength trump lead b < strength trump lead a := by
  have ha := rankIndex_lt a.rank
  have hb := rankIndex_lt b.rank
  unfold beats at h
  unfold strength
  rcases h with ⟨h1, h2⟩ | ⟨h1, h2, h3⟩ | ⟨h1, h2, h3, h4⟩ | ⟨h1, h2, h3⟩ | ⟨h1, h2, h3, h4, h5⟩
  · rw [if_pos h1, if_neg h2]; split_ifs <;> omega
  · rw [if_pos h1, if_pos h2]; omega
  · rw [if_neg h1, if_pos h2, if_neg h3, if_neg h4]; omega
  · by_cases ht : some a.suit = trump
    · have hbt : some b.suit = trump := by rw [h2, ← h1]; exact ht
      rw [if_pos ht, if_pos hbt]; omega
    · have hbt : ¬ some b.suit = trump := by rw [h2, ← h1]; exact ht
      rw [if_neg ht, if_neg hbt, if_pos h1, if_pos h2]; omega
  · rw [if_neg h1, if_neg h2, if_neg h3, if_neg h4]; exact h5

/-- C1: for every trump suit (also unset) and every completed trick, four seats in some play
order each with a card in its slot, `determineTrickWinner` returns a seat whose card no card
of the trick beats, where "beats" is the priority relation relative to the lead suit, the
suit of the first card in play order. -/
theorem determineTrickWinner_unbeaten (s : GameState)
    (hnodup : s.playOrder.Nodup) (hlen : s.playOrder.length = 4)
    (hfull : ∀ i, s.currentTrick i ≠ none) :
    ∃ w cw first lead, determineTrickWinner s = some w ∧ s.currentTrick w = some cw ∧
      s.playOrder.head? = some first ∧ s.currentTrick first = some lead ∧
      ∀ j c, s.currentTrick j = some c → ¬ beats s.trumpSuit (some lead.suit) c cw := by
  obtain ⟨p0, rest, horder⟩ : ∃ p0 rest, s.playOrder = p0 :: rest := by
    cases h : s.playOrder with
    | nil => rw [h] at hlen; cases hlen
    | cons a l => exact ⟨a, l, rfl⟩
  obtain ⟨c0, h0⟩ := Option.ne_none_iff_exists'.mp (hfull p0)
  obtain ⟨w, cw, hw, hcw, _, _, hall⟩ := determineTrickWinner_spec s p0 rest c0 horder h0
  refine ⟨w, cw, p0, c0, hw, hcw, by rw [horder]; rfl, h0, ?_⟩
  intro j c hj hb
  have h1 := hall j (seat_mem_of_nodup hnodup hlen j) c hj
  have h2 := strength_lt_of_beats _ _ _ _ hb
  omega

/-- Scenario of C1: in the Hearts trick the winner is seat 0 and no card beats its ace. -/
theorem determineTrickWinner_unbeaten_witness :
    ∃ w cw first lead, determineTrickWinner scenarioHearts = some w ∧
      scenarioHearts.currentTrick w = some cw ∧
      scenarioHearts.playOrder.head? = some first ∧
      scenarioHearts.currentTrick first = some lead ∧
      ∀ j c, scenarioHearts.currentTrick j = some c →
        ¬ beats scenarioHearts.trumpSuit (some lead.suit) c cw :=
  determineTrickWinner_unbeaten scenarioHearts (by decide) (by decide) (by decide)

/-- Two cards of one suit and one rank are the same card. -/
theorem card_eq_of_suit_rank {a b : Card} (hs : a.suit = b.suit)
    (hr : rankIndex a.rank = rankIndex b.rank) : a = b := by
  rcases a with ⟨ra, ua⟩
  rcases b with ⟨rb, ub⟩
  simp only at hs hr
  rw [hs, rankIndex_injective hr]

/-- The general part of C2: with four distinct cards played by four distinct seats, the
winner played the highest trump if a trump was played, else the highest card of the lead
suit (the suit of the first card in play order). -/
theorem determineTrickWinner_highest_general (s : GameState)
    (hnodup : s.playOrder.Nodup) (hlen : s.playOrder.length = 4)
    (hfull : ∀ i, s.currentTrick i ≠ none)
    (hdistinct : ∀ i j, s.currentTrick i = s.currentTrick j → i = j) :
    ∃ w cw first lead, determineTrickWinner s = some w ∧ s.currentTrick w = some cw ∧
      s.playOrder.head? = some first ∧ s.currentTrick first = some lead ∧
      ((∃ j c, s.currentTrick j = some c ∧ some c.suit = s.trumpSuit) →
        some cw.suit = s.trumpSuit ∧
        ∀ j c, j ≠ w → s.currentTrick j = some c → some c.suit = s.trumpSuit →
          rankIndex c.rank < rankIndex cw.rank) ∧
      ((¬ ∃ j c, s.currentTrick j = some c ∧ some c.suit = s.trumpSuit) →
        cw.suit = lead.suit ∧
        ∀ j c, j ≠ w → s.currentTrick j = some c → c.suit = lead.suit →
          rankIndex c.rank < rankIndex cw.rank) := by
  obtain ⟨p0, rest, horder⟩ : ∃ p0 rest, s.playOrder = p0 :: rest := by
    cases h : s.playOrder with
    | nil => rw [h] at hlen; cases hlen
    | cons a l => exact ⟨a, l, rfl⟩
  obtain ⟨c0, h0⟩ := Option.ne_none_iff_exists'.mp (hfull p0)
  obtain ⟨w, cw, hw, hcw, _, hle, hall⟩ := determineTrickWinner_spec s p0 rest c0 horder h0
  have hmem := seat_mem_of_nodup hnodup hlen
  have hrw := rankIndex_lt cw.rank
  refine ⟨w, cw, p0, c0, hw, hcw, by rw [horder]; rfl, h0, ?_, ?_⟩
  · rintro ⟨jt, ct, hjt, hct⟩
    have hwt : some cw.suit = s.trumpSuit := by
      by_contra hne
      have h1 := hall jt (hmem jt) ct hjt
      have hrt := rankIndex_lt ct.rank
      unfold strength at h1
      rw [if_pos hct, if_neg hne] at h1
      split_ifs at h1 <;> omega
    refine ⟨hwt, ?_⟩
    intro j c hjw hj hc
    have h1 := hall j (hmem j) c hj
    unfold strength at h1
    rw [if_pos hc, if_pos hwt] at h1
    rcases Nat.lt_or_ge (rankIndex c.rank) (rankIndex cw.rank) with hlt | hge
    · exact hlt
    · exfalso
      have hsuit : c.suit = cw.suit := Option.some.inj (hc.trans hwt.symm)
      have hcard : c = cw := card_eq_of_suit_rank hsuit (by omega)
      exact hjw (hdistinct j w (by rw [hj, hcw, hcard]))
  · intro hnone
    have hnt : ∀ j c, s.currentTrick j = some c → ¬ some c.suit = s.trumpSuit :=
      fun j c hj hc => hnone ⟨j, c, hj, hc⟩
    have hwn := hnt w cw hcw
    have h0n := hnt p0 c0 h0
    have hwl : cw.suit = c0.suit := by
      by_contra hne
      have hne2 : ¬ some cw.suit = some c0.suit := fun h => hne (Option.some.inj h)
      unfold strength at hle
      rw [if_neg h0n, if_pos rfl, if_neg hwn, if_neg hne2] at hle
      omega
    refine ⟨hwl, ?_⟩
    intro j c hjw hj hc
    have h1 := hall j (hmem j) c hj
    have hcn := hnt j c hj
    unfold strength at h1
    rw [if_neg hcn, if_pos (congrArg some hc), if_neg hwn, if_pos (congrArg some hwl)] at h1
    rcases Nat.lt_or_ge (rankIndex c.rank) (rankIndex cw.rank) with hlt | hge
    · exact hlt
    · exfalso
      have hcard : c = cw := card_eq_of_suit_rank (hc.trans hwl.symm) (by omega)
      exact hjw (hdistinct j w (by rw [hj, hcw, hcard]))

/-- C2: for every trump suit and every completed trick of four distinct cards, if a trump was
played `determineTrickWinner` returns the seat that played the highest trump, otherwise the
seat that played the highest card of the lead suit, the suit of the first card in play order.
Scenarios: trump Hearts, plays 2H by seat 1, KH by seat 2, 3H by seat 3, AH by seat 0 gives
seat 0; lead Clubs, plays 5C, 9C, QC, 2C with no trump played gives the seat that played QC. -/
theorem determineTrickWinner_highest :
    (∀ s : GameState, s.playOrder.Nodup → s.playOrder.length = 4 →
      (∀ i, s.currentTrick i ≠ none) →
      (∀ i j, s.currentTrick i = s.currentTrick j → i = j) →
      ∃ w cw first lead, determineTrickWinner s = some w ∧ s.currentTrick w = some cw ∧
        s.playOrder.head? = some first ∧ s.currentTrick first = some lead ∧
        ((∃ j c, s.currentTrick j = some c ∧ some c.suit = s.trumpSuit) →
          some cw.suit = s.trumpSuit ∧
          ∀ j c, j ≠ w → s.currentTrick j = some c → some c.suit = s.trumpSuit →
            rankIndex c.rank < rankIndex cw.rank) ∧
        ((¬ ∃ j c, s.currentTrick j = some c ∧ some c.suit = s.trumpSuit) →
          cw.suit = lead.suit ∧
          ∀ j c, j ≠ w → s.currentTrick j = some c → c.suit = lead.suit →
            rankIndex c.rank < rankIndex cw.rank)) ∧
    determineTrickWinner scenarioHearts = some 0 ∧
    (determineTrickWinner scenarioClubs = some 3 ∧
      scenarioClubs.currentTrick 3 = some ⟨Rank.Q, Suit.C⟩) :=
  ⟨determineTrickWinner_highest_general, by decide, by decide, by decide⟩

/-- The general part of C2 applied to the Clubs scenario. -/
theorem determineTrickWinner_highest_witness :
    ∃ w cw first lead, determineTrickWinner scenarioClubs = some w ∧
      scenarioClubs.currentTrick w = some cw ∧
      scenarioClubs.playOrder.head? = some first ∧
      scenarioClubs.currentTrick first = some lead ∧
      ((∃ j c, scenarioClubs.currentTrick j = some c ∧ some c.suit = scenarioClubs.trumpSuit) →
        some cw.suit = scenarioClubs.trumpSuit ∧
        ∀ j c, j ≠ w → scenarioClubs.currentTrick j = some c →
          some c.suit = scenarioClubs.trumpSuit → rankIndex c.rank < rankIndex cw.rank) ∧
      ((¬ ∃ j c, scenarioClubs.currentTrick j = some c ∧
          some c.suit = scenarioClubs.trumpSuit) →
        cw.suit = lead.suit ∧
        ∀ j c, j ≠ w → scenarioClubs.currentTrick j = some c → c.suit = lead.suit →
          rankIndex c.rank < rankIndex cw.rank) :=
  determineTrickWinner_highest.1 scenarioClubs (by decide) (by decide) (by decide) (by decide)

/-! ## Legal moves -/

theorem mem_seats (j : Seat) : j ∈ seats := by
  revert j; decide

theorem maskAt_set (m : List Bool) (k i : Nat) (hk : k < m.length) :
    maskAt (m.set k true) i = true ↔ i = k ∨ maskAt m i = true := by
  unfold maskAt
  simp only [List.getD_eq_getElem?_getD, List.getElem?_set]
  by_cases h : k = i
  · subst h; simp [hk]
  · have h2 : ¬ i = k := fun e => h e.symm
    simp [h, h2]

/-- A loop that sets the mask entry of every card of the hand satisfying `P`. -/
theorem maskFold_spec (P : Card → Prop) [DecidablePred P] (hand : List Card) :
    ∀ (init : List Bool), init.length = 52 → ∀ i,
      (maskAt (hand.foldl (fun m c => if P c then m.set (cardMap c) true else m) init) i = true ↔
        maskAt init i = true ∨ ∃ c ∈ hand, P c ∧ cardMap c = i) := by
  induction hand with
  | nil => intro init _ i; simp
  | cons c rest ih =>
    intro init hlen i
    rw [List.foldl_cons]
    by_cases hP : P c
    · rw [if_pos hP]
      rw [ih (init.set (cardMap c) true) (by simpa using hlen) i]
      rw [maskAt_set init (cardMap c) i (by rw [hlen]; exact cardMap_lt c)]
      constructor
      · rintro ((h | h) | ⟨d, hd, hPd, hdi⟩)
        · exact Or.inr ⟨c, List.mem_cons_self _ _, hP, h.symm⟩
        · exact Or.inl h
        · exact Or.inr ⟨d, List.mem_cons_of_mem _ hd, hPd, hdi⟩
      · rintro (h | ⟨d, hd, hPd, hdi⟩)
        · exact Or.inl (Or.inr h)
        · rcases List.mem_cons.mp hd with e | e
          · subst e; exact Or.inl (Or.inl hdi.symm)
          · exact Or.inr ⟨d, e, hPd, hdi⟩
    · rw [if_neg hP, ih init hlen i]
      constructor
      · rintro (h | ⟨d, hd, hPd, hdi⟩)
        · exact Or.inl h
        · exact Or.inr ⟨d, List.mem_cons_of_mem _ hd, hPd, hdi⟩
      · rintro (h | ⟨d, hd, hPd, hdi⟩)
        · exact Or.inl h
        · rcases List.mem_cons.mp hd with e | e
          · subst e; exact absurd hPd hP
          · exact Or.inr ⟨d, e, hPd, hdi⟩

theorem maskAt_replicate_false (i : Nat) : maskAt (List.replicate 52 false) i = false := by
  unfold maskAt
  simp only [List.getD_eq_getElem?_getD, List.getElem?_replicate]
  split <;> rfl

theorem trick_empty_iff (s : GameState) :
    (seats.filter (fun i => (s.currentTrick i).isSome)).length = 0 ↔
      ∀ j, s.currentTrick j = none := by
  rw [List.length_eq_zero, List.filter_eq_nil_iff]
  constructor
  · intro h j
    have := h j (mem_seats j)
    simpa using this
  · intro h j _
    simp [h j]

/-- On an empty trick the mask of `getLegalMoves` is true exactly at the cards of the hand. -/
theorem getLegalMoves_leading (s : GameState) (p : Seat) (he : ∀ j, s.currentTrick j = none)
    (i : Nat) :
    maskAt (getLegalMoves s p) i = true ↔ ∃ c ∈ s.hands p, cardMap c = i := by
  have h := maskFold_spec (fun _ => True) (s.hands p) (List.replicate 52 false) (by simp) i
  simp only [if_true, maskAt_replicate_false, true_and, Bool.false_eq_true, false_or] at h
  unfold getLegalMoves
  simp only [(trick_empty_iff s).mpr he, if_true]
  exact h

/-- On a non-empty trick the mask of `getLegalMoves` is true exactly at the cards of the hand
that are trump, or of the suit of the first filled slot, or any card when the hand holds no
card of that suit. -/
theorem getLegalMoves_following (s : GameState) (p : Seat) (hne : ∃ j, s.currentTrick j ≠ none)
    (i : Nat) :
    maskAt (getLegalMoves s p) i = true ↔
      ∃ c ∈ s.hands p, (some c.suit = s.trumpSuit ∨
        (∀ d ∈ s.hands p, some d.suit ≠ firstSlotSuit s) ∨
        some c.suit = firstSlotSuit s) ∧ cardMap c = i := by
  have hcond : ¬ (seats.filter (fun i => (s.currentTrick i).isSome)).length = 0 := by
    rw [trick_empty_iff]
    obtain ⟨j, hj⟩ := hne
    exact fun h => hj (h j)
  have h := maskFold_spec (fun c => some c.suit = s.trumpSuit ∨
        (∀ d ∈ s.hands p, some d.suit ≠ firstSlotSuit s) ∨
        some c.suit = firstSlotSuit s) (s.hands p) (List.replicate 52 false) (by simp) i
  simp only [maskAt_replicate_false, Bool.false_eq_true, false_or] at h
  rw [← h]
  unfold getLegalMoves
  simp only [hcond, if_false]
  have hfun : (fun (mask : List Bool) (card : Card) =>
      if some card.suit = s.trumpSuit then mask.set (cardMap card) true
      else if (s.hands p).any (fun card => decide (some card.suit = firstSlotSuit s)) = true ∧
          some card.suit = firstSlotSuit s then mask.set (cardMap card) true
      else if (s.hands p).any (fun card => decide (some card.suit = firstSlotSuit s)) = false
        then mask.set (cardMap card) true
      else mask) =
      (fun (m : List Bool) (c : Card) => if some c.suit = s.trumpSuit ∨
        (∀ d ∈ s.hands p, some d.suit ≠ firstSlotSuit s) ∨
        some c.suit = firstSlotSuit s then m.set (cardMap c) true else m) := by
    funext mask card
    by_cases hany : (s.hands p).any (fun card => decide (some card.suit = firstSlotSuit s)) = true
    · have hex : ¬ ∀ d ∈ s.hands p, some d.suit ≠ firstSlotSuit s := by
        intro hall
        rw [List.any_eq_true] at hany
        obtain ⟨d, hd, hdd⟩ := hany
        exact hall d hd (of_decide_eq_true hdd)
      simp only [hany, true_and, hex, false_or, Bool.true_eq_false, if_false]
      by_cases h1 : some card.suit = s.trumpSuit <;> by_cases h2 : some card.suit = firstSlotSuit s
        <;> simp [h1, h2]
    · have hany2 : (s.hands p).any (fun card => decide (some card.suit = firstSlotSuit s)) = false := by
        simpa using hany
      have hall : ∀ d ∈ s.hands p, some d.suit ≠ firstSlotSuit s := by
        intro d hd hdd
        apply hany
        rw [List.any_eq_true]
        exact ⟨d, hd, decide_eq_true hdd⟩
      have hall2 : (∀ d ∈ s.hands p, some d.suit ≠ firstSlotSuit s) = True := eq_true hall
      simp only [hany2, Bool.false_eq_true, false_and, if_false, if_true, hall2, true_or, or_true]
      by_cases h1 : some card.suit = s.trumpSuit <;> simp [h1]
  rw [hfun]

/-- C4: for every state (any trick, any trump suit, also unset) and every seat whose hand is
not empty, the mask of `getLegalMoves` has a true entry; and on an empty trick the mask is
true exactly at the cards of the seat's hand. -/
theorem getLegalMoves_nonempty (s : GameState) (p : Seat) :
    (s.hands p ≠ [] → ∃ i, maskAt (getLegalMoves s p) i = true) ∧
    ((∀ j, s.currentTrick j = none) →
      ∀ i, maskAt (getLegalMoves s p) i = true ↔ ∃ c ∈ s.hands p, cardMap c = i) := by
  refine ⟨?_, fun he i => getLegalMoves_leading s p he i⟩
  intro hhand
  obtain ⟨c0, hc0⟩ := List.exists_mem_of_ne_nil _ hhand
  by_cases he : ∀ j, s.currentTrick j = none
  · exact ⟨cardMap c0, (getLegalMoves_leading s p he _).mpr ⟨c0, hc0, rfl⟩⟩
  · have hne : ∃ j, s.currentTrick j ≠ none := by
      by_contra h
      exact he (fun j => by_contra (fun hj => h ⟨j, hj⟩))
    by_cases hfollow : ∃ d ∈ s.hands p, some d.suit = firstSlotSuit s
    · obtain ⟨d, hd, hdd⟩ := hfollow
      exact ⟨cardMap d, (getLegalMoves_following s p hne _).mpr ⟨d, hd, Or.inr (Or.inr hdd), rfl⟩⟩
    · have hall : ∀ d ∈ s.hands p, some d.suit ≠ firstSlotSuit s :=
        fun d hd hdd => hfollow ⟨d, hd, hdd⟩
      exact ⟨cardMap c0,
        (getLegalMoves_following s p hne _).mpr ⟨c0, hc0, Or.inr (Or.inl hall), rfl⟩⟩

/-- C3, the code at a reachable state: seat 3 led the 5 of Hearts and seat 0, holding no
heart, then played the 2 of Clubs (a card its own mask allowed). The lead suit by play order
is Hearts and seat 1 holds the 9 of Hearts, yet `getLegalMoves(1)` takes its lead suit from
slot 0 (Clubs) and marks the 7 of Clubs, neither trump nor of the suit led, as legal. -/
theorem getLegalMoves_lead_by_slot_example :
    maskAt (getLegalMoves (playCard (cardMap ⟨Rank.r5, Suit.H⟩) exampleAuction) 0)
      (cardMap ⟨Rank.r2, Suit.C⟩) = true ∧
    followState.playOrder = [3, 0] ∧
    followState.currentTrick 3 = some ⟨Rank.r5, Suit.H⟩ ∧
    followState.currentTrick 0 = some ⟨Rank.r2, Suit.C⟩ ∧
    followState.currentPlayer = 1 ∧
    followState.trumpSuit = some Suit.H ∧
    trickLeadSuit followState = some Suit.H ∧
    firstSlotSuit followState = some Suit.C ∧
    (⟨Rank.r9, Suit.H⟩ : Card) ∈ followState.hands 1 ∧
    (⟨Rank.r7, Suit.C⟩ : Card) ∈ followState.hands 1 ∧
    maskAt (getLegalMoves followState 1) (cardMap ⟨Rank.r7, Suit.C⟩) = true := by
  decide

/-- C4 at the example round: seat 1, following on a trick of two cards, has a legal card. -/
theorem getLegalMoves_nonempty_witness :
    ∃ i, maskAt (getLegalMoves followState 1) i = true :=
  (getLegalMoves_nonempty followState 1).1 (by decide)

/-! ## Playing a card -/

/-- The trump resolver writes `specialPoints` and `roundResults` and nothing else. -/
theorem calculateSpecialPointsWhenTrumpDetermined_frame (s : GameState) :
    ∃ sp rr, calculateSpecialPointsWhenTrumpDetermined s =
      { s with specialPoints := sp, roundResults := rr } := by
  unfold calculateSpecialPointsWhenTrumpDetermined
  dsimp only
  repeat' split
  all_goals exact ⟨_, _, rfl⟩

theorem calculateSpecialPointsWhenTrumpDetermined_trumpSuit (s : GameState) :
    (calculateSpecialPointsWhenTrumpDetermined s).trumpSuit = s.trumpSuit := by
  obtain ⟨sp, rr, h⟩ := calculateSpecialPointsWhenTrumpDetermined_frame s
  rw [h]

/-- The state an accepted `playCard` returns: the card moves from the hand to the player's
slot, history and play order grow by one entry, the turn passes on; trump, special points and
round results are whatever the trump resolver left. -/
theorem playCard_accepted (s : GameState) (cardIndex : Nat) (card : Card)
    (hidx : invCardMap cardIndex = some card) (hmem : card ∈ s.hands s.currentPlayer) :
    ∃ tr sp rr, playCard cardIndex s =
      { s with
        currentTrick := upd s.currentTrick s.currentPlayer (some card)
        hands := upd s.hands s.currentPlayer
          ((s.hands s.currentPlayer).filter (fun c => decide (c ≠ card)))
        historyOfPlayedCards := s.historyOfPlayedCards ++ [card]
        playOrder := s.playOrder ++ [s.currentPlayer]
        currentPlayer := nextSeat s.currentPlayer
        trumpSuit := tr
        specialPoints := sp
        roundResults := rr } := by
  unfold playCard
  simp only [hidx, hmem, not_true_eq_false, if_false]
  split
  · obtain ⟨sp, rr, h⟩ := calculateSpecialPointsWhenTrumpDetermined_frame
      { s with
        currentTrick := upd s.currentTrick s.currentPlayer (some card)
        hands := upd s.hands s.currentPlayer
          ((s.hands s.currentPlayer).filter (fun c => decide (c ≠ card)))
        historyOfPlayedCards := s.historyOfPlayedCards ++ [card]
        playOrder := s.playOrder ++ [s.currentPlayer]
        trumpSuit := some card.suit }
    rw [h]
    exact ⟨_, _, _, rfl⟩
  · exact ⟨_, _, _, rfl⟩

/-- A card index that names no card of the current player's hand is rejected by `playCard`. -/
theorem playCard_not_in_hand (s : GameState) (cardIndex : Nat)
    (h : ∀ c, invCardMap cardIndex = some c → c ∉ s.hands s.currentPlayer) :
    playCard cardIndex s = s := by
  unfold playCard
  cases hidx : invCardMap cardIndex with
  | none => rfl
  | some card => simp only [h card hidx, not_false_eq_true, if_true]

/-- C5, the claim fails as stated: in the example round seat 1 is to play, holds the 2 of
Diamonds, and `getLegalMoves(1)` marks it illegal; `playCard` accepts it all the same, puts
it on the trick and passes the turn. -/
theorem playCard_accepts_illegal_card :
    followState.currentPlayer = 1 ∧
    (⟨Rank.r2, Suit.D⟩ : Card) ∈ followState.hands followState.currentPlayer ∧
    maskAt (getLegalMoves followState followState.currentPlayer)
      (cardMap ⟨Rank.r2, Suit.D⟩) = false ∧
    (playCard (cardMap ⟨Rank.r2, Suit.D⟩) followState).currentTrick 1 =
      some ⟨Rank.r2, Suit.D⟩ ∧
    (playCard (cardMap ⟨Rank.r2, Suit.D⟩) followState).currentPlayer = 2 ∧
    playCard (cardMap ⟨Rank.r2, Suit.D⟩) followState ≠ followState := by
  refine ⟨by decide, by decide, by decide, by decide, by decide, ?_⟩
  intro h
  have h2 := congrArg GameState.currentPlayer h
  revert h2
  decide

/-- C5 as amended: `playCard` changes the state only if the card index names a card of the
current player's hand, and otherwise leaves every field unchanged; the follow-suit and trump
check is made by `selectCard`, which leaves every field unchanged when the mask of
`getLegalMoves(0)` is false at the card, and changes the state only for a card of seat 0's
hand that the mask allows, in the playing phase, on seat 0's turn, outside a transition. -/
theorem playCard_rejects_card_not_in_hand (s : GameState) (cardIndex : Nat) :
    (playCard cardIndex s ≠ s →
      ∃ c, invCardMap cardIndex = some c ∧ c ∈ s.hands s.currentPlayer) ∧
    ((∀ c, invCardMap cardIndex = some c → c ∉ s.hands s.currentPlayer) →
      playCard cardIndex s = s) ∧
    (∀ card, maskAt (getLegalMoves s 0) (cardMap card) = false → selectCard card s = s) ∧
    (∀ card, selectCard card s ≠ s →
      card ∈ s.hands 0 ∧ maskAt (getLegalMoves s 0) (cardMap card) = true ∧
      s.phase = Phase.playing ∧ s.currentPlayer = 0 ∧ s.isTransitioning = false) := by
  refine ⟨?_, playCard_not_in_hand s cardIndex, ?_, ?_⟩
  · intro hne
    by_contra hno
    apply hne
    apply playCard_not_in_hand
    intro c hc hmem
    exact hno ⟨c, hc, hmem⟩
  · intro card hmask
    unfold selectCard
    split
    · rfl
    · simp only [hmask, Bool.false_eq_true, if_false]
  · intro card hne
    unfold selectCard at hne
    split at hne
    · exact absurd rfl hne
    · rename_i hguard
      have hguard2 : s.phase = Phase.playing ∧ s.currentPlayer = 0 ∧ s.isTransitioning = false := by
        refine ⟨?_, ?_, ?_⟩
        · by_contra h; exact hguard (Or.inl h)
        · by_contra h; exact hguard (Or.inr (Or.inl h))
        · cases ht : s.isTransitioning with
          | false => rfl
          | true => exact absurd (Or.inr (Or.inr ht)) hguard
      by_cases hmask : maskAt (getLegalMoves s 0) (cardMap card) = true
      · refine ⟨?_, hmask, hguard2⟩
        have hin : ∃ c ∈ s.hands 0, cardMap c = cardMap card := by
          by_cases he : ∀ j, s.currentTrick j = none
          · exact (getLegalMoves_leading s 0 he _).mp hmask
          · have hex : ∃ j, s.currentTrick j ≠ none := by
              by_contra h
              exact he (fun j => by_contra (fun hj => h ⟨j, hj⟩))
            obtain ⟨c, hc, _, hcm⟩ := (getLegalMoves_following s 0 hex _).mp hmask
            exact ⟨c, hc, hcm⟩
        obtain ⟨c, hc, hcm⟩ := hin
        rw [← cardMap_injective hcm]
        exact hc
      · simp only [hmask, if_false] at hne
        exact absurd rfl hne

/-- The amended C5 at the example round: index 51 names the Ace of Spades, which seat 1 does
not hold, and `playCard(51)` leaves the state as it is. -/
theorem playCard_rejects_card_not_in_hand_witness :
    playCard 51 followState = followState :=
  (playCard_rejects_card_not_in_hand followState 51).2.1 (by
    intro c hc
    have h51 : invCardMap 51 = some ⟨Rank.A, Suit.S⟩ := by decide
    rw [h51] at hc
    cases hc
    decide)

/-- C6: for every state whose current player `p` holds the card `c` and no card twice (hands
are dealt from 52 distinct cards, and the hand is again without repeats afterwards),
an accepted `playCard` removes exactly `c` from `p`'s hand (one card fewer, the others in
their order), puts `c` in slot `p` of the trick, appends `c` to the history and `p` to the
play order, passes the turn to `(p + 1) mod 4`, and leaves the other three hands, the
scores, `trickWins`, the bids and `cardsWonInTricks` unchanged. -/
theorem playCard_effect (s : GameState) (c : Card)
    (hc : c ∈ s.hands s.currentPlayer) (hnd : (s.hands s.currentPlayer).Nodup) :
    (playCard (cardMap c) s).hands s.currentPlayer = (s.hands s.currentPlayer).erase c ∧
    ((playCard (cardMap c) s).hands s.currentPlayer).length + 1 =
      (s.hands s.currentPlayer).length ∧
    c ∉ (playCard (cardMap c) s).hands s.currentPlayer ∧
    ((playCard (cardMap c) s).hands s.currentPlayer).Nodup ∧
    (playCard (cardMap c) s).currentTrick s.currentPlayer = some c ∧
    (playCard (cardMap c) s).historyOfPlayedCards = s.historyOfPlayedCards ++ [c] ∧
    (playCard (cardMap c) s).playOrder = s.playOrder ++ [s.currentPlayer] ∧
    ((playCard (cardMap c) s).currentPlayer).val = (s.currentPlayer.val + 1) % 4 ∧
    (∀ j, j ≠ s.currentPlayer → (playCard (cardMap c) s).hands j = s.hands j) ∧
    (playCard (cardMap c) s).scores = s.scores ∧
    (playCard (cardMap c) s).trickWins = s.trickWins ∧
    (playCard (cardMap c) s).bids = s.bids ∧
    (playCard (cardMap c) s).cardsWonInTricks = s.cardsWonInTricks := by
  obtain ⟨tr, sp, rr, h⟩ := playCard_accepted s (cardMap c) c (invCardMap_cardMap c) hc
  rw [h]
  have hfilter : (s.hands s.currentPlayer).filter (fun d => decide (d ≠ c)) =
      (s.hands s.currentPlayer).erase c := by
    have hfun : (fun d : Card => decide (d ≠ c)) = (fun d => d != c) := by
      funext d
      by_cases hd : d = c <;> simp [hd]
    rw [hfun]
    exact (List.Nodup.erase_eq_filter hnd c).symm
  have hhand : upd s.hands s.currentPlayer
      ((s.hands s.currentPlayer).filter (fun d => decide (d ≠ c))) s.currentPlayer =
      (s.hands s.currentPlayer).erase c := by
    simp only [upd, if_true, hfilter]
  refine ⟨hhand, ?_, ?_, ?_, ?_, rfl, rfl, rfl, ?_, rfl, rfl, rfl, rfl⟩
  · show (upd s.hands s.currentPlayer _ s.currentPlayer).length + 1 = _
    rw [hhand, List.length_erase_of_mem hc]
    have : 0 < (s.hands s.currentPlayer).length := List.length_pos_of_mem hc
    omega
  · show c ∉ upd s.hands s.currentPlayer _ s.currentPlayer
    rw [hhand]
    exact fun hin => (List.Nodup.mem_erase_iff hnd).mp hin |>.1 rfl
  · show (upd s.hands s.currentPlayer _ s.currentPlayer).Nodup
    rw [hhand]
    exact List.Nodup.erase c hnd
  · show upd s.currentTrick s.currentPlayer (some c) s.currentPlayer = some c
    simp only [upd, if_true]
  · intro j hj
    show upd s.hands s.currentPlayer _ j = s.hands j
    simp only [upd, hj, if_false]

/-- C6 at the example round: the bid winner, seat 3, leads the 5 of Hearts. -/
theorem playCard_effect_witness :
    (playCard (cardMap ⟨Rank.r5, Suit.H⟩) exampleAuction).hands exampleAuction.currentPlayer =
      (exampleAuction.hands exampleAuction.currentPlayer).erase ⟨Rank.r5, Suit.H⟩ ∧
    (playCard (cardMap ⟨Rank.r5, Suit.H⟩) exampleAuction).currentTrick
      exampleAuction.currentPlayer = some ⟨Rank.r5, Suit.H⟩ :=
  have h := playCard_effect exampleAuction ⟨Rank.r5, Suit.H⟩ (by decide) (by decide)
  ⟨h.1, h.2.2.2.2.1⟩

/-! ## When trump is fixed -/

theorem processBid_trumpSuit (bidIndex : Nat) (s : GameState) :
    (processBid bidIndex s).trumpSuit = s.trumpSuit := by
  unfold processBid
  dsimp only
  split
  · split <;> rfl
  · rfl

theorem processBid_history (bidIndex : Nat) (s : GameState) :
    (processBid bidIndex s).historyOfPlayedCards = s.historyOfPlayedCards := by
  unfold processBid
  dsimp only
  split
  · split <;> rfl
  · rfl

theorem processBids_trumpSuit (bids : List Nat) :
    ∀ s : GameState,
      (bids.foldl (fun st bidIndex => processBid bidIndex st) s).trumpSuit = s.trumpSuit := by
  induction bids with
  | nil => intro s; rfl
  | cons b rest ih => intro s; rw [List.foldl_cons, ih, processBid_trumpSuit]

theorem processBids_history (bids : List Nat) :
    ∀ s : GameState,
      (bids.foldl (fun st bidIndex => processBid bidIndex st) s).historyOfPlayedCards =
        s.historyOfPlayedCards := by
  induction bids with
  | nil => intro s; rfl
  | cons b rest ih => intro s; rw [List.foldl_cons, ih, processBid_history]

theorem endBiddingPhase_trumpSuit (s : GameState) :
    (endBiddingPhase s).trumpSuit = s.trumpSuit := by
  unfold endBiddingPhase
  cases s.bidWinner <;> rfl

theorem endBiddingPhase_history (s : GameState) :
    (endBiddingPhase s).historyOfPlayedCards = s.historyOfPlayedCards := by
  unfold endBiddingPhase
  cases s.bidWinner <;> rfl

/-- When the auction closes, the bid winner has the turn. -/
theorem endBiddingPhase_bidWinner (s : GameState) :
    (endBiddingPhase s).bidWinner = some (endBiddingPhase s).currentPlayer := by
  unfold endBiddingPhase
  cases h : s.bidWinner with
  | none => rfl
  | some w => simp only [h]

/-- The first card of a round, played by the bid winner, fixes trump at its suit. -/
theorem playCard_first_lead (s : GameState) (card : Card)
    (hhist : s.historyOfPlayedCards = []) (hwin : s.bidWinner = some s.currentPlayer)
    (hmem : card ∈ s.hands s.currentPlayer) :
    (playCard (cardMap card) s).trumpSuit = some card.suit := by
  unfold playCard
  simp only [invCardMap_cardMap, hmem, not_true_eq_false, if_false, hhist, hwin,
    List.nil_append, List.length_singleton, and_self, if_true]
  exact calculateSpecialPointsWhenTrumpDetermined_trumpSuit _

/-- A round from a start state without trump and without history: trump stays unset through
any bids and the close of the auction, and the bid winner's first card sets it. -/
theorem round_trump_of_start (start : GameState) (bids : List Nat) (card : Card)
    (htrump : start.trumpSuit = none) (hhist : start.historyOfPlayedCards = []) :
    (bids.foldl (fun st bidIndex => processBid bidIndex st) start).trumpSuit = none ∧
    (endBiddingPhase
      (bids.foldl (fun st bidIndex => processBid bidIndex st) start)).trumpSuit = none ∧
    (endBiddingPhase
      (bids.foldl (fun st bidIndex => processBid bidIndex st) start)).historyOfPlayedCards
        = [] ∧
    (endBiddingPhase (bids.foldl (fun st bidIndex => processBid bidIndex st) start)).bidWinner =
      some (endBiddingPhase
        (bids.foldl (fun st bidIndex => processBid bidIndex st) start)).currentPlayer ∧
    (card ∈ (endBiddingPhase
        (bids.foldl (fun st bidIndex => processBid bidIndex st) start)).hands
          (endBiddingPhase
            (bids.foldl (fun st bidIndex => processBid bidIndex st) start)).currentPlayer →
      (playCard (cardMap card) (endBiddingPhase
        (bids.foldl (fun st bidIndex => processBid bidIndex st) start))).trumpSuit
          = some card.suit) := by
  have h1 := processBids_trumpSuit bids start
  have h2 := processBids_history bids start
  have h3 := endBiddingPhase_trumpSuit (bids.foldl (fun st bidIndex => processBid bidIndex st) start)
  have h4 := endBiddingPhase_history (bids.foldl (fun st bidIndex => processBid bidIndex st) start)
  have h5 := endBiddingPhase_bidWinner (bids.foldl (fun st bidIndex => processBid bidIndex st) start)
  refine ⟨by rw [h1, htrump], by rw [h3, h1, htrump], by rw [h4, h2, hhist], h5, ?_⟩
  intro hmem
  exact playCard_first_lead _ card (by rw [h4, h2, hhist]) h5 hmem

/-- C7: in every round, started by `newGame` or by `dealNewHand`, `dealCards` leaves
`trumpSuit` null, it stays null through every bid and the close of the auction, and when the
bid winner then plays the first card of the round (history empty, `currentPlayer` the bid
winner) `trumpSuit` becomes the suit of that card. -/
theorem trumpSuit_fixed_by_first_lead (dealer : Seat) (rnd : Nat → Nat) (prev : GameState)
    (bids : List Nat) (card : Card) :
    (dealCards rnd prev).trumpSuit = none ∧
    (∀ start, start = newGame dealer rnd ∨ start = dealNewHand rnd prev →
      start.trumpSuit = none ∧
      (bids.foldl (fun st bidIndex => processBid bidIndex st) start).trumpSuit = none ∧
      (endBiddingPhase
        (bids.foldl (fun st bidIndex => processBid bidIndex st) start)).trumpSuit = none ∧
      (endBiddingPhase
        (bids.foldl (fun st bidIndex => processBid bidIndex st) start)).historyOfPlayedCards
          = [] ∧
      (endBiddingPhase (bids.foldl (fun st bidIndex => processBid bidIndex st) start)).bidWinner =
        some (endBiddingPhase
          (bids.foldl (fun st bidIndex => processBid bidIndex st) start)).currentPlayer ∧
      (card ∈ (endBiddingPhase
          (bids.foldl (fun st bidIndex => processBid bidIndex st) start)).hands
            (endBiddingPhase
              (bids.foldl (fun st bidIndex => processBid bidIndex st) start)).currentPlayer →
        (playCard (cardMap card) (endBiddingPhase
          (bids.foldl (fun st bidIndex => processBid bidIndex st) start))).trumpSuit
            = some card.suit)) := by
  refine ⟨rfl, ?_⟩
  intro start hstart
  have htrump : start.trumpSuit = none := by
    rcases hstart with h | h <;> rw [h] <;> rfl
  have hhist : start.historyOfPlayedCards = [] := by
    rcases hstart with h | h <;> rw [h] <;> rfl
  exact ⟨htrump, round_trump_of_start start bids card htrump hhist⟩

set_option maxRecDepth 1000000 in
/-- C7 on a dealt round: dealer seat 2, every shuffle draw 0, four passes; the dealer is left
with the bid, holds the Ace of Hearts and leads it, and trump is Hearts. -/
theorem trumpSuit_fixed_by_first_lead_witness :
    (playCard (cardMap ⟨Rank.A, Suit.H⟩) (endBiddingPhase
      ([0, 0, 0, 0].foldl (fun st bidIndex => processBid bidIndex st)
        (newGame 2 (fun _ => 0))))).trumpSuit = some Suit.H :=
  ((trumpSuit_fixed_by_first_lead 2 (fun _ => 0) exampleDeal [0, 0, 0, 0] ⟨Rank.A, Suit.H⟩).2
    (newGame 2 (fun _ => 0)) (Or.inl rfl)).2.2.2.2.2 (by decide)

/-! ## Trump stays fixed -/

theorem calculateSpecialPoints_trumpSuit (s : GameState) :
    (calculateSpecialPoints s).trumpSuit = s.trumpSuit := by
  unfold calculateSpecialPoints
  dsimp only
  split_ifs <;> rfl

theorem endRound_trumpSuit (s : GameState) :
    (endRound s).trumpSuit =
      if s.trumpSuit = none ∧ s.historyOfPlayedCards.length > 0 then
        s.historyOfPlayedCards.head?.map (fun c => c.suit)
      else s.trumpSuit := by
  unfold endRound
  dsimp only
  split_ifs <;> exact calculateSpecialPoints_trumpSuit _

/-- A later card of the round does not touch trump. -/
theorem playCard_trumpSuit_of_history (s : GameState) (cardIndex : Nat)
    (hh : s.historyOfPlayedCards ≠ []) :
    (playCard cardIndex s).trumpSuit = s.trumpSuit := by
  unfold playCard
  cases hidx : invCardMap cardIndex with
  | none => rfl
  | some card =>
    dsimp only
    by_cases hmem : card ∈ s.hands s.currentPlayer
    · have hlen : ¬ (s.historyOfPlayedCards ++ [card]).length = 1 := by
        have : 0 < s.historyOfPlayedCards.length := List.length_pos.mpr hh
        rw [List.length_append, List.length_singleton]
        omega
      simp only [hmem, not_true_eq_false, if_false, hlen, false_and]
    · simp only [hmem, not_false_eq_true, if_true]

/-- Whatever `endTrick` returns has the trump suit of the state it started from, when that
was set. -/
theorem endTrick_trumpSuit (s s2 : GameState) (t : Suit) (ht : s.trumpSuit = some t)
    (h : endTrick s = some s2) : s2.trumpSuit = some t := by
  unfold endTrick at h
  cases hw : determineTrickWinner s with
  | none => rw [hw] at h; cases h
  | some winner =>
    rw [hw] at h
    dsimp only at h
    split_ifs at h
    · cases h
      rw [endRound_trumpSuit]
      simp only [ht, reduceCtorEq, false_and, if_false]
    · cases h
      exact ht

/-- With a card in the slot of every seat of a non-empty play order, `endTrick` returns a
state. -/
theorem endTrick_returns (s : GameState) (hne : s.playOrder ≠ [])
    (hfull : ∀ p ∈ s.playOrder, s.currentTrick p ≠ none) : ∃ s2, endTrick s = some s2 := by
  obtain ⟨p0, rest, horder⟩ : ∃ p0 rest, s.playOrder = p0 :: rest := by
    cases h : s.playOrder with
    | nil => exact absurd h hne
    | cons a l => exact ⟨a, l, rfl⟩
  obtain ⟨c0, h0⟩ := Option.ne_none_iff_exists'.mp
    (hfull p0 (by rw [horder]; exact List.mem_cons_self _ _))
  obtain ⟨w, cw, hw, _⟩ := determineTrickWinner_spec s p0 rest c0 horder h0
  unfold endTrick
  rw [hw]
  dsimp only
  split_ifs
  · exact ⟨_, rfl⟩
  · exact ⟨_, rfl⟩

/-- C8: once `trumpSuit` is set and a card has been played, none of `playCard`, `endTrick`,
the start of the next trick, `endRound` and its game-point calculation `calculateSpecialPoints`
changes `trumpSuit`; and `endTrick` does return a state on a trick whose play order is not
empty and whose players all have a card in their slot. -/
theorem trumpSuit_immutable (s : GameState) (t : Suit) (ht : s.trumpSuit = some t)
    (hh : s.historyOfPlayedCards ≠ []) :
    (∀ cardIndex, (playCard cardIndex s).trumpSuit = some t) ∧
    (∀ s2, endTrick s = some s2 → s2.trumpSuit = some t) ∧
    (s.playOrder ≠ [] → (∀ p ∈ s.playOrder, s.currentTrick p ≠ none) →
      ∃ s2, endTrick s = some s2 ∧ s2.trumpSuit = some t) ∧
    (∀ winner, (nextTrickCallback winner s).trumpSuit = some t) ∧
    (endRound s).trumpSuit = some t ∧
    (calculateSpecialPoints s).trumpSuit = some t := by
  refine ⟨?_, ?_, ?_, ?_, ?_, ?_⟩
  · intro cardIndex
    rw [playCard_trumpSuit_of_history s cardIndex hh, ht]
  · intro s2 h
    exact endTrick_trumpSuit s s2 t ht h
  · intro hne hfull
    obtain ⟨s2, h⟩ := endTrick_returns s hne hfull
    exact ⟨s2, h, endTrick_trumpSuit s s2 t ht h⟩
  · intro winner
    exact ht
  · rw [endRound_trumpSuit]
    simp only [ht, reduceCtorEq, false_and, if_false]
  · rw [calculateSpecialPoints_trumpSuit, ht]

/-- C8 at the example round with its first trick complete (trump Hearts): `endTrick` returns
a state and trump is still Hearts there, as after `endRound`. -/
theorem trumpSuit_immutable_witness :
    (∃ s2, endTrick fullTrickState = some s2 ∧ s2.trumpSuit = some Suit.H) ∧
    (endRound fullTrickState).trumpSuit = some Suit.H :=
  have h := trumpSuit_immutable fullTrickState Suit.H (by decide) (by decide)
  ⟨h.2.2.1 (by decide) (by decide), h.2.2.2.2.1⟩

/-! ## The trump resolver reads the hands after the lead was removed -/

/-- C9, the code at a reachable state: the bid winner, seat 3, holds the Jack of Hearts and
leads it. `playCard` removes the card from the hand before the trump resolver runs, so the
resolver finds no jack (`roundResults.jack` is null, no jack point) and takes the 10 of
Hearts of seat 2 for the high trump; on the hands as dealt the jack, the high and the low
trump are all with seat 3, three points for team 1. -/
theorem jack_lead_loses_jack_point :
    exampleAuction.bidWinner = some 3 ∧
    exampleAuction.currentPlayer = 3 ∧
    (⟨Rank.J, Suit.H⟩ : Card) ∈ exampleAuction.hands 3 ∧
    jackLeadState.trumpSuit = some Suit.H ∧
    jackLeadState.roundResults.jack = none ∧
    jackLeadState.roundResults.high = some 2 ∧
    jackLeadState.roundResults.low = some 3 ∧
    jackLeadState.specialPoints 0 = 1 ∧
    jackLeadState.specialPoints 1 = 1 ∧
    (calculateSpecialPointsWhenTrumpDetermined
      { exampleAuction with trumpSuit := some Suit.H }).roundResults.jack = some 3 ∧
    (calculateSpecialPointsWhenTrumpDetermined
      { exampleAuction with trumpSuit := some Suit.H }).roundResults.high = some 3 ∧
    (calculateSpecialPointsWhenTrumpDetermined
      { exampleAuction with trumpSuit := some Suit.H }).specialPoints 1 = 3 := by
  decide

/-- C10, the code at a reachable state: the bid winner, seat 3, leads the Queen of Spades,
the only spade dealt. The card is out of the hand when the trump resolver runs, no hand
holds a trump, and neither Low nor High is awarded: both results are null and no special
point is credited; on the hands as dealt both go to seat 3. -/
theorem lone_trump_lead_awards_nothing :
    exampleAuction.bidWinner = some 3 ∧
    exampleAuction.currentPlayer = 3 ∧
    (⟨Rank.Q, Suit.S⟩ : Card) ∈ exampleAuction.hands 3 ∧
    lonelyTrumpState.trumpSuit = some Suit.S ∧
    lonelyTrumpState.roundResults.low = none ∧
    lonelyTrumpState.roundResults.high = none ∧
    lonelyTrumpState.specialPoints 0 = 0 ∧
    lonelyTrumpState.specialPoints 1 = 0 ∧
    (calculateSpecialPointsWhenTrumpDetermined
      { exampleAuction with trumpSuit := some Suit.S }).roundResults.low = some 3 ∧
    (calculateSpecialPointsWhenTrumpDetermined
      { exampleAuction with trumpSuit := some Suit.S }).roundResults.high = some 3 ∧
    (calculateSpecialPointsWhenTrumpDetermined
      { exampleAuction with trumpSuit := some Suit.S }).specialPoints 1 = 2 := by
  decide

/-! ## What the trump resolver computes -/

theorem ScanInv_congr {R : Nat → Nat → Prop} {trump : Option Suit}
    {seen seen2 : Seat → Card → Prop} {acc : Option Card × Option Seat}
    (h : ∀ j d, seen j d ↔ seen2 j d) (hinv : ScanInv R trump seen acc) :
    ScanInv R trump seen2 acc := by
  rcases hinv with ⟨hacc, hno⟩ | ⟨c, i, hacc, hs, ht, hmin⟩
  · exact Or.inl ⟨hacc, fun j d hjd => hno j d ((h j d).mpr hjd)⟩
  · exact Or.inr ⟨c, i, hacc, (h i c).mp hs, ht, fun j d hjd => hmin j d ((h j d).mpr hjd)⟩

/-- One pass of the inner loop of a trump scan keeps the invariant. -/
theorem scanStep_inv (R : Nat → Nat → Prop) [DecidableRel R]
    (hirr : ∀ a, ¬ R a a) (htrans : ∀ a b c, R a b → R b c → R a c)
    (trump : Option Suit) (seen : Seat → Card → Prop) (acc : Option Card × Option Seat)
    (i : Seat) (card : Card) (hinv : ScanInv R trump seen acc) :
    ScanInv R trump (fun j d => seen j d ∨ (j = i ∧ d = card))
      (if some card.suit = trump then
        match acc.1 with
        | none => (some card, some i)
        | some best =>
          if R (rankIndex card.rank) (rankIndex best.rank) then (some card, some i) else acc
      else acc) := by
  by_cases ht : some card.suit = trump
  · rw [if_pos ht]
    rcases hinv with ⟨hacc, hno⟩ | ⟨c, k, hacc, hs, hct, hmin⟩
    · rw [hacc]
      refine Or.inr ⟨card, i, rfl, Or.inr ⟨rfl, rfl⟩, ht, ?_⟩
      intro j d hjd hdt
      rcases hjd with h | ⟨_, h⟩
      · exact absurd hdt (hno j d h)
      · rw [h]; exact hirr _
    · rw [hacc]
      dsimp only
      by_cases hR : R (rankIndex card.rank) (rankIndex c.rank)
      · rw [if_pos hR]
        refine Or.inr ⟨card, i, rfl, Or.inr ⟨rfl, rfl⟩, ht, ?_⟩
        intro j d hjd hdt hRd
        rcases hjd with h | ⟨_, h⟩
        · exact hmin j d h hdt (htrans _ _ _ hRd hR)
        · rw [h] at hRd; exact hirr _ hRd
      · rw [if_neg hR]
        refine Or.inr ⟨c, k, rfl, Or.inl hs, hct, ?_⟩
        intro j d hjd hdt
        rcases hjd with h | ⟨_, h⟩
        · exact hmin j d h hdt
        · rw [h]; exact hR
  · rw [if_neg ht]
    rcases hinv with ⟨hacc, hno⟩ | ⟨c, k, hacc, hs, hct, hmin⟩
    · refine Or.inl ⟨hacc, ?_⟩
      intro j d hjd
      rcases hjd with h | ⟨_, h⟩
      · exact hno j d h
      · rw [h]; exact ht
    · refine Or.inr ⟨c, k, hacc, Or.inl hs, hct, ?_⟩
      intro j d hjd hdt
      rcases hjd with h | ⟨_, h⟩
      · exact hmin j d h hdt
      · rw [h] at hdt; exact absurd hdt ht

/-- The inner loop of a trump scan, over one hand, keeps the invariant. -/
theorem scanHand_inv (R : Nat → Nat → Prop) [DecidableRel R]
    (hirr : ∀ a, ¬ R a a) (htrans : ∀ a b c, R a b → R b c → R a c)
    (trump : Option Suit) (i : Seat) (hand : List Card) :
    ∀ (seen : Seat → Card → Prop) (acc : Option Card × Option Seat),
      ScanInv R trump seen acc →
      ScanInv R trump (fun j d => seen j d ∨ (j = i ∧ d ∈ hand))
        (hand.foldl (fun acc card =>
          if some card.suit = trump then
            match acc.1 with
            | none => (some card, some i)
            | some best =>
              if R (rankIndex card.rank) (rankIndex best.rank) then (some card, some i) else acc
          else acc) acc) := by
  induction hand with
  | nil =>
    intro seen acc hinv
    exact ScanInv_congr (fun j d => by simp) hinv
  | cons c rest ih =>
    intro seen acc hinv
    rw [List.foldl_cons]
    have h1 := scanStep_inv R hirr htrans trump seen acc i c hinv
    have h2 := ih _ _ h1
    refine ScanInv_congr ?_ h2
    intro j d
    simp only [List.mem_cons]
    tauto

/-- The two nested loops of a trump scan, over the hands of a list of seats, keep the
invariant. -/
theorem scanSeats_inv (R : Nat → Nat → Prop) [DecidableRel R]
    (hirr : ∀ a, ¬ R a a) (htrans : ∀ a b c, R a b → R b c → R a c)
    (trump : Option Suit) (hands : Seat → List Card) (l : List Seat) :
    ∀ (seen : Seat → Card → Prop) (acc : Option Card × Option Seat),
      ScanInv R trump seen acc →
      ScanInv R trump (fun j d => seen j d ∨ (j ∈ l ∧ d ∈ hands j))
        (l.foldl (fun acc i =>
          (hands i).foldl (fun acc card =>
            if some card.suit = trump then
              match acc.1 with
              | none => (some card, some i)
              | some best =>
                if R (rankIndex card.rank) (rankIndex best.rank) then (some card, some i)
                else acc
            else acc) acc) acc) := by
  induction l with
  | nil =>
    intro seen acc hinv
    exact ScanInv_congr (fun j d => by simp) hinv
  | cons i rest ih =>
    intro seen acc hinv
    rw [List.foldl_cons]
    have h1 := scanHand_inv R hirr htrans trump i (hands i) seen acc hinv
    have h2 := ih _ _ h1
    refine ScanInv_congr ?_ h2
    intro j d
    simp only [List.mem_cons]
    constructor
    · rintro ((h | ⟨hj, hd⟩) | h)
      · exact Or.inl h
      · exact Or.inr ⟨Or.inl hj, hj ▸ hd⟩
      · exact Or.inr ⟨Or.inr h.1, h.2⟩
    · rintro (h | ⟨hj | hj, hd⟩)
      · exact Or.inl (Or.inl h)
      · exact Or.inl (Or.inr ⟨hj, hj ▸ hd⟩)
      · exact Or.inr ⟨hj, hd⟩

/-- The low-trump scan records a lowest trump of the four hands with its seat, or nothing
when no hand holds a trump. -/
theorem lowestTrumpScan_inv (s : GameState) :
    ScanInv (fun a b => a < b) s.trumpSuit (fun j d => d ∈ s.hands j) (lowestTrumpScan s) := by
  have h := scanSeats_inv (fun a b => a < b) (fun a => Nat.lt_irrefl a)
    (fun a b c hab hbc => Nat.lt_trans hab hbc) s.trumpSuit s.hands seats
    (fun _ _ => False) (none, none) (Or.inl ⟨rfl, fun _ _ h => h.elim⟩)
  refine ScanInv_congr ?_ h
  intro j d
  simp [mem_seats]

/-- The high-trump scan records a highest trump of the four hands with its seat, or nothing
when no hand holds a trump. -/
theorem highestTrumpScan_inv (s : GameState) :
    ScanInv (fun a b => a > b) s.trumpSuit (fun j d => d ∈ s.hands j) (highestTrumpScan s) := by
  have h := scanSeats_inv (fun a b => a > b) (fun a => Nat.lt_irrefl a)
    (fun a b c hab hbc => Nat.lt_trans hbc hab) s.trumpSuit s.hands seats
    (fun _ _ => False) (none, none) (Or.inl ⟨rfl, fun _ _ h => h.elim⟩)
  refine ScanInv_congr ?_ h
  intro j d
  simp [mem_seats]

theorem calculateSpecialPointsWhenTrumpDetermined_stages (s : GameState) :
    calculateSpecialPointsWhenTrumpDetermined s = resolveHigh (resolveLow (resolveJack s)) :=
  rfl

theorem addSpecialPoint_apply (sp : Seat → Nat) (i : Seat) :
    addSpecialPoint sp i 0 = sp 0 + pointOf (some i) 0 ∧
    addSpecialPoint sp i 1 = sp 1 + pointOf (some i) 1 ∧
    addSpecialPoint sp i 2 = sp 2 ∧ addSpecialPoint sp i 3 = sp 3 := by
  unfold addSpecialPoint pointOf
  by_cases h : i.val % 2 = 0
  · have h1 : ¬ i.val % 2 = 1 := by omega
    simp [h, h1, upd]
  · have h1 : i.val % 2 = 1 := by omega
    simp [h, h1, upd]

theorem lowestTrumpScan_congr (s t : GameState) (hh : t.hands = s.hands)
    (ht : t.trumpSuit = s.trumpSuit) : lowestTrumpScan t = lowestTrumpScan s := by
  unfold lowestTrumpScan
  rw [hh, ht]

theorem highestTrumpScan_congr (s t : GameState) (hh : t.hands = s.hands)
    (ht : t.trumpSuit = s.trumpSuit) : highestTrumpScan t = highestTrumpScan s := by
  unfold highestTrumpScan
  rw [hh, ht]

/-- The jack step: fields it leaves, the result it records and the point it gives. -/
theorem resolveJack_spec (s : GameState) :
    (resolveJack s).hands = s.hands ∧ (resolveJack s).trumpSuit = s.trumpSuit ∧
    (resolveJack s).roundResults =
      { jack := jackHolder s, low := none, high := none, game := none } ∧
    (resolveJack s).specialPoints 0 = pointOf (jackHolder s) 0 ∧
    (resolveJack s).specialPoints 1 = pointOf (jackHolder s) 1 ∧
    (resolveJack s).specialPoints 2 = 0 ∧ (resolveJack s).specialPoints 3 = 0 := by
  unfold resolveJack
  cases h : jackHolder s with
  | none => exact ⟨rfl, rfl, rfl, rfl, rfl, rfl, rfl⟩
  | some i =>
    obtain ⟨h0, h1, h2, h3⟩ := addSpecialPoint_apply (fun _ => 0) i
    refine ⟨rfl, rfl, rfl, ?_, ?_, ?_, ?_⟩
    · show addSpecialPoint (fun _ => 0) i 0 = _
      rw [h0]; simp
    · show addSpecialPoint (fun _ => 0) i 1 = _
      rw [h1]; simp
    · exact h2
    · exact h3

/-- The low step: fields it leaves, the result it records and the point it gives. -/
theorem resolveLow_spec (t : GameState) (hlow : t.roundResults.low = none) :
    (resolveLow t).hands = t.hands ∧ (resolveLow t).trumpSuit = t.trumpSuit ∧
    (resolveLow t).roundResults =
      { t.roundResults with low := scanSeat (lowestTrumpScan t) } ∧
    (resolveLow t).specialPoints 0 =
      t.specialPoints 0 + pointOf (scanSeat (lowestTrumpScan t)) 0 ∧
    (resolveLow t).specialPoints 1 =
      t.specialPoints 1 + pointOf (scanSeat (lowestTrumpScan t)) 1 ∧
    (resolveLow t).specialPoints 2 = t.specialPoints 2 ∧
    (resolveLow t).specialPoints 3 = t.specialPoints 3 := by
  unfold resolveLow
  rcases h : lowestTrumpScan t with ⟨a, b⟩
  cases a with
  | none =>
    refine ⟨rfl, rfl, ?_, rfl, rfl, rfl, rfl⟩
    show t.roundResults = _
    simp only [scanSeat, ← hlow]
  | some c =>
    cases b with
    | none =>
      refine ⟨rfl, rfl, ?_, rfl, rfl, rfl, rfl⟩
      show t.roundResults = _
      simp only [scanSeat, ← hlow]
    | some p =>
      obtain ⟨h0, h1, h2, h3⟩ := addSpecialPoint_apply t.specialPoints p
      exact ⟨rfl, rfl, rfl, h0, h1, h2, h3⟩

/-- The high step: fields it leaves, the result it records and the point it gives. -/
theorem resolveHigh_spec (t : GameState) (hhigh : t.roundResults.high = none) :
    (resolveHigh t).hands = t.hands ∧ (resolveHigh t).trumpSuit = t.trumpSuit ∧
    (resolveHigh t).roundResults =
      { t.roundResults with high := scanSeat (highestTrumpScan t) } ∧
    (resolveHigh t).specialPoints 0 =
      t.specialPoints 0 + pointOf (scanSeat (highestTrumpScan t)) 0 ∧
    (resolveHigh t).specialPoints 1 =
      t.specialPoints 1 + pointOf (scanSeat (highestTrumpScan t)) 1 ∧
    (resolveHigh t).specialPoints 2 = t.specialPoints 2 ∧
    (resolveHigh t).specialPoints 3 = t.specialPoints 3 := by
  unfold resolveHigh
  rcases h : highestTrumpScan t with ⟨a, b⟩
  cases a with
  | none =>
    refine ⟨rfl, rfl, ?_, rfl, rfl, rfl, rfl⟩
    show t.roundResults = _
    simp only [scanSeat, ← hhigh]
  | some c =>
    cases b with
    | none =>
      refine ⟨rfl, rfl, ?_, rfl, rfl, rfl, rfl⟩
      show t.roundResults = _
      simp only [scanSeat, ← hhigh]
    | some p =>
      obtain ⟨h0, h1, h2, h3⟩ := addSpecialPoint_apply t.specialPoints p
      exact ⟨rfl, rfl, rfl, h0, h1, h2, h3⟩

/-- What `calculateSpecialPointsWhenTrumpDetermined` leaves in `roundResults` and
`specialPoints`, in terms of the jack search and the two scans on the hands it is given. -/
theorem calculateSpecialPointsWhenTrumpDetermined_results (s : GameState) :
    (calculateSpecialPointsWhenTrumpDetermined s).roundResults =
      { jack := jackHolder s, low := scanSeat (lowestTrumpScan s),
        high := scanSeat (highestTrumpScan s), game := none } ∧
    (calculateSpecialPointsWhenTrumpDetermined s).specialPoints 0 =
      pointOf (jackHolder s) 0 + pointOf (scanSeat (lowestTrumpScan s)) 0 +
        pointOf (scanSeat (highestTrumpScan s)) 0 ∧
    (calculateSpecialPointsWhenTrumpDetermined s).specialPoints 1 =
      pointOf (jackHolder s) 1 + pointOf (scanSeat (lowestTrumpScan s)) 1 +
        pointOf (scanSeat (highestTrumpScan s)) 1 ∧
    (calculateSpecialPointsWhenTrumpDetermined s).specialPoints 2 = 0 ∧
    (calculateSpecialPointsWhenTrumpDetermined s).specialPoints 3 = 0 := by
  rw [calculateSpecialPointsWhenTrumpDetermined_stages]
  obtain ⟨jh, jt, jr, j0, j1, j2, j3⟩ := resolveJack_spec s
  obtain ⟨lh, lt, lr, l0, l1, l2, l3⟩ := resolveLow_spec (resolveJack s) (by rw [jr])
  have hlscan : lowestTrumpScan (resolveJack s) = lowestTrumpScan s :=
    lowestTrumpScan_congr s _ jh jt
  rw [hlscan] at lr l0 l1
  obtain ⟨hh, hht, hr, h0, h1, h2, h3⟩ :=
    resolveHigh_spec (resolveLow (resolveJack s)) (by rw [lr, jr])
  have hhscan : highestTrumpScan (resolveLow (resolveJack s)) = highestTrumpScan s :=
    highestTrumpScan_congr s _ (lh.trans jh) (lt.trans jt)
  rw [hhscan] at hr h0 h1
  refine ⟨?_, ?_, ?_, ?_, ?_⟩
  · rw [hr, lr, jr]
  · rw [h0, l0, j0]
  · rw [h1, l1, j1]
  · rw [h2, l2, j2]
  · rw [h3, l3, j3]

/-- With no card in two hands, the seat a scan leaves is the one seat that holds a trump no
trump of the four hands precedes; it is `null` exactly when no hand holds a trump. -/
theorem scanSeat_spec (R : Nat → Nat → Prop) (htri : ∀ a b, ¬ R a b → ¬ R b a → a = b)
    (s : GameState) (t : Suit)
    (hdisj : ∀ i j, ∀ c ∈ s.hands i, c ∈ s.hands j → i = j)
    (acc : Option Card × Option Seat)
    (hinv : ScanInv R (some t) (fun j d => d ∈ s.hands j) acc) :
    (∀ p, scanSeat acc = some p ↔
      ∃ c ∈ s.hands p, c.suit = t ∧
        ∀ j, ∀ d ∈ s.hands j, d.suit = t → ¬ R (rankIndex d.rank) (rankIndex c.rank)) ∧
    (scanSeat acc = none ↔ ∀ j, ∀ d ∈ s.hands j, d.suit ≠ t) := by
  rcases hinv with ⟨hacc, hno⟩ | ⟨c, i, hacc, hs, hct, hmin⟩
  · subst hacc
    refine ⟨?_, ?_⟩
    · intro p
      constructor
      · intro h; cases h
      · rintro ⟨c, hc, hct, _⟩
        exact absurd (congrArg some hct) (hno p c hc)
    · constructor
      · intro _ j d hd hdt
        exact hno j d hd (congrArg some hdt)
      · intro _; rfl
  · subst hacc
    have hcs : c.suit = t := Option.some.inj hct
    refine ⟨?_, ?_⟩
    · intro p
      constructor
      · intro h
        have hp : i = p := Option.some.inj h
        subst hp
        exact ⟨c, hs, hcs, fun j d hd hdt => hmin j d hd (congrArg some hdt)⟩
      · rintro ⟨c2, hc2, hc2t, hmin2⟩
        have h1 := hmin p c2 hc2 (congrArg some hc2t)
        have h2 := hmin2 i c hs hcs
        have hrank : rankIndex c2.rank = rankIndex c.rank := htri _ _ h1 h2
        have hcard : c2 = c := card_eq_of_suit_rank (hc2t.trans hcs.symm) hrank
        have hip : i = p := hdisj i p c hs (hcard ▸ hc2)
        show some i = some p
        rw [hip]
    · constructor
      · intro h; cases h
      · intro h
        exact absurd hcs (h i c hs)

/-- C11: for every trump suit and every four hands with no card in two of them, after
`calculateSpecialPointsWhenTrumpDetermined` the jack result is the seat whose hand contains
the jack of trump (null if no hand does), the low result the seat whose hand contains the
lowest trump of the four hands, the high result the seat with the highest one (both null
exactly when no hand contains a trump), and each awarded category has added exactly 1 to
`specialPoints[seat mod 2]`, so that slots 2 and 3 are 0. -/
theorem calculateSpecialPointsWhenTrumpDetermined_spec (s : GameState) (t : Suit)
    (ht : s.trumpSuit = some t)
    (hdisj : ∀ i j, ∀ c ∈ s.hands i, c ∈ s.hands j → i = j) :
    (∀ p, (calculateSpecialPointsWhenTrumpDetermined s).roundResults.jack = some p ↔
      Card.mk Rank.J t ∈ s.hands p) ∧
    ((calculateSpecialPointsWhenTrumpDetermined s).roundResults.jack = none ↔
      ∀ p, Card.mk Rank.J t ∉ s.hands p) ∧
    (∀ p, (calculateSpecialPointsWhenTrumpDetermined s).roundResults.low = some p ↔
      ∃ c ∈ s.hands p, c.suit = t ∧
        ∀ j, ∀ d ∈ s.hands j, d.suit = t → rankIndex c.rank ≤ rankIndex d.rank) ∧
    (∀ p, (calculateSpecialPointsWhenTrumpDetermined s).roundResults.high = some p ↔
      ∃ c ∈ s.hands p, c.suit = t ∧
        ∀ j, ∀ d ∈ s.hands j, d.suit = t → rankIndex d.rank ≤ rankIndex c.rank) ∧
    ((calculateSpecialPointsWhenTrumpDetermined s).roundResults.low = none ↔
      ∀ j, ∀ d ∈ s.hands j, d.suit ≠ t) ∧
    ((calculateSpecialPointsWhenTrumpDetermined s).roundResults.high = none ↔
      ∀ j, ∀ d ∈ s.hands j, d.suit ≠ t) ∧
    (calculateSpecialPointsWhenTrumpDetermined s).specialPoints 0 =
      pointOf (calculateSpecialPointsWhenTrumpDetermined s).roundResults.jack 0 +
      pointOf (calculateSpecialPointsWhenTrumpDetermined s).roundResults.low 0 +
      pointOf (calculateSpecialPointsWhenTrumpDetermined s).roundResults.high 0 ∧
    (calculateSpecialPointsWhenTrumpDetermined s).specialPoints 1 =
      pointOf (calculateSpecialPointsWhenTrumpDetermined s).roundResults.jack 1 +
      pointOf (calculateSpecialPointsWhenTrumpDetermined s).roundResults.low 1 +
      pointOf (calculateSpecialPointsWhenTrumpDetermined s).roundResults.high 1 ∧
    (calculateSpecialPointsWhenTrumpDetermined s).specialPoints 2 = 0 ∧
    (calculateSpecialPointsWhenTrumpDetermined s).specialPoints 3 = 0 := by
  obtain ⟨hr, h0, h1, h2, h3⟩ := calculateSpecialPointsWhenTrumpDetermined_results s
  have hlow := lowestTrumpScan_inv s
  have hhigh := highestTrumpScan_inv s
  rw [ht] at hlow hhigh
  obtain ⟨hl1, hl2⟩ := scanSeat_spec (fun a b => a < b)
    (fun a b hab hba => Nat.le_antisymm (Nat.not_lt.mp hba) (Nat.not_lt.mp hab))
    s t hdisj _ hlow
  obtain ⟨hh1, hh2⟩ := scanSeat_spec (fun a b => a > b)
    (fun a b hab hba => Nat.le_antisymm (Nat.not_lt.mp hab) (Nat.not_lt.mp hba))
    s t hdisj _ hhigh
  have hjack : jackHolder s = seats.find? (fun i => decide (Card.mk Rank.J t ∈ s.hands i)) := by
    unfold jackHolder
    rw [ht]
  rw [hr]
  refine ⟨?_, ?_, ?_, ?_, hl2, hh2, h0, h1, h2, h3⟩
  · intro p
    show jackHolder s = some p ↔ _
    rw [hjack]
    constructor
    · intro h
      have := List.find?_some h
      simpa using this
    · intro hp
      cases hf : seats.find? (fun i => decide (Card.mk Rank.J t ∈ s.hands i)) with
      | none =>
        have := List.find?_eq_none.mp hf p (mem_seats p)
        simp only [decide_eq_true_eq] at this
        exact absurd hp this
      | some q =>
        have hq := List.find?_some hf
        simp only [decide_eq_true_eq] at hq
        rw [hdisj q p _ hq hp]
  · show jackHolder s = none ↔ _
    rw [hjack, List.find?_eq_none]
    constructor
    · intro h p
      have := h p (mem_seats p)
      simpa using this
    · intro h p _
      simpa using h p
  · intro p
    show scanSeat (lowestTrumpScan s) = some p ↔ _
    rw [hl1 p]
    simp only [Nat.not_lt]
  · intro p
    show scanSeat (highestTrumpScan s) = some p ↔ _
    rw [hh1 p]
    simp only [gt_iff_lt, Nat.not_lt]

/-- C11 on the example deal with trump Hearts: the jack, the low (5) and the high (jack) of
Hearts are all in seat 3's hand, and team 1's slot gets the three points. -/
theorem calculateSpecialPointsWhenTrumpDetermined_spec_witness :
    (calculateSpecialPointsWhenTrumpDetermined
      { exampleAuction with trumpSuit := some Suit.H }).roundResults.jack = some 3 ∧
    (calculateSpecialPointsWhenTrumpDetermined
      { exampleAuction with trumpSuit := some Suit.H }).specialPoints 2 = 0 :=
  have h := calculateSpecialPointsWhenTrumpDetermined_spec
    { exampleAuction with trumpSuit := some Suit.H } Suit.H rfl (by decide)
  ⟨(h.1 3).mpr (by decide), h.2.2.2.2.2.2.2.2.1⟩

/-! ## The game point -/

theorem endRound_stages (s : GameState) :
    endRound s = settleRound (calculateSpecialPoints (ensureTrumpSuit s)) := rfl

/-- The inner counting loop of `calculateSpecialPoints` adds the pile's game value to the
total of the seat's team. -/
theorem gamePointFold (i : Seat) (cards : List Card) :
    ∀ acc : Nat × Nat,
      cards.foldl (fun acc card =>
        if i.val % 2 = 0 then (acc.1 + gameValue card.rank, acc.2)
        else (acc.1, acc.2 + gameValue card.rank)) acc =
      if i.val % 2 = 0 then (acc.1 + pileGameValue cards, acc.2)
      else (acc.1, acc.2 + pileGameValue cards) := by
  induction cards with
  | nil => intro acc; simp [pileGameValue]
  | cons c rest ih =>
    intro acc
    rw [List.foldl_cons, ih]
    by_cases h : i.val % 2 = 0
    · simp only [h, if_true, pileGameValue, List.map_cons, List.sum_cons]
      rw [Nat.add_assoc]
    · simp only [h, if_false, pileGameValue, List.map_cons, List.sum_cons]
      rw [Nat.add_assoc]

/-- The totals `calculateSpecialPoints` compares: the piles of seats 0 and 2 against the
piles of seats 1 and 3. -/
theorem gamePointTotals_eq (s : GameState) :
    gamePointTotals s =
      (pileGameValue (s.cardsWonInTricks 0) + pileGameValue (s.cardsWonInTricks 2),
       pileGameValue (s.cardsWonInTricks 1) + pileGameValue (s.cardsWonInTricks 3)) := by
  have e0 : (0 : Seat).val % 2 = 0 := by decide
  have e1 : ¬ (1 : Seat).val % 2 = 0 := by decide
  have e2 : (2 : Seat).val % 2 = 0 := by decide
  have e3 : ¬ (3 : Seat).val % 2 = 0 := by decide
  unfold gamePointTotals seats
  simp only [List.foldl_cons, List.foldl_nil, gamePointFold, e0, e1, e2, e3, if_true, if_false,
    Nat.zero_add]

theorem gameValue_table :
    gameValue Rank.T = 10 ∧ gameValue Rank.J = 1 ∧ gameValue Rank.Q = 2 ∧
    gameValue Rank.K = 3 ∧ gameValue Rank.A = 4 ∧
    ∀ r, r ≠ Rank.T → r ≠ Rank.J → r ≠ Rank.Q → r ≠ Rank.K → r ≠ Rank.A → gameValue r = 0 := by
  refine ⟨rfl, rfl, rfl, rfl, rfl, ?_⟩
  intro r h1 h2 h3 h4 h5
  simp [gameValue, h1, h2, h3, h4, h5]

/-- The general part of C13. -/
theorem calculateSpecialPoints_general (s : GameState) :
    (pileGameValue (s.cardsWonInTricks 1) + pileGameValue (s.cardsWonInTricks 3) <
        pileGameValue (s.cardsWonInTricks 0) + pileGameValue (s.cardsWonInTricks 2) →
      (calculateSpecialPoints s).specialPoints = upd s.specialPoints 0 (s.specialPoints 0 + 1) ∧
      (calculateSpecialPoints s).roundResults =
        { s.roundResults with game := some GameWinner.team0 }) ∧
    (pileGameValue (s.cardsWonInTricks 0) + pileGameValue (s.cardsWonInTricks 2) <
        pileGameValue (s.cardsWonInTricks 1) + pileGameValue (s.cardsWonInTricks 3) →
      (calculateSpecialPoints s).specialPoints = upd s.specialPoints 1 (s.specialPoints 1 + 1) ∧
      (calculateSpecialPoints s).roundResults =
        { s.roundResults with game := some GameWinner.team1 }) ∧
    (pileGameValue (s.cardsWonInTricks 0) + pileGameValue (s.cardsWonInTricks 2) =
        pileGameValue (s.cardsWonInTricks 1) + pileGameValue (s.cardsWonInTricks 3) →
      (calculateSpecialPoints s).specialPoints = s.specialPoints ∧
      (calculateSpecialPoints s).roundResults =
        { s.roundResults with game := some GameWinner.tie }) := by
  have ht := gamePointTotals_eq s
  unfold calculateSpecialPoints
  rw [ht]
  dsimp only
  refine ⟨?_, ?_, ?_⟩
  · intro h
    rw [if_pos h]
    exact ⟨rfl, rfl⟩
  · intro h
    rw [if_neg (by omega), if_pos h]
    exact ⟨rfl, rfl⟩
  · intro h
    rw [if_neg (by omega), if_neg (by omega)]
    exact ⟨rfl, rfl⟩

/-- C13: for every content of `cardsWonInTricks`, `calculateSpecialPoints` compares the sums
of the game values (T=10, J=1, Q=2, K=3, A=4, other ranks 0) of the cards captured by seats
0 and 2 and by seats 1 and 3; it adds exactly 1 to `specialPoints[0]` and records `'team0'`
when team 0's sum is strictly higher, adds exactly 1 to `specialPoints[1]` and records
`'team1'` when team 1's is, and on a tie adds nothing and records `'tie'`. Scenario: team 0
captures a ten and two aces (18), team 1 nothing, and team 0 gets the game point. -/
theorem calculateSpecialPoints_spec (s : GameState) :
    (gameValue Rank.T = 10 ∧ gameValue Rank.J = 1 ∧ gameValue Rank.Q = 2 ∧
      gameValue Rank.K = 3 ∧ gameValue Rank.A = 4 ∧
      ∀ r, r ≠ Rank.T → r ≠ Rank.J → r ≠ Rank.Q → r ≠ Rank.K → r ≠ Rank.A →
        gameValue r = 0) ∧
    gamePointTotals s =
      (pileGameValue (s.cardsWonInTricks 0) + pileGameValue (s.cardsWonInTricks 2),
       pileGameValue (s.cardsWonInTricks 1) + pileGameValue (s.cardsWonInTricks 3)) ∧
    (pileGameValue (s.cardsWonInTricks 1) + pileGameValue (s.cardsWonInTricks 3) <
        pileGameValue (s.cardsWonInTricks 0) + pileGameValue (s.cardsWonInTricks 2) →
      (calculateSpecialPoints s).specialPoints = upd s.specialPoints 0 (s.specialPoints 0 + 1) ∧
      (calculateSpecialPoints s).roundResults =
        { s.roundResults with game := some GameWinner.team0 }) ∧
    (pileGameValue (s.cardsWonInTricks 0) + pileGameValue (s.cardsWonInTricks 2) <
        pileGameValue (s.cardsWonInTricks 1) + pileGameValue (s.cardsWonInTricks 3) →
      (calculateSpecialPoints s).specialPoints = upd s.specialPoints 1 (s.specialPoints 1 + 1) ∧
      (calculateSpecialPoints s).roundResults =
        { s.roundResults with game := some GameWinner.team1 }) ∧
    (pileGameValue (s.cardsWonInTricks 0) + pileGameValue (s.cardsWonInTricks 2) =
        pileGameValue (s.cardsWonInTricks 1) + pileGameValue (s.cardsWonInTricks 3) →
      (calculateSpecialPoints s).specialPoints = s.specialPoints ∧
      (calculateSpecialPoints s).roundResults =
        { s.roundResults with game := some GameWinner.tie }) ∧
    (gamePointTotals captureScenario = (18, 0) ∧
      (calculateSpecialPoints captureScenario).roundResults.game = some GameWinner.team0 ∧
      (calculateSpecialPoints captureScenario).specialPoints 0 = 1 ∧
      (calculateSpecialPoints captureScenario).specialPoints 1 = 0) := by
  obtain ⟨h1, h2, h3⟩ := calculateSpecialPoints_general s
  exact ⟨gameValue_table, gamePointTotals_eq s, h1, h2, h3, by decide⟩

/-- C13 applied to the scenario: team 0's 18 against 0 puts the point in slot 0. -/
theorem calculateSpecialPoints_spec_witness :
    (calculateSpecialPoints captureScenario).specialPoints =
      upd captureScenario.specialPoints 0 (captureScenario.specialPoints 0 + 1) ∧
    (calculateSpecialPoints captureScenario).roundResults =
      { captureScenario.roundResults with game := some GameWinner.team0 } :=
  (calculateSpecialPoints_spec captureScenario).2.2.1 (by decide)

/-! ## Round settlement -/

/-- `calculateSpecialPoints` writes `specialPoints` and `roundResults` only. -/
theorem calculateSpecialPoints_frame (s : GameState) :
    ∃ sp rr, calculateSpecialPoints s = { s with specialPoints := sp, roundResults := rr } := by
  unfold calculateSpecialPoints
  dsimp only
  split_ifs
  · exact ⟨_, _, rfl⟩
  · exact ⟨_, _, rfl⟩
  · exact ⟨_, _, rfl⟩

/-- `ensureTrumpSuit` writes `trumpSuit` only. -/
theorem ensureTrumpSuit_frame (s : GameState) :
    ∃ tr, ensureTrumpSuit s = { s with trumpSuit := tr } := by
  unfold ensureTrumpSuit
  split_ifs
  · exact ⟨_, rfl⟩
  · exact ⟨s.trumpSuit, rfl⟩

/-- The game point does not depend on the trump suit. -/
theorem calculateSpecialPoints_trump_irrelevant (s : GameState) (tr : Option Suit) :
    calculateSpecialPoints { s with trumpSuit := tr } =
      { calculateSpecialPoints s with trumpSuit := tr } := by
  unfold calculateSpecialPoints gamePointTotals
  dsimp only
  split_ifs <;> rfl

/-- The score change of `settleRound` for the bidding team. -/
theorem settleRound_scores (s2 : GameState) (tm : Team) (hb : s2.biddingTeam = some tm) :
    (s2.bidAmount ≤ s2.trickWins (anchorSeat tm) + s2.trickWins (partnerSeat tm) +
        s2.specialPoints (anchorSeat tm) →
      (settleRound s2).scores (anchorSeat tm) = s2.scores (anchorSeat tm) +
        ((s2.trickWins (anchorSeat tm) + s2.trickWins (partnerSeat tm) +
          s2.specialPoints (anchorSeat tm) : Nat) : Int)) ∧
    (s2.trickWins (anchorSeat tm) + s2.trickWins (partnerSeat tm) +
        s2.specialPoints (anchorSeat tm) < s2.bidAmount →
      (settleRound s2).scores (anchorSeat tm) =
        s2.scores (anchorSeat tm) - (s2.bidAmount : Int)) ∧
    (∀ j, j ≠ anchorSeat tm → (settleRound s2).scores j = s2.scores j) := by
  cases tm with
  | team0 =>
    unfold settleRound
    simp only [hb, if_true, anchorSeat, partnerSeat, ge_iff_le]
    refine ⟨?_, ?_, ?_⟩
    · intro h
      rw [if_pos h]
      simp only [upd, if_true]
    · intro h
      rw [if_neg (by omega)]
      simp only [upd, if_true]
    · intro j hj
      split_ifs <;> simp only [upd, hj, if_false]
  | team1 =>
    have hne : ¬ (some Team.team1 = some Team.team0) := by decide
    unfold settleRound
    simp only [hb, hne, if_false, anchorSeat, partnerSeat, ge_iff_le]
    refine ⟨?_, ?_, ?_⟩
    · intro h
      rw [if_pos h]
      simp only [upd, if_true]
    · intro h
      rw [if_neg (by omega)]
      simp only [upd, if_true]
    · intro j hj
      split_ifs <;> simp only [upd, hj, if_false]

/-- The general part of C14. -/
theorem endRound_settlement_general (s : GameState) (tm : Team)
    (hb : s.biddingTeam = some tm) :
    (s.bidAmount ≤ s.trickWins (anchorSeat tm) + s.trickWins (partnerSeat tm) +
        (calculateSpecialPoints s).specialPoints (anchorSeat tm) →
      (endRound s).scores (anchorSeat tm) = s.scores (anchorSeat tm) +
        ((s.trickWins (anchorSeat tm) + s.trickWins (partnerSeat tm) +
          (calculateSpecialPoints s).specialPoints (anchorSeat tm) : Nat) : Int)) ∧
    (s.trickWins (anchorSeat tm) + s.trickWins (partnerSeat tm) +
        (calculateSpecialPoints s).specialPoints (anchorSeat tm) < s.bidAmount →
      (endRound s).scores (anchorSeat tm) = s.scores (anchorSeat tm) - (s.bidAmount : Int)) ∧
    (∀ j, j ≠ anchorSeat tm → (endRound s).scores j = s.scores j) := by
  obtain ⟨tr, htr⟩ := ensureTrumpSuit_frame s
  obtain ⟨sp, rr, hsp⟩ := calculateSpecialPoints_frame s
  have hs2 : calculateSpecialPoints (ensureTrumpSuit s) =
      { s with specialPoints := sp, roundResults := rr, trumpSuit := tr } := by
    rw [htr, calculateSpecialPoints_trump_irrelevant, hsp]
  have hspv : (calculateSpecialPoints s).specialPoints = sp := by rw [hsp]
  rw [endRound_stages, hs2, hspv]
  exact settleRound_scores
    { s with specialPoints := sp, roundResults := rr, trumpSuit := tr } tm hb

/-- C14: at round settlement, with `totalPoints` the tricks of the two seats of the bidding
team plus the special points in its anchor slot after the game point was added: if
`totalPoints >= bidAmount` the bidding team's score goes up by exactly `totalPoints`,
otherwise it goes down by exactly `bidAmount`; every other score slot is unchanged.
Scenario: bid 2, total 1, the score goes from 3 to 1. -/
theorem endRound_settlement :
    (∀ (s : GameState) (tm : Team), s.biddingTeam = some tm →
      (s.bidAmount ≤ s.trickWins (anchorSeat tm) + s.trickWins (partnerSeat tm) +
          (calculateSpecialPoints s).specialPoints (anchorSeat tm) →
        (endRound s).scores (anchorSeat tm) = s.scores (anchorSeat tm) +
          ((s.trickWins (anchorSeat tm) + s.trickWins (partnerSeat tm) +
            (calculateSpecialPoints s).specialPoints (anchorSeat tm) : Nat) : Int)) ∧
      (s.trickWins (anchorSeat tm) + s.trickWins (partnerSeat tm) +
          (calculateSpecialPoints s).specialPoints (anchorSeat tm) < s.bidAmount →
        (endRound s).scores (anchorSeat tm) =
          s.scores (anchorSeat tm) - (s.bidAmount : Int)) ∧
      (∀ j, j ≠ anchorSeat tm → (endRound s).scores j = s.scores j)) ∧
    (setScenario.bidAmount = 2 ∧
      setScenario.trickWins 0 + setScenario.trickWins 2 +
        (calculateSpecialPoints setScenario).specialPoints 0 = 1 ∧
      setScenario.scores 0 = 3 ∧ (endRound setScenario).scores 0 = 1 ∧
      (endRound setScenario).scores 1 = 5 ∧ (endRound setScenario).scores 2 = 0 ∧
      (endRound setScenario).scores 3 = 0) :=
  ⟨endRound_settlement_general, by decide⟩

/-- C14 applied to the scenario: the bid of 2 is not made and is subtracted. -/
theorem endRound_settlement_witness :
    (endRound setScenario).scores (anchorSeat Team.team0) =
      setScenario.scores (anchorSeat Team.team0) - (setScenario.bidAmount : Int) :=
  (endRound_settlement.1 setScenario Team.team0 rfl).2.1 (by decide)

/-! ## The special points of a round -/

theorem pointOf_le_one (o : Option Seat) : pointOf o 0 + pointOf o 1 ≤ 1 := by
  cases o with
  | none => simp [pointOf]
  | some i =>
    unfold pointOf
    dsimp only
    split_ifs <;> omega

theorem gamePointOf_le_one (g : Option GameWinner) : gamePointOf g 0 + gamePointOf g 1 ≤ 1 := by
  cases g with
  | none => simp [gamePointOf]
  | some w => cases w <;> simp [gamePointOf]

/-- The game point as `calculateSpecialPoints` adds it to the two anchor slots; the jack, low
and high results stay. -/
theorem calculateSpecialPoints_points (s : GameState) :
    (calculateSpecialPoints s).specialPoints 0 =
      s.specialPoints 0 + gamePointOf (calculateSpecialPoints s).roundResults.game 0 ∧
    (calculateSpecialPoints s).specialPoints 1 =
      s.specialPoints 1 + gamePointOf (calculateSpecialPoints s).roundResults.game 1 ∧
    (calculateSpecialPoints s).roundResults.jack = s.roundResults.jack ∧
    (calculateSpecialPoints s).roundResults.low = s.roundResults.low ∧
    (calculateSpecialPoints s).roundResults.high = s.roundResults.high := by
  unfold calculateSpecialPoints
  dsimp only
  split_ifs
  · refine ⟨?_, ?_, rfl, rfl, rfl⟩ <;> simp [upd, gamePointOf]
  · refine ⟨?_, ?_, rfl, rfl, rfl⟩ <;> simp [upd, gamePointOf]
  · refine ⟨?_, ?_, rfl, rfl, rfl⟩ <;> simp [gamePointOf]

/-- `settleRound` writes `scores` only. -/
theorem settleRound_frame (s2 : GameState) :
    ∃ sc, settleRound s2 = { s2 with scores := sc } := by
  unfold settleRound
  dsimp only
  split_ifs <;> exact ⟨_, rfl⟩

/-- The special points and round results `endRound` leaves are those of
`calculateSpecialPoints`. -/
theorem endRound_points (s : GameState) :
    (endRound s).specialPoints = (calculateSpecialPoints s).specialPoints ∧
    (endRound s).roundResults = (calculateSpecialPoints s).roundResults := by
  obtain ⟨tr, htr⟩ := ensureTrumpSuit_frame s
  obtain ⟨sc, hsc⟩ := settleRound_frame (calculateSpecialPoints (ensureTrumpSuit s))
  rw [endRound_stages, hsc, htr, calculateSpecialPoints_trump_irrelevant]
  exact ⟨rfl, rfl⟩

/-- A card played after the first one leaves the special points and round results. -/
theorem playCard_later (s : GameState) (cardIndex : Nat) (hh : s.historyOfPlayedCards ≠ []) :
    (playCard cardIndex s).specialPoints = s.specialPoints ∧
    (playCard cardIndex s).roundResults = s.roundResults ∧
    (playCard cardIndex s).historyOfPlayedCards ≠ [] := by
  unfold playCard
  cases hidx : invCardMap cardIndex with
  | none => exact ⟨rfl, rfl, hh⟩
  | some card =>
    dsimp only
    by_cases hmem : card ∈ s.hands s.currentPlayer
    · have hlen : ¬ (s.historyOfPlayedCards ++ [card]).length = 1 := by
        have : 0 < s.historyOfPlayedCards.length := List.length_pos.mpr hh
        rw [List.length_append, List.length_singleton]
        omega
      simp only [hmem, not_true_eq_false, if_false, hlen, false_and]
      simp
    · simp only [hmem, not_false_eq_true, if_true]
      simp [hh]

/-- What `endTrick` returns, by the check of the hands: a state in transition with the
special points untouched, or the settlement by `endRound` of a state with the same special
points and round results. -/
theorem endTrick_cases (s s2 : GameState) (h : endTrick s = some s2) :
    (allHandsEmpty s = false →
      s2.specialPoints = s.specialPoints ∧ s2.roundResults = s.roundResults ∧
      s2.historyOfPlayedCards = s.historyOfPlayedCards) ∧
    (allHandsEmpty s = true →
      ∃ s1, s2 = endRound s1 ∧ s1.specialPoints = s.specialPoints ∧
        s1.roundResults = s.roundResults) := by
  unfold endTrick at h
  cases hw : determineTrickWinner s with
  | none => rw [hw] at h; cases h
  | some winner =>
    rw [hw] at h
    dsimp only at h
    by_cases he : allHandsEmpty s = true
    · have he2 : (seats.all fun i => decide ((s.hands i).length = 0)) = true := he
      rw [if_pos he2] at h
      refine ⟨fun hf => (by rw [he] at hf; cases hf), fun _ => ?_⟩
      exact ⟨_, (Option.some.inj h).symm, rfl, rfl⟩
    · have he2 : ¬ (seats.all fun i => decide ((s.hands i).length = 0)) = true := he
      rw [if_neg he2] at h
      refine ⟨fun _ => ?_, fun ht => absurd ht he⟩
      cases h
      exact ⟨rfl, rfl, rfl⟩

/-- The events of a round in progress leave the special points and round results. -/
theorem midRound_points (evs : List RoundEvent) :
    ∀ s sMid : GameState, s.historyOfPlayedCards ≠ [] → midRound evs s = some sMid →
      sMid.specialPoints = s.specialPoints ∧ sMid.roundResults = s.roundResults ∧
      sMid.historyOfPlayedCards ≠ [] := by
  induction evs with
  | nil =>
    intro s sMid hh h
    cases h
    exact ⟨rfl, rfl, hh⟩
  | cons e rest ih =>
    intro s sMid hh h
    unfold midRound at h
    cases hstep : midRoundStep e s with
    | none => rw [hstep] at h; cases h
    | some s2 =>
      rw [hstep] at h
      dsimp only at h
      have hs2 : s2.specialPoints = s.specialPoints ∧ s2.roundResults = s.roundResults ∧
          s2.historyOfPlayedCards ≠ [] := by
        cases e with
        | play cardIndex =>
          cases hstep
          exact playCard_later s cardIndex hh
        | trickEnd =>
          unfold midRoundStep at hstep
          dsimp only at hstep
          by_cases he : allHandsEmpty s = true
          · rw [if_pos he] at hstep; cases hstep
          · rw [if_neg he] at hstep
            have hf : allHandsEmpty s = false := by simpa using he
            obtain ⟨h1, h2, h3⟩ := (endTrick_cases s s2 hstep).1 hf
            exact ⟨h1, h2, by rw [h3]; exact hh⟩
        | nextTrick winner =>
          cases hstep
          exact ⟨rfl, rfl, hh⟩
      obtain ⟨h1, h2, h3⟩ := ih s2 sMid hs2.2.2 h
      exact ⟨h1.trans hs2.1, h2.trans hs2.2.1, h3⟩

/-- The first card of a round, led by the bid winner: the special points and round results
are those the trump resolver computes, each category's point in one anchor slot. -/
theorem playCard_first_lead_points (s : GameState) (card : Card)
    (hhist : s.historyOfPlayedCards = []) (hwin : s.bidWinner = some s.currentPlayer)
    (hmem : card ∈ s.hands s.currentPlayer) :
    (playCard (cardMap card) s).specialPoints 0 =
      pointOf (playCard (cardMap card) s).roundResults.jack 0 +
      pointOf (playCard (cardMap card) s).roundResults.low 0 +
      pointOf (playCard (cardMap card) s).roundResults.high 0 ∧
    (playCard (cardMap card) s).specialPoints 1 =
      pointOf (playCard (cardMap card) s).roundResults.jack 1 +
      pointOf (playCard (cardMap card) s).roundResults.low 1 +
      pointOf (playCard (cardMap card) s).roundResults.high 1 ∧
    (playCard (cardMap card) s).roundResults.game = none ∧
    (playCard (cardMap card) s).historyOfPlayedCards ≠ [] := by
  unfold playCard
  simp only [invCardMap_cardMap, hmem, not_true_eq_false, if_false, hhist, hwin,
    List.nil_append, List.length_singleton, and_self, if_true]
  generalize hS : ({ s with
      currentTrick := upd s.currentTrick s.currentPlayer (some card)
      hands := upd s.hands s.currentPlayer
        ((s.hands s.currentPlayer).filter (fun c => decide (c ≠ card)))
      historyOfPlayedCards := [card]
      playOrder := s.playOrder ++ [s.currentPlayer]
      trumpSuit := some card.suit
      bidWinner := some s.currentPlayer } : GameState) = S
  obtain ⟨hr, h0, h1, _, _⟩ := calculateSpecialPointsWhenTrumpDetermined_results S
  obtain ⟨sp, rr, hfr⟩ := calculateSpecialPointsWhenTrumpDetermined_frame S
  have hhist2 : (calculateSpecialPointsWhenTrumpDetermined S).historyOfPlayedCards = [card] := by
    rw [hfr, ← hS]
  refine ⟨?_, ?_, ?_, ?_⟩
  · show (calculateSpecialPointsWhenTrumpDetermined S).specialPoints 0 = _
    rw [h0]
    show _ = pointOf (calculateSpecialPointsWhenTrumpDetermined S).roundResults.jack 0 +
      pointOf (calculateSpecialPointsWhenTrumpDetermined S).roundResults.low 0 +
      pointOf (calculateSpecialPointsWhenTrumpDetermined S).roundResults.high 0
    rw [hr]
  · show (calculateSpecialPointsWhenTrumpDetermined S).specialPoints 1 = _
    rw [h1]
    show _ = pointOf (calculateSpecialPointsWhenTrumpDetermined S).roundResults.jack 1 +
      pointOf (calculateSpecialPointsWhenTrumpDetermined S).roundResults.low 1 +
      pointOf (calculateSpecialPointsWhenTrumpDetermined S).roundResults.high 1
    rw [hr]
  · show (calculateSpecialPointsWhenTrumpDetermined S).roundResults.game = none
    rw [hr]
  · show (calculateSpecialPointsWhenTrumpDetermined S).historyOfPlayedCards ≠ []
    rw [hhist2]
    simp

/-- C12: in a completed round, the bid winner's first lead (where the trump resolver runs),
then any events of the round in progress, then the `endTrick` that finds every hand empty and
settles the round with `endRound`: right after the resolver and until the settlement
`specialPoints[0] + specialPoints[1] <= 3`; after it the sum is at most 4, and each slot is
the sum of the points of the jack, low, high and game categories, each of which gives at most
one point, to slot 0 or to slot 1, never to both. -/
theorem specialPoints_round_bound (s0 : GameState) (card : Card) (evs : List RoundEvent)
    (sMid sEnd : GameState)
    (hhist : s0.historyOfPlayedCards = []) (hwin : s0.bidWinner = some s0.currentPlayer)
    (hmem : card ∈ s0.hands s0.currentPlayer)
    (hrun : midRound evs (playCard (cardMap card) s0) = some sMid)
    (hempty : allHandsEmpty sMid = true)
    (hend : endTrick sMid = some sEnd) :
    (playCard (cardMap card) s0).specialPoints 0 +
      (playCard (cardMap card) s0).specialPoints 1 ≤ 3 ∧
    sMid.specialPoints 0 + sMid.specialPoints 1 ≤ 3 ∧
    sEnd.specialPoints 0 + sEnd.specialPoints 1 ≤ 4 ∧
    sEnd.specialPoints 0 =
      pointOf sEnd.roundResults.jack 0 + pointOf sEnd.roundResults.low 0 +
      pointOf sEnd.roundResults.high 0 + gamePointOf sEnd.roundResults.game 0 ∧
    sEnd.specialPoints 1 =
      pointOf sEnd.roundResults.jack 1 + pointOf sEnd.roundResults.low 1 +
      pointOf sEnd.roundResults.high 1 + gamePointOf sEnd.roundResults.game 1 ∧
    (∀ o, pointOf o 0 + pointOf o 1 ≤ 1) ∧
    (∀ g, gamePointOf g 0 + gamePointOf g 1 ≤ 1) := by
  obtain ⟨f0, f1, _, fh⟩ := playCard_first_lead_points s0 card hhist hwin hmem
  obtain ⟨m1, m2, _⟩ := midRound_points evs _ sMid fh hrun
  obtain ⟨s1, hs1, e1, e2⟩ := (endTrick_cases sMid sEnd hend).2 hempty
  obtain ⟨r1, r2⟩ := endRound_points s1
  obtain ⟨g0, g1, gj, gl, gh⟩ := calculateSpecialPoints_points s1
  have hj := pointOf_le_one (playCard (cardMap card) s0).roundResults.jack
  have hl := pointOf_le_one (playCard (cardMap card) s0).roundResults.low
  have hh := pointOf_le_one (playCard (cardMap card) s0).roundResults.high
  have hsp : sEnd.specialPoints = (calculateSpecialPoints s1).specialPoints := by rw [hs1, r1]
  have hrr : sEnd.roundResults = (calculateSpecialPoints s1).roundResults := by rw [hs1, r2]
  have hg := gamePointOf_le_one (calculateSpecialPoints s1).roundResults.game
  have hrr1 : s1.roundResults = (playCard (cardMap card) s0).roundResults := by rw [e2, m2]
  have hsp1 : s1.specialPoints = (playCard (cardMap card) s0).specialPoints := by rw [e1, m1]
  have d0 : sEnd.specialPoints 0 =
      pointOf sEnd.roundResults.jack 0 + pointOf sEnd.roundResults.low 0 +
      pointOf sEnd.roundResults.high 0 + gamePointOf sEnd.roundResults.game 0 := by
    rw [hsp, hrr, g0, gj, gl, gh, hsp1, hrr1, f0]
  have d1 : sEnd.specialPoints 1 =
      pointOf sEnd.roundResults.jack 1 + pointOf sEnd.roundResults.low 1 +
      pointOf sEnd.roundResults.high 1 + gamePointOf sEnd.roundResults.game 1 := by
    rw [hsp, hrr, g1, gj, gl, gh, hsp1, hrr1, f1]
  refine ⟨by omega, ?_, ?_, d0, d1, pointOf_le_one, gamePointOf_le_one⟩
  · rw [m1]; omega
  · rw [hsp, g0, g1, hsp1]; omega

set_option maxRecDepth 1000000 in
/-- C12 on the example deal, played to its end: the 5 of Hearts is led, 23 more cards follow,
the last `endTrick` settles the round; the special points then stand at 1 and 3. -/
theorem specialPoints_round_bound_witness :
    exampleRoundEnd.specialPoints 0 + exampleRoundEnd.specialPoints 1 ≤ 4 ∧
    exampleRoundEnd.specialPoints 0 = 1 ∧ exampleRoundEnd.specialPoints 1 = 3 :=
  have hrun : midRound exampleRoundEvents
      (playCard (cardMap ⟨Rank.r5, Suit.H⟩) exampleAuction) = some exampleRoundMid := by
    have h : (midRound exampleRoundEvents
        (playCard (cardMap ⟨Rank.r5, Suit.H⟩) exampleAuction)).isSome = true := by decide
    obtain ⟨x, hx⟩ := Option.isSome_iff_exists.mp h
    unfold exampleRoundMid
    rw [hx]
    rfl
  have hend : endTrick exampleRoundMid = some exampleRoundEnd := by
    have h : (endTrick exampleRoundMid).isSome = true := by decide
    obtain ⟨x, hx⟩ := Option.isSome_iff_exists.mp h
    unfold exampleRoundEnd
    rw [hx]
    rfl
  have h := specialPoints_round_bound exampleAuction ⟨Rank.r5, Suit.H⟩ exampleRoundEvents
    exampleRoundMid exampleRoundEnd (by decide) (by decide) (by decide) hrun (by decide) hend
  ⟨h.2.2.1, by decide, by decide⟩

/-! ## After the round: game over or the next deal -/

/-- C15: after a round is settled, the Continue handler moves the game to phase `game-over`
if and only if `scores[0] >= 11` or `scores[1] >= 11`; otherwise it deals a new hand and the
phase is `bidding`. A score below 11, negative or not, never ends the game. -/
theorem continueAfterRound_phase (rnd : Nat → Nat) (s : GameState) :
    ((continueAfterRound rnd s).phase = Phase.gameOver ↔ (s.scores 0 ≥ 11 ∨ s.scores 1 ≥ 11)) ∧
    ((s.scores 0 ≥ 11 ∨ s.scores 1 ≥ 11) →
      continueAfterRound rnd s = { s with phase := Phase.gameOver }) ∧
    (¬ (s.scores 0 ≥ 11 ∨ s.scores 1 ≥ 11) →
      continueAfterRound rnd s = dealNewHand rnd s ∧
      (continueAfterRound rnd s).phase = Phase.bidding) ∧
    (s.scores 0 < 11 → s.scores 1 < 11 → (continueAfterRound rnd s).phase = Phase.bidding) := by
  have hdeal : (dealNewHand rnd s).phase = Phase.bidding := rfl
  unfold continueAfterRound
  dsimp only
  by_cases h : s.scores 0 ≥ 11 ∨ s.scores 1 ≥ 11
  · rw [if_pos h]
    refine ⟨⟨fun _ => h, fun _ => rfl⟩, fun _ => rfl, fun hn => absurd h hn, ?_⟩
    intro h0 h1
    rcases h with h | h <;> omega
  · rw [if_neg h]
    refine ⟨⟨?_, fun hh => absurd hh h⟩, fun hh => absurd hh h, fun _ => ⟨rfl, hdeal⟩,
      fun _ _ => hdeal⟩
    intro hp
    rw [hdeal] at hp
    cases hp

/-- C15 on the settled example scenario (scores 1 and 5): the next hand is dealt. -/
theorem continueAfterRound_phase_witness :
    (continueAfterRound (fun _ => 0) (endRound setScenario)).phase = Phase.bidding :=
  (continueAfterRound_phase (fun _ => 0) (endRound setScenario)).2.2.2 (by decide) (by decide)

/-- C16: for every state, `dealNewHand` moves the dealer to `(dealer + 1) mod 4`, keeps all
four score slots, resets the round fields (trump suit, bid winner, bid amount, bids, trick
wins, special points, captured cards, history, trick, play order) and starts the bidding with
the seat after the new dealer. -/
theorem dealNewHand_effect (rnd : Nat → Nat) (s : GameState) :
    ((dealNewHand rnd s).dealer).val = (s.dealer.val + 1) % 4 ∧
    (dealNewHand rnd s).scores = s.scores ∧
    (dealNewHand rnd s).trumpSuit = none ∧
    (dealNewHand rnd s).bidWinner = none ∧
    (dealNewHand rnd s).bidAmount = 0 ∧
    (dealNewHand rnd s).bids = (fun _ => none) ∧
    (dealNewHand rnd s).trickWins = (fun _ => 0) ∧
    (dealNewHand rnd s).specialPoints = (fun _ => 0) ∧
    (dealNewHand rnd s).cardsWonInTricks = (fun _ => []) ∧
    (dealNewHand rnd s).historyOfPlayedCards = [] ∧
    (dealNewHand rnd s).currentTrick = (fun _ => none) ∧
    (dealNewHand rnd s).playOrder = [] ∧
    (dealNewHand rnd s).phase = Phase.bidding ∧
    ((dealNewHand rnd s).currentPlayer).val = (((dealNewHand rnd s).dealer).val + 1) % 4 :=
  ⟨rfl, rfl, rfl, rfl, rfl, rfl, rfl, rfl, rfl, rfl, rfl, rfl, rfl, rfl⟩

/-! ## Bidding -/

/-- The mask of `getLegalBids`, entry by entry. -/
theorem getLegalBids_eq (s : GameState) :
    getLegalBids s =
      [true, decide (2 > s.bidAmount), decide (3 > s.bidAmount), decide (4 > s.bidAmount)] := by
  unfold getLegalBids bidActions
  simp only [List.length_cons, List.length_nil, List.replicate, List.set, List.range',
    List.foldl_cons, List.foldl_nil, List.getElem?_cons_succ, List.getElem?_cons_zero]
  by_cases h2 : 2 > s.bidAmount <;> by_cases h3 : 3 > s.bidAmount <;>
    by_cases h4 : 4 > s.bidAmount <;> simp [h2, h3, h4, List.set]

/-- C17: for every current `bidAmount`, `getLegalBids` returns a mask of 4 entries over the
actions Pass, 2, 3, 4 in which Pass (index 0) is true and the entry of a numeric bid is true
if and only if the bid exceeds `bidAmount`. -/
theorem getLegalBids_spec (s : GameState) :
    (getLegalBids s).length = 4 ∧
    bidActions = [0, 2, 3, 4] ∧
    maskAt (getLegalBids s) 0 = true ∧
    (∀ i b, 1 ≤ i → bidActions[i]? = some b →
      (maskAt (getLegalBids s) i = true ↔ b > s.bidAmount)) := by
  rw [getLegalBids_eq]
  refine ⟨rfl, rfl, rfl, ?_⟩
  intro i b hi hb
  unfold bidActions at hb
  match i, hi, hb with
  | 1, _, hb =>
    simp only [List.getElem?_cons_succ, List.getElem?_cons_zero, Option.some.injEq] at hb
    subst hb
    simp [maskAt]
  | 2, _, hb =>
    simp only [List.getElem?_cons_succ, List.getElem?_cons_zero, Option.some.injEq] at hb
    subst hb
    simp [maskAt]
  | 3, _, hb =>
    simp only [List.getElem?_cons_succ, List.getElem?_cons_zero, Option.some.injEq] at hb
    subst hb
    simp [maskAt]
  | n + 4, _, hb =>
    simp at hb

/-- C17 after a bid of 3: the entry of bid 4 (index 3) is true because 4 exceeds 3. -/
theorem getLegalBids_spec_witness :
    maskAt (getLegalBids bidThreeState) 3 = true :=
  ((getLegalBids_spec bidThreeState).2.2.2 3 4 (by decide) (by decide)).mpr (by decide)

/-- What `processBid` does with a bid that reads the amount `b`. -/
theorem processBid_amount (s : GameState) (bidIndex b : Nat)
    (hb : bidActions[bidIndex]? = some b) :
    processBid bidIndex s =
      if b > s.bidAmount then
        { s with
          bids := upd s.bids s.currentPlayer (some b)
          bidWinner := some s.currentPlayer
          bidAmount := b
          currentPlayer := nextSeat s.currentPlayer }
      else
        { s with
          bids := upd s.bids s.currentPlayer (some b)
          currentPlayer := nextSeat s.currentPlayer } := by
  unfold processBid
  simp only [hb]
  split_ifs <;> rfl

/-- What `processBid` does with an index outside `bidActions`. -/
theorem processBid_undefined (s : GameState) (bidIndex : Nat)
    (hb : bidActions[bidIndex]? = none) :
    processBid bidIndex s =
      { s with
        bids := upd s.bids s.currentPlayer none
        currentPlayer := nextSeat s.currentPlayer } := by
  unfold processBid
  simp only [hb]

/-- C18, the claim fails as stated: seat 3 has bid 3, the phase is bidding and seat 0 has the
turn; the bid 2 (index 1) is not legal, its mask entry is false, yet `makeBid(1)` records it
for seat 0 and passes the turn to seat 1. -/
theorem makeBid_accepts_illegal_bid :
    bidThreeState.phase = Phase.bidding ∧
    bidThreeState.currentPlayer = 0 ∧
    bidThreeState.bidAmount = 3 ∧
    bidActions[1]? = some 2 ∧
    maskAt (getLegalBids bidThreeState) 1 = false ∧
    bidThreeState.bids 0 = none ∧
    (makeBid 1 bidThreeState).bids 0 = some 2 ∧
    (makeBid 1 bidThreeState).currentPlayer = 1 ∧
    makeBid 1 bidThreeState ≠ bidThreeState := by
  refine ⟨by decide, by decide, by decide, by decide, by decide, by decide, by decide,
    by decide, ?_⟩
  intro h
  have h2 := congrArg GameState.currentPlayer h
  revert h2
  decide

/-- C18 as amended: `makeBid` changes nothing when the phase is not `bidding` or seat 0 does
not have the turn. Neither `makeBid` nor `processBid` checks the amount: a numeric bid that
does not exceed the current `bidAmount` (its entry in `getLegalBids` is false) leaves
`bidWinner` and `bidAmount` unchanged, but is recorded in `bids` for the current player and
passes the turn to the next seat. -/
theorem makeBid_rejects_out_of_turn (s : GameState) (bidIndex : Nat) :
    ((s.phase ≠ Phase.bidding ∨ s.currentPlayer ≠ 0) → makeBid bidIndex s = s) ∧
    (s.phase = Phase.bidding → s.currentPlayer = 0 →
      makeBid bidIndex s = processBid bidIndex s) ∧
    (∀ b, bidActions[bidIndex]? = some b → ¬ b > s.bidAmount →
      (processBid bidIndex s).bidWinner = s.bidWinner ∧
      (processBid bidIndex s).bidAmount = s.bidAmount ∧
      (processBid bidIndex s).bids s.currentPlayer = some b ∧
      (processBid bidIndex s).currentPlayer = nextSeat s.currentPlayer ∧
      (1 ≤ bidIndex → maskAt (getLegalBids s) bidIndex = false)) := by
  refine ⟨?_, ?_, ?_⟩
  · intro h
    unfold makeBid
    rw [if_pos h]
  · intro h1 h2
    unfold makeBid
    rw [if_neg (by rw [h1, h2]; simp)]
  · intro b hb hnot
    rw [processBid_amount s bidIndex b hb, if_neg hnot]
    refine ⟨rfl, rfl, ?_, rfl, ?_⟩
    · show upd s.bids s.currentPlayer (some b) s.currentPlayer = some b
      simp only [upd, if_true]
    · intro hi
      have h := ((getLegalBids_spec s).2.2.2 bidIndex b hi hb)
      cases hm : maskAt (getLegalBids s) bidIndex with
      | false => rfl
      | true => exact absurd (h.mp hm) hnot

/-- The amended C18 at the state after a bid of 3, where seat 0 has the turn: with the phase
set to `playing`, `makeBid` leaves the state as it is. -/
theorem makeBid_rejects_out_of_turn_witness :
    makeBid 1 { bidThreeState with phase := Phase.playing } =
      { bidThreeState with phase := Phase.playing } :=
  (makeBid_rejects_out_of_turn { bidThreeState with phase := Phase.playing } 1).1
    (Or.inl (by decide))

/-- A true entry of the mask of `getLegalBids` is at an index of `bidActions`. -/
theorem legal_bid_amount (s : GameState) (bidIndex : Nat)
    (hlegal : maskAt (getLegalBids s) bidIndex = true) :
    ∃ a, bidActions[bidIndex]? = some a ∧ (a = 0 ∨ a > s.bidAmount) := by
  rw [getLegalBids_eq] at hlegal
  match bidIndex, hlegal with
  | 0, _ => exact ⟨0, rfl, Or.inl rfl⟩
  | 1, h => exact ⟨2, rfl, Or.inr (by simpa [maskAt] using h)⟩
  | 2, h => exact ⟨3, rfl, Or.inr (by simpa [maskAt] using h)⟩
  | 3, h => exact ⟨4, rfl, Or.inr (by simpa [maskAt] using h)⟩
  | n + 4, h => simp [maskAt] at h

/-- C19: for every state with current player `p` and every legal bid action, of amount `a`,
`processBid` records `bids[p] = a`, sets `bidWinner` and `bidAmount` to `p` and `a` if `a`
exceeds the previous `bidAmount` and leaves both unchanged otherwise (so a Pass never changes
the winner), passes the turn to `(p + 1) mod 4`, and leaves the other seats' recorded bids,
the hands and the scores unchanged. -/
theorem processBid_effect (s : GameState) (bidIndex : Nat)
    (hlegal : maskAt (getLegalBids s) bidIndex = true) :
    ∃ a, bidActions[bidIndex]? = some a ∧
      (processBid bidIndex s).bids s.currentPlayer = some a ∧
      (a > s.bidAmount →
        (processBid bidIndex s).bidWinner = some s.currentPlayer ∧
        (processBid bidIndex s).bidAmount = a) ∧
      (¬ a > s.bidAmount →
        (processBid bidIndex s).bidWinner = s.bidWinner ∧
        (processBid bidIndex s).bidAmount = s.bidAmount) ∧
      (a = 0 →
        (processBid bidIndex s).bidWinner = s.bidWinner ∧
        (processBid bidIndex s).bidAmount = s.bidAmount) ∧
      ((processBid bidIndex s).currentPlayer).val = (s.currentPlayer.val + 1) % 4 ∧
      (∀ j, j ≠ s.currentPlayer → (processBid bidIndex s).bids j = s.bids j) ∧
      (processBid bidIndex s).hands = s.hands ∧
      (processBid bidIndex s).scores = s.scores := by
  obtain ⟨a, ha, _⟩ := legal_bid_amount s bidIndex hlegal
  refine ⟨a, ha, ?_⟩
  rw [processBid_amount s bidIndex a ha]
  by_cases hgt : a > s.bidAmount
  · rw [if_pos hgt]
    refine ⟨?_, fun _ => ⟨rfl, rfl⟩, fun h => absurd hgt h, fun h0 => ?_, rfl, ?_, rfl, rfl⟩
    · show upd s.bids s.currentPlayer (some a) s.currentPlayer = some a
      simp only [upd, if_true]
    · omega
    · intro j hj
      show upd s.bids s.currentPlayer (some a) j = s.bids j
      simp only [upd, hj, if_false]
  · rw [if_neg hgt]
    refine ⟨?_, fun h => absurd h hgt, fun _ => ⟨rfl, rfl⟩, fun _ => ⟨rfl, rfl⟩, rfl, ?_, rfl,
      rfl⟩
    · show upd s.bids s.currentPlayer (some a) s.currentPlayer = some a
      simp only [upd, if_true]
    · intro j hj
      show upd s.bids s.currentPlayer (some a) j = s.bids j
      simp only [upd, hj, if_false]

/-- C19 after a bid of 3: seat 0 bids 4 (index 3), a legal action. -/
theorem processBid_effect_witness :
    ∃ a, bidActions[3]? = some a ∧
      (processBid 3 bidThreeState).bids bidThreeState.currentPlayer = some a ∧
      (a > bidThreeState.bidAmount →
        (processBid 3 bidThreeState).bidWinner = some bidThreeState.currentPlayer ∧
        (processBid 3 bidThreeState).bidAmount = a) ∧
      (¬ a > bidThreeState.bidAmount →
        (processBid 3 bidThreeState).bidWinner = bidThreeState.bidWinner ∧
        (processBid 3 bidThreeState).bidAmount = bidThreeState.bidAmount) ∧
      (a = 0 →
        (processBid 3 bidThreeState).bidWinner = bidThreeState.bidWinner ∧
        (processBid 3 bidThreeState).bidAmount = bidThreeState.bidAmount) ∧
      ((processBid 3 bidThreeState).currentPlayer).val =
        (bidThreeState.currentPlayer.val + 1) % 4 ∧
      (∀ j, j ≠ bidThreeState.currentPlayer →
        (processBid 3 bidThreeState).bids j = bidThreeState.bids j) ∧
      (processBid 3 bidThreeState).hands = bidThreeState.hands ∧
      (processBid 3 bidThreeState).scores = bidThreeState.scores :=
  processBid_effect bidThreeState 3 (by decide)

/-- One bid never lowers `bidAmount`, and it changes `bidWinner` only when it reads an amount
strictly above the `bidAmount` before it. -/
theorem processBid_monotone (s : GameState) (bidIndex : Nat) :
    s.bidAmount ≤ (processBid bidIndex s).bidAmount ∧
    ((processBid bidIndex s).bidWinner ≠ s.bidWinner →
      ∃ b, bidActions[bidIndex]? = some b ∧ s.bidAmount < b ∧
        (processBid bidIndex s).bidAmount = b ∧
        (processBid bidIndex s).bidWinner = some s.currentPlayer) := by
  cases hb : bidActions[bidIndex]? with
  | none =>
    rw [processBid_undefined s bidIndex hb]
    exact ⟨Nat.le_refl _, fun h => absurd rfl h⟩
  | some b =>
    rw [processBid_amount s bidIndex b hb]
    by_cases hgt : b > s.bidAmount
    · rw [if_pos hgt]
      exact ⟨Nat.le_of_lt hgt, fun _ => ⟨b, rfl, hgt, rfl, rfl⟩⟩
    · rw [if_neg hgt]
      exact ⟨Nat.le_refl _, fun h => absurd rfl h⟩

/-- Any further bids never lower `bidAmount`. -/
theorem processBids_monotone (bids : List Nat) :
    ∀ s : GameState,
      s.bidAmount ≤ (bids.foldl (fun st bidIndex => processBid bidIndex st) s).bidAmount := by
  induction bids with
  | nil => intro s; exact Nat.le_refl _
  | cons b rest ih =>
    intro s
    rw [List.foldl_cons]
    exact Nat.le_trans (processBid_monotone s b).1 (ih _)

/-- C20: across any sequence of bids processed in one round, from any starting `bidAmount`
(0 at the deal), `bidAmount` never decreases: after any further bids it is at least what it
was after the earlier ones; and a bid changes `bidWinner` only if its amount is strictly
higher than the `bidAmount` before it, which it then replaces. -/
theorem bidAmount_nondecreasing (s : GameState) (earlier later : List Nat) (bidIndex : Nat) :
    (earlier.foldl (fun st bidIndex => processBid bidIndex st) s).bidAmount ≤
      ((earlier ++ later).foldl (fun st bidIndex => processBid bidIndex st) s).bidAmount ∧
    ((processBid bidIndex
        (earlier.foldl (fun st bidIndex => processBid bidIndex st) s)).bidWinner ≠
      (earlier.foldl (fun st bidIndex => processBid bidIndex st) s).bidWinner →
      ∃ b, bidActions[bidIndex]? = some b ∧
        (earlier.foldl (fun st bidIndex => processBid bidIndex st) s).bidAmount < b ∧
        (processBid bidIndex
          (earlier.foldl (fun st bidIndex => processBid bidIndex st) s)).bidAmount = b ∧
        (processBid bidIndex
          (earlier.foldl (fun st bidIndex => processBid bidIndex st) s)).bidWinner =
          some (earlier.foldl (fun st bidIndex => processBid bidIndex st) s).currentPlayer) ∧
    (newGame s.dealer (fun _ => 0)).bidAmount = 0 ∧
    (dealNewHand (fun _ => 0) s).bidAmount = 0 := by
  refine ⟨?_, (processBid_monotone _ bidIndex).2, rfl, rfl⟩
  rw [List.foldl_append]
  exact processBids_monotone later _

/-- C20 on the example deal: seat 3 bids 3, seat 0 then bids 4 and becomes the bid winner,
the amount 4 being above 3. -/
theorem bidAmount_nondecreasing_witness :
    ∃ b, bidActions[3]? = some b ∧
      ([2].foldl (fun st bidIndex => processBid bidIndex st) exampleDeal).bidAmount < b ∧
      (processBid 3
        ([2].foldl (fun st bidIndex => processBid bidIndex st) exampleDeal)).bidAmount = b ∧
      (processBid 3
        ([2].foldl (fun st bidIndex => processBid bidIndex st) exampleDeal)).bidWinner =
        some ([2].foldl (fun st bidIndex => processBid bidIndex st) exampleDeal).currentPlayer :=
  (bidAmount_nondecreasing exampleDeal [2] [] 3).2.1 (by decide)

/-! ## The course of the auction -/

theorem processBid_turn (bidIndex : Nat) (s : GameState) :
    (processBid bidIndex s).currentPlayer = nextSeat s.currentPlayer ∧
    (processBid bidIndex s).dealer = s.dealer ∧
    (processBid bidIndex s).phase = s.phase ∧
    (processBid bidIndex s).bids s.currentPlayer = bidActions[bidIndex]? ∧
    (∀ j, j ≠ s.currentPlayer → (processBid bidIndex s).bids j = s.bids j) := by
  cases hb : bidActions[bidIndex]? with
  | none =>
    rw [processBid_undefined s bidIndex hb]
    refine ⟨rfl, rfl, rfl, ?_, ?_⟩
    · show upd s.bids s.currentPlayer none s.currentPlayer = none
      simp only [upd, if_true]
    · intro j hj
      show upd s.bids s.currentPlayer none j = s.bids j
      simp only [upd, hj, if_false]
  | some b =>
    rw [processBid_amount s bidIndex b hb]
    split_ifs
    · refine ⟨rfl, rfl, rfl, ?_, ?_⟩
      · show upd s.bids s.currentPlayer (some b) s.currentPlayer = some b
        simp only [upd, if_true]
      · intro j hj
        show upd s.bids s.currentPlayer (some b) j = s.bids j
        simp only [upd, hj, if_false]
    · refine ⟨rfl, rfl, rfl, ?_, ?_⟩
      · show upd s.bids s.currentPlayer (some b) s.currentPlayer = some b
        simp only [upd, if_true]
      · intro j hj
        show upd s.bids s.currentPlayer (some b) j = s.bids j
        simp only [upd, hj, if_false]

/-- The part of C21 that holds on the code: from the state `startBiddingPhase` leaves, the
four bids are taken from the seats `d+1`, `d+2`, `d+3`, `d` in that order, four different
seats, and `processBid` sets the timer of `endBiddingPhase` after the fourth bid and after
none of the first three. -/
theorem auction_order (s : GameState) (b1 b2 b3 b4 : Nat) :
    (startBiddingPhase s).currentPlayer = nextSeat s.dealer ∧
    (processBid b1 (startBiddingPhase s)).currentPlayer = nextSeat (nextSeat s.dealer) ∧
    (processBid b2 (processBid b1 (startBiddingPhase s))).currentPlayer =
      nextSeat (nextSeat (nextSeat s.dealer)) ∧
    nextSeat (nextSeat (nextSeat (nextSeat s.dealer))) = s.dealer ∧
    (processBid b3 (processBid b2 (processBid b1 (startBiddingPhase s)))).currentPlayer =
      s.dealer ∧
    [nextSeat s.dealer, nextSeat (nextSeat s.dealer),
      nextSeat (nextSeat (nextSeat s.dealer)), s.dealer].Nodup ∧
    auctionClosing (processBid b1 (startBiddingPhase s)) = false ∧
    auctionClosing (processBid b2 (processBid b1 (startBiddingPhase s))) = false ∧
    auctionClosing (processBid b3 (processBid b2 (processBid b1 (startBiddingPhase s)))) =
      false ∧
    auctionClosing (processBid b4
      (processBid b3 (processBid b2 (processBid b1 (startBiddingPhase s))))) = true := by
  have hstart : (startBiddingPhase s).currentPlayer = nextSeat s.dealer := rfl
  have hd0 : (startBiddingPhase s).dealer = s.dealer := rfl
  obtain ⟨t1, d1, _⟩ := processBid_turn b1 (startBiddingPhase s)
  obtain ⟨t2, d2, _⟩ := processBid_turn b2 (processBid b1 (startBiddingPhase s))
  obtain ⟨t3, d3, _⟩ := processBid_turn b3 (processBid b2 (processBid b1 (startBiddingPhase s)))
  obtain ⟨t4, d4, _⟩ := processBid_turn b4
    (processBid b3 (processBid b2 (processBid b1 (startBiddingPhase s))))
  have hfour : ∀ d : Seat, nextSeat (nextSeat (nextSeat (nextSeat d))) = d := by decide
  have hnd : ∀ d : Seat, [nextSeat d, nextSeat (nextSeat d),
      nextSeat (nextSeat (nextSeat d)), d].Nodup := by decide
  have hne1 : ∀ d : Seat, nextSeat (nextSeat d) ≠ nextSeat d := by decide
  have hne2 : ∀ d : Seat, nextSeat (nextSeat (nextSeat d)) ≠ nextSeat d := by decide
  have hne3 : ∀ d : Seat, d ≠ nextSeat d := by decide
  rw [hstart] at t1
  rw [t1] at t2
  rw [t2, hfour] at t3
  rw [t3] at t4
  rw [hd0] at d1
  rw [d1] at d2
  rw [d2] at d3
  rw [d3] at d4
  refine ⟨hstart, t1, t2, hfour _, t3, hnd _, ?_, ?_, ?_, ?_⟩
  · unfold auctionClosing; rw [t1, d1]; exact decide_eq_false (hne1 _)
  · unfold auctionClosing; rw [t2, d2]; exact decide_eq_false (hne2 _)
  · unfold auctionClosing; rw [t3, d3]; exact decide_eq_false (hne3 _)
  · unfold auctionClosing; rw [t4, d4]; exact decide_eq_true rfl

/-- C21, the code at a reachable state: dealer seat 3, the four bids (all Pass) are in and
the timer of `endBiddingPhase` is set, but until it fires the phase is still `bidding` and
the turn is back with seat 0. `makeBid` then accepts a fifth bid: seat 0's recorded Pass is
replaced by 2, seat 0 becomes the bid winner in place of the dealer, and the turn moves to
seat 1, who is asked to bid again. -/
theorem fifth_bid_accepted :
    dealerThreeDeal.dealer = 3 ∧
    dealerThreeAuction.phase = Phase.bidding ∧
    dealerThreeAuction.currentPlayer = 0 ∧
    auctionClosing dealerThreeAuction = true ∧
    (∀ j, dealerThreeAuction.bids j = some 0) ∧
    maskAt (getLegalBids dealerThreeAuction) 1 = true ∧
    (makeBid 1 dealerThreeAuction).bids 0 = some 2 ∧
    (makeBid 1 dealerThreeAuction).bidWinner = some 0 ∧
    (makeBid 1 dealerThreeAuction).bidAmount = 2 ∧
    (makeBid 1 dealerThreeAuction).currentPlayer = 1 ∧
    auctionClosing (makeBid 1 dealerThreeAuction) = false ∧
    (endBiddingPhase dealerThreeAuction).bidWinner = some 3 ∧
    (endBiddingPhase (makeBid 1 dealerThreeAuction)).bidWinner = some 0 := by
  decide

/-- The state `endBiddingPhase` returns when the auction set a bid winner. -/
theorem endBiddingPhase_some (s : GameState) (w : Seat) (h : s.bidWinner = some w) :
    endBiddingPhase s =
      { s with
        biddingTeam := some (if w.val % 2 = 0 then Team.team0 else Team.team1)
        phase := Phase.playing
        currentPlayer := w
        currentTrick := fun _ => none
        playOrder := [] } := by
  unfold endBiddingPhase
  simp only [h]

/-- The state `endBiddingPhase` returns when the auction set no bid winner. -/
theorem endBiddingPhase_none (s : GameState) (h : s.bidWinner = none) :
    endBiddingPhase s =
      { s with
        bidWinner := some s.dealer
        bidAmount := 2
        biddingTeam := some (if s.dealer.val % 2 = 0 then Team.team0 else Team.team1)
        phase := Phase.playing
        currentPlayer := s.dealer
        currentTrick := fun _ => none
        playOrder := [] } := by
  unfold endBiddingPhase
  simp only [h]

/-- C22: for every dealer seat, from a deal (no bid winner, bid amount 0): if every bid is a
Pass, then at the close of the auction `bidWinner` is the dealer and `bidAmount` is 2; if
some bid was numeric, `endBiddingPhase` leaves `bidWinner` and `bidAmount` as the auction set
them. -/
theorem dealer_stuck_when_all_pass (s : GameState) (bids : List Nat)
    (hw : s.bidWinner = none) (ha : s.bidAmount = 0) :
    ((∀ i ∈ bids, bidActions[i]? = some 0) →
      (endBiddingPhase
        (bids.foldl (fun st bidIndex => processBid bidIndex st) s)).bidWinner =
          some s.dealer ∧
      (endBiddingPhase
        (bids.foldl (fun st bidIndex => processBid bidIndex st) s)).bidAmount = 2) ∧
    ((∃ i ∈ bids, ∃ b, bidActions[i]? = some b ∧ b > 0) →
      (bids.foldl (fun st bidIndex => processBid bidIndex st) s).bidWinner ≠ none ∧
      (endBiddingPhase
        (bids.foldl (fun st bidIndex => processBid bidIndex st) s)).bidWinner =
          (bids.foldl (fun st bidIndex => processBid bidIndex st) s).bidWinner ∧
      (endBiddingPhase
        (bids.foldl (fun st bidIndex => processBid bidIndex st) s)).bidAmount =
          (bids.foldl (fun st bidIndex => processBid bidIndex st) s).bidAmount) := by
  have hpass : ∀ (l : List Nat) (t : GameState), t.bidWinner = none → t.bidAmount = 0 →
      (∀ i ∈ l, bidActions[i]? = some 0) →
      (l.foldl (fun st bidIndex => processBid bidIndex st) t).bidWinner = none ∧
      (l.foldl (fun st bidIndex => processBid bidIndex st) t).dealer = t.dealer := by
    intro l
    induction l with
    | nil => intro t h1 _ _; exact ⟨h1, rfl⟩
    | cons i rest ih =>
      intro t h1 h2 hall
      rw [List.foldl_cons]
      have hi := hall i (List.mem_cons_self _ _)
      have hstep : (processBid i t).bidWinner = none ∧ (processBid i t).bidAmount = 0 ∧
          (processBid i t).dealer = t.dealer := by
        rw [processBid_amount t i 0 hi, if_neg (by omega)]
        exact ⟨h1, h2, rfl⟩
      obtain ⟨r1, r2⟩ := ih (processBid i t) hstep.1 hstep.2.1
        (fun j hj => hall j (List.mem_cons_of_mem _ hj))
      exact ⟨r1, r2.trans hstep.2.2⟩
  have hnum : ∀ (l : List Nat) (t : GameState), (t.bidAmount > 0 → t.bidWinner ≠ none) →
      ((l.foldl (fun st bidIndex => processBid bidIndex st) t).bidAmount > 0 →
        (l.foldl (fun st bidIndex => processBid bidIndex st) t).bidWinner ≠ none) ∧
      ((t.bidWinner ≠ none ∨ ∃ i ∈ l, ∃ b, bidActions[i]? = some b ∧ b > 0) →
        (l.foldl (fun st bidIndex => processBid bidIndex st) t).bidWinner ≠ none) := by
    intro l
    induction l with
    | nil =>
      intro t hinv
      refine ⟨hinv, ?_⟩
      rintro (h | ⟨i, hi, _⟩)
      · exact h
      · cases hi
    | cons i rest ih =>
      intro t hinv
      rw [List.foldl_cons]
      have hstep : ((processBid i t).bidAmount > 0 → (processBid i t).bidWinner ≠ none) ∧
          (t.bidWinner ≠ none → (processBid i t).bidWinner ≠ none) ∧
          (∀ b, bidActions[i]? = some b → b > 0 → (processBid i t).bidWinner ≠ none) := by
        cases hb : bidActions[i]? with
        | none =>
          rw [processBid_undefined t i hb]
          exact ⟨hinv, fun h => h, fun b hb2 => by cases hb2⟩
        | some b =>
          rw [processBid_amount t i b hb]
          by_cases hgt : b > t.bidAmount
          · rw [if_pos hgt]
            refine ⟨fun _ => ?_, fun _ => ?_, fun _ _ _ => ?_⟩ <;>
              exact fun h => Option.noConfusion h
          · rw [if_neg hgt]
            refine ⟨hinv, fun h => h, fun b2 hb2 hpos => ?_⟩
            cases hb2
            exact hinv (by
              show t.bidAmount > 0
              omega)
      obtain ⟨r1, r2⟩ := ih (processBid i t) hstep.1
      refine ⟨r1, ?_⟩
      rintro (h | ⟨j, hj, b, hb, hpos⟩)
      · exact r2 (Or.inl (hstep.2.1 h))
      · rcases List.mem_cons.mp hj with e | e
        · subst e
          exact r2 (Or.inl (hstep.2.2 b hb hpos))
        · exact r2 (Or.inr ⟨j, e, b, hb, hpos⟩)
  refine ⟨?_, ?_⟩
  · intro hall
    obtain ⟨r1, r2⟩ := hpass bids s hw ha hall
    rw [endBiddingPhase_none _ r1]
    exact ⟨congrArg some r2, rfl⟩
  · intro hex
    have hne := (hnum bids s (by rw [ha]; intro h; omega)).2 (Or.inr hex)
    refine ⟨hne, ?_⟩
    obtain ⟨w, hw2⟩ := Option.ne_none_iff_exists'.mp hne
    rw [endBiddingPhase_some _ w hw2]
    exact ⟨rfl, rfl⟩

/-- C22 on the example deal (dealer seat 2): all four seats pass, and the dealer is left with
the bid at 2. -/
theorem dealer_stuck_when_all_pass_witness :
    (endBiddingPhase
      ([0, 0, 0, 0].foldl (fun st bidIndex => processBid bidIndex st)
        exampleDeal)).bidWinner = some exampleDeal.dealer ∧
    (endBiddingPhase
      ([0, 0, 0, 0].foldl (fun st bidIndex => processBid bidIndex st)
        exampleDeal)).bidAmount = 2 :=
  (dealer_stuck_when_all_pass exampleDeal [0, 0, 0, 0] rfl rfl).1 (by decide)

/-- C23: when the auction closes, `endBiddingPhase` sets `biddingTeam` to the team of the bid
winner's parity (team 0 for seats 0 and 2, team 1 for seats 1 and 3), sets the phase to
`playing`, empties the current trick and the play order, and gives the turn to the bid
winner; the bid winner is the one the auction set, or the dealer when it set none. -/
theorem endBiddingPhase_effect (s : GameState) :
    ∃ w, (endBiddingPhase s).bidWinner = some w ∧
      (s.bidWinner = some w ∨ (s.bidWinner = none ∧ w = s.dealer)) ∧
      (endBiddingPhase s).currentPlayer = w ∧
      (endBiddingPhase s).biddingTeam =
        some (if w.val % 2 = 0 then Team.team0 else Team.team1) ∧
      ((w = 0 ∨ w = 2) → (endBiddingPhase s).biddingTeam = some Team.team0) ∧
      ((w = 1 ∨ w = 3) → (endBiddingPhase s).biddingTeam = some Team.team1) ∧
      (endBiddingPhase s).phase = Phase.playing ∧
      (endBiddingPhase s).currentTrick = (fun _ => none) ∧
      (endBiddingPhase s).playOrder = [] := by
  have hpar : ∀ w : Seat, ((w = 0 ∨ w = 2) → (if w.val % 2 = 0 then Team.team0 else Team.team1) = Team.team0) ∧
      ((w = 1 ∨ w = 3) → (if w.val % 2 = 0 then Team.team0 else Team.team1) = Team.team1) := by
    decide
  cases h : s.bidWinner with
  | none =>
    rw [endBiddingPhase_none s h]
    refine ⟨s.dealer, rfl, Or.inr ⟨rfl, rfl⟩, rfl, rfl, ?_, ?_, rfl, rfl, rfl⟩
    · intro hw
      exact congrArg some ((hpar s.dealer).1 hw)
    · intro hw
      exact congrArg some ((hpar s.dealer).2 hw)
  | some w =>
    rw [endBiddingPhase_some s w h]
    refine ⟨w, h, Or.inl rfl, rfl, rfl, ?_, ?_, rfl, rfl, rfl⟩
    · intro hw
      exact congrArg some ((hpar w).1 hw)
    · intro hw
      exact congrArg some ((hpar w).2 hw)

/-! ## The totals shown with the round results -/

theorem pileFold (cards : List Card) :
    ∀ total : Nat,
      cards.foldl (fun total card => total + gameValue card.rank) total =
        total + pileGameValue cards := by
  induction cards with
  | nil => intro total; simp [pileGameValue]
  | cons c rest ih =>
    intro total
    rw [List.foldl_cons, ih]
    simp only [pileGameValue, List.map_cons, List.sum_cons]
    omega

/-- The totals `calculateTeamGamePoints` reports: the piles of seats 0 and 1 for team 0, the
piles of seats 2 and 3 for team 1. -/
theorem calculateTeamGamePoints_eq (s : GameState) :
    calculateTeamGamePoints 0 s =
      pileGameValue (s.cardsWonInTricks 0) + pileGameValue (s.cardsWonInTricks 1) ∧
    calculateTeamGamePoints 1 s =
      pileGameValue (s.cardsWonInTricks 2) + pileGameValue (s.cardsWonInTricks 3) := by
  unfold calculateTeamGamePoints
  simp only [List.range', List.foldl_cons, List.foldl_nil, pileFold]
  constructor
  · simp
  · simp

set_option maxRecDepth 1000000 in
/-- C29, the code at a reachable state, the example round settled: `calculateSpecialPoints`
compares 22 (seats 0 and 2) with 15 (seats 1 and 3) and gives the game point to team 0, while
`calculateTeamGamePoints` reports 3 for team 0 and 34 for team 1, the sums over seats 0 and 1
and over seats 2 and 3. -/
theorem displayed_totals_differ :
    gamePointTotals exampleRoundEnd = (22, 15) ∧
    exampleRoundEnd.roundResults.game = some GameWinner.team0 ∧
    calculateTeamGamePoints 0 exampleRoundEnd = 3 ∧
    calculateTeamGamePoints 1 exampleRoundEnd = 34 := by
  decide

/-! ## A play on a complete trick -/

/-- C28, the code at a reachable state: seat 0 led the trick, all four slots are filled, the
turn is back with seat 0 and the timer of `endTrick` has not fired, so `isTransitioning` is
still false. `selectCard` lets seat 0 play the 2 of Clubs: the play order gets a fifth
entry, the 8 of Clubs in slot 0 is overwritten, and `playCard` changes the state. -/
theorem play_on_complete_trick :
    humanTrickState.phase = Phase.playing ∧
    humanTrickState.currentPlayer = 0 ∧
    humanTrickState.isTransitioning = false ∧
    humanTrickState.playOrder = [0, 1, 2, 3] ∧
    (∀ j, humanTrickState.currentTrick j ≠ none) ∧
    humanTrickState.currentTrick 0 = some ⟨Rank.r8, Suit.C⟩ ∧
    maskAt (getLegalMoves humanTrickState 0) (cardMap ⟨Rank.r2, Suit.C⟩) = true ∧
    (selectCard ⟨Rank.r2, Suit.C⟩ humanTrickState).playOrder = [0, 1, 2, 3, 0] ∧
    (selectCard ⟨Rank.r2, Suit.C⟩ humanTrickState).currentTrick 0 = some ⟨Rank.r2, Suit.C⟩ ∧
    (selectCard ⟨Rank.r2, Suit.C⟩ humanTrickState).historyOfPlayedCards.length = 5 ∧
    ((selectCard ⟨Rank.r2, Suit.C⟩ humanTrickState).hands 0).length = 4 ∧
    playCard (cardMap ⟨Rank.r2, Suit.C⟩) humanTrickState ≠ humanTrickState := by
  refine ⟨by decide, by decide, by decide, by decide, by decide, by decide, by decide,
    by decide, by decide, by decide, by decide, ?_⟩
  intro h
  have h2 := congrArg GameState.playOrder h
  revert h2
  decide

/-! ## The action of a non-human seat -/

/-- The index `randomLegalAction` returns has a true entry in the mask. -/
theorem randomLegalAction_legal (random : Rat) (legal : List Bool) (i : Nat)
    (h : randomLegalAction random legal = some i) : maskAt legal i = true := by
  unfold randomLegalAction at h
  dsimp only at h
  have hmem := List.getElem?_mem h
  exact (List.mem_filter.mp hmem).2

/-- With a true entry in the mask and a draw in `[0, 1)`, `randomLegalAction` returns an
index. -/
theorem randomLegalAction_returns (random : Rat) (legal : List Bool)
    (h0 : 0 ≤ random) (h1 : random < 1) (hex : ∃ i, maskAt legal i = true) :
    ∃ i, randomLegalAction random legal = some i := by
  unfold randomLegalAction
  dsimp only
  generalize hL : (List.range legal.length).filter (fun i => legal.getD i false) = L
  have hpos : 0 < L.length := by
    obtain ⟨i, hi⟩ := hex
    have hlt : i < legal.length := by
      by_contra hge
      unfold maskAt at hi
      rw [List.getD_eq_getElem?_getD, List.getElem?_eq_none (by omega)] at hi
      cases hi
    have : i ∈ L := by
      rw [← hL]
      exact List.mem_filter.mpr ⟨List.mem_range.mpr hlt, hi⟩
    exact List.length_pos_of_mem this
  have hlen : (0 : Rat) < (L.length : Rat) := by exact_mod_cast hpos
  have hfl : (random * (L.length : Rat)).floor.toNat < L.length := by
    have hnn : 0 ≤ random * (L.length : Rat) := mul_nonneg h0 (le_of_lt hlen)
    have hlt : random * (L.length : Rat) < (L.length : Rat) := by
      calc random * (L.length : Rat) < 1 * (L.length : Rat) :=
            mul_lt_mul_of_pos_right h1 hlen
        _ = (L.length : Rat) := one_mul _
    have hfl0 : 0 ≤ (random * (L.length : Rat)).floor := by
      show 0 ≤ ⌊random * (L.length : Rat)⌋
      exact Int.floor_nonneg.mpr hnn
    have hfl1 : (random * (L.length : Rat)).floor < (L.length : Int) := by
      show ⌊random * (L.length : Rat)⌋ < (L.length : Int)
      rw [Int.floor_lt]
      exact_mod_cast hlt
    omega
  exact ⟨L[(random * (L.length : Rat)).floor.toNat], List.getElem?_eq_getElem hfl⟩

/-- A draw of 0 with an illegal action at index 0: the sampling returns index 0, whatever
the model's output. -/
theorem sampleAction_zero_draw (actionProbs : List Rat) (random : Rat) (legal : List Bool)
    (hr : random ≤ 0) (h0 : maskAt legal 0 = false) :
    sampleAction actionProbs random legal = 0 := by
  unfold sampleAction
  dsimp only
  split_ifs with hsum
  · rfl
  · cases actionProbs with
    | nil => simp [List.enum] at hsum
    | cons p rest =>
      have hm : legal[0]?.getD false = false := by
        simpa [maskAt] using h0
      simp [List.enum, List.enumFrom, hm, sampleLoop, hr]

/-- With no probability on a legal action the masked sum is 0 and the sampling returns
index 0. -/
theorem sampleAction_no_legal_mass (actionProbs : List Rat) (random : Rat) (legal : List Bool)
    (h : ∀ i p, actionProbs[i]? = some p → maskAt legal i = true → p = 0) :
    sampleAction actionProbs random legal = 0 := by
  have hz : ∀ m, m ∈ actionProbs.enum.map
      (fun ip => if legal.getD ip.1 false then ip.2 else 0) → m = 0 := by
    intro m hm
    obtain ⟨ip, hip, rfl⟩ := List.mem_map.mp hm
    rcases ip with ⟨i, a⟩
    obtain ⟨hi, ha⟩ := List.mem_enum hip
    by_cases hl : legal.getD i false = true
    · simp only [hl, if_true]
      exact h i a (by rw [ha]; exact List.getElem?_eq_getElem hi) hl
    · simp only [hl, if_false]
      rfl
  have hsum : (actionProbs.enum.map
      (fun ip => if legal.getD ip.1 false then ip.2 else 0)).foldl (fun a b => a + b) 0 = 0 := by
    rw [← List.sum_eq_foldl]
    exact List.sum_eq_zero hz
  unfold sampleAction
  dsimp only
  rw [if_pos hsum]

/-- C27, the code at a reachable state: seat 1 (not human) is to play in the example round;
its mask has true entries but is false at index 0 (the 2 of Clubs). With a model loaded and
the draw `Math.random()` equal to 0, `getAIPlayAction` returns index 0, whatever the model's
output (here the uniform one): the first comparison `random <= cumulative` is `0 <= 0`. With
a model output that puts no probability on a legal card (here all of it on index 0) the sum
of the masked probabilities is 0 and the fallback `return 0` is taken for every draw (here
1/2). The index 0 is not legal, `playCard(0)` rejects it and the seat makes no play. -/
theorem ai_play_action_illegal_at_zero_draw :
    followState.currentPlayer = 1 ∧
    maskAt (getLegalMoves followState 1) 20 = true ∧
    maskAt (getLegalMoves followState 1) 0 = false ∧
    getAIPlayAction (some (List.replicate 52 (1 / 52))) 0 (getLegalMoves followState 1) =
      some 0 ∧
    getAIPlayAction (some (1 :: List.replicate 51 0)) (1 / 2) (getLegalMoves followState 1) =
      some 0 ∧
    playCard 0 followState = followState := by
  refine ⟨by decide, by decide, by decide, ?_, ?_, ?_⟩
  · show some (sampleAction _ 0 _) = some 0
    rw [sampleAction_zero_draw _ 0 _ (le_refl 0) (by decide)]
  · show some (sampleAction _ _ _) = some 0
    rw [sampleAction_no_legal_mass]
    intro i p hp hl
    cases i with
    | zero =>
      have h0 : maskAt (getLegalMoves followState 1) 0 = false := by decide
      rw [h0] at hl
      cases hl
    | succ i =>
      rw [List.getElem?_cons_succ] at hp
      exact List.eq_of_mem_replicate (List.getElem?_mem hp)
  · apply playCard_not_in_hand
    intro c hc
    have h0 : invCardMap 0 = some ⟨Rank.r2, Suit.C⟩ := by decide
    rw [h0] at hc
    cases hc
    decide

/-! ## Closing a trick -/

/-- `endRound` writes the trump suit, the special points, the round results and the scores,
and nothing else. -/
theorem endRound_frame (s : GameState) :
    ∃ tr sp rr sc, endRound s =
      { s with trumpSuit := tr, specialPoints := sp, roundResults := rr, scores := sc } := by
  obtain ⟨tr, htr⟩ := ensureTrumpSuit_frame s
  obtain ⟨sp, rr, hsp⟩ := calculateSpecialPoints_frame s
  obtain ⟨sc, hsc⟩ := settleRound_frame (calculateSpecialPoints (ensureTrumpSuit s))
  rw [endRound_stages, hsc, htr, calculateSpecialPoints_trump_irrelevant, hsp]
  exact ⟨tr, sp, rr, sc, rfl⟩

/-- The state `endTrick` returns when the trick has the winner `w`. -/
theorem endTrick_some (s : GameState) (w : Seat) (hw : determineTrickWinner s = some w) :
    endTrick s = some (
      if allHandsEmpty s = true then
        endRound { s with
          prevWinner := some w
          prevTrick := seats.map s.currentTrick
          trickWins := upd s.trickWins w (s.trickWins w + 1)
          cardsWonInTricks := upd s.cardsWonInTricks w
            (s.cardsWonInTricks w ++ seats.filterMap s.currentTrick) }
      else
        { s with
          prevWinner := some w
          prevTrick := seats.map s.currentTrick
          trickWins := upd s.trickWins w (s.trickWins w + 1)
          cardsWonInTricks := upd s.cardsWonInTricks w
            (s.cardsWonInTricks w ++ seats.filterMap s.currentTrick)
          isTransitioning := true }) := by
  unfold endTrick
  rw [hw]
  dsimp only
  by_cases he : allHandsEmpty s = true
  · have he2 : (seats.all fun i => decide ((s.hands i).length = 0)) = true := he
    rw [if_pos he2, if_pos he]
  · have he2 : ¬ (seats.all fun i => decide ((s.hands i).length = 0)) = true := he
    rw [if_neg he2, if_neg he]

/-- C26: for every state whose current trick holds four cards (and whose play order is not
empty), `endTrick` adds exactly 1 to `trickWins` of the seat `w` returned by
`determineTrickWinner` and to no other seat, appends exactly the four cards of the trick to
`cardsWonInTricks[w]` and to no other pile, and records `prevWinner = w` and `prevTrick` =
the trick. When all hands are empty the state is settled by `endRound`; otherwise the
transition flag is set and the callback of `endTrick` empties the trick and the play order
and gives the turn to `w`. -/
theorem endTrick_effect (s : GameState) (hfull : ∀ i, s.currentTrick i ≠ none)
    (hne : s.playOrder ≠ []) :
    ∃ w s2 c0 c1 c2 c3, determineTrickWinner s = some w ∧ endTrick s = some s2 ∧
      s.currentTrick 0 = some c0 ∧ s.currentTrick 1 = some c1 ∧
      s.currentTrick 2 = some c2 ∧ s.currentTrick 3 = some c3 ∧
      s2.trickWins w = s.trickWins w + 1 ∧
      (∀ j, j ≠ w → s2.trickWins j = s.trickWins j) ∧
      s2.cardsWonInTricks w = s.cardsWonInTricks w ++ [c0, c1, c2, c3] ∧
      (∀ j, j ≠ w → s2.cardsWonInTricks j = s.cardsWonInTricks j) ∧
      s2.prevWinner = some w ∧
      s2.prevTrick = [some c0, some c1, some c2, some c3] ∧
      (allHandsEmpty s = true → ∃ s1, s2 = endRound s1) ∧
      (allHandsEmpty s = false →
        s2.isTransitioning = true ∧
        (nextTrickCallback w s2).currentTrick = (fun _ => none) ∧
        (nextTrickCallback w s2).playOrder = [] ∧
        (nextTrickCallback w s2).currentPlayer = w ∧
        (nextTrickCallback w s2).isTransitioning = false ∧
        (nextTrickCallback w s2).trickWins = s2.trickWins ∧
        (nextTrickCallback w s2).cardsWonInTricks = s2.cardsWonInTricks) := by
  obtain ⟨p0, rest, horder⟩ : ∃ p0 rest, s.playOrder = p0 :: rest := by
    cases h : s.playOrder with
    | nil => exact absurd h hne
    | cons a l => exact ⟨a, l, rfl⟩
  obtain ⟨cl, hcl⟩ := Option.ne_none_iff_exists'.mp (hfull p0)
  obtain ⟨w, _, hw, _⟩ := determineTrickWinner_spec s p0 rest cl horder hcl
  obtain ⟨c0, h0⟩ := Option.ne_none_iff_exists'.mp (hfull 0)
  obtain ⟨c1, h1⟩ := Option.ne_none_iff_exists'.mp (hfull 1)
  obtain ⟨c2, h2⟩ := Option.ne_none_iff_exists'.mp (hfull 2)
  obtain ⟨c3, h3⟩ := Option.ne_none_iff_exists'.mp (hfull 3)
  have hcards : seats.filterMap s.currentTrick = [c0, c1, c2, c3] := by
    simp [seats, List.filterMap, h0, h1, h2, h3]
  have hprev : seats.map s.currentTrick = [some c0, some c1, some c2, some c3] := by
    simp [seats, h0, h1, h2, h3]
  have hend := endTrick_some s w hw
  rw [hcards, hprev] at hend
  by_cases he : allHandsEmpty s = true
  · rw [if_pos he] at hend
    obtain ⟨tr, sp, rr, sc, hfr⟩ := endRound_frame
      { s with
        prevWinner := some w
        prevTrick := [some c0, some c1, some c2, some c3]
        trickWins := upd s.trickWins w (s.trickWins w + 1)
        cardsWonInTricks := upd s.cardsWonInTricks w (s.cardsWonInTricks w ++ [c0, c1, c2, c3]) }
    refine ⟨w, _, c0, c1, c2, c3, hw, hend, h0, h1, h2, h3, ?_, ?_, ?_, ?_, ?_, ?_,
      fun _ => ⟨_, rfl⟩, fun hf => by rw [he] at hf; cases hf⟩
    · rw [hfr]; show upd s.trickWins w (s.trickWins w + 1) w = _; simp only [upd, if_true]
    · intro j hj; rw [hfr]; show upd s.trickWins w (s.trickWins w + 1) j = _
      simp only [upd, hj, if_false]
    · rw [hfr]; show upd s.cardsWonInTricks w _ w = _; simp only [upd, if_true]
    · intro j hj; rw [hfr]; show upd s.cardsWonInTricks w _ j = _
      simp only [upd, hj, if_false]
    · rw [hfr]
    · rw [hfr]
  · rw [if_neg he] at hend
    refine ⟨w, _, c0, c1, c2, c3, hw, hend, h0, h1, h2, h3, ?_, ?_, ?_, ?_, rfl, rfl,
      fun ht => absurd ht he, fun _ => ⟨rfl, rfl, rfl, rfl, rfl, rfl, rfl⟩⟩
    · show upd s.trickWins w (s.trickWins w + 1) w = _; simp only [upd, if_true]
    · intro j hj; show upd s.trickWins w (s.trickWins w + 1) j = _
      simp only [upd, hj, if_false]
    · show upd s.cardsWonInTricks w _ w = _; simp only [upd, if_true]
    · intro j hj; show upd s.cardsWonInTricks w _ j = _
      simp only [upd, hj, if_false]

/-- C26 on the complete first trick of the example round (the 10 of Hearts of seat 2 wins):
`endTrick` returns a state. -/
theorem endTrick_effect_witness :
    ∃ w s2 c0 c1 c2 c3, determineTrickWinner fullTrickState = some w ∧
      endTrick fullTrickState = some s2 ∧
      fullTrickState.currentTrick 0 = some c0 ∧ fullTrickState.currentTrick 1 = some c1 ∧
      fullTrickState.currentTrick 2 = some c2 ∧ fullTrickState.currentTrick 3 = some c3 ∧
      s2.trickWins w = fullTrickState.trickWins w + 1 :=
  have ⟨w, s2, c0, c1, c2, c3, h1, h2, h3, h4, h5, h6, h7, _⟩ :=
    endTrick_effect fullTrickState (by decide) (by decide)
  ⟨w, s2, c0, c1, c2, c3, h1, h2, h3, h4, h5, h6, h7⟩

/-! ## The deal -/

theorem dealCards_stages (rnd : Nat → Nat) (s : GameState) :
    dealCards rnd s = dealFrom (shuffle rnd allCards) s := rfl

theorem allCards_nodup : allCards.Nodup := by decide

theorem allCards_length : allCards.length = 52 := by decide

theorem set_cons_perm (t : List Card) (j : Nat) (b x : Card) (h : t[j]? = some b) :
    (b :: t.set j x).Perm (x :: t) := by
  induction t generalizing j with
  | nil => simp at h
  | cons y u ih =>
    cases j with
    | zero =>
      simp only [List.getElem?_cons_zero, Option.some.injEq] at h
      subst h
      simp only [List.set_cons_zero]
      exact List.Perm.swap _ _ _
    | succ j =>
      simp only [List.getElem?_cons_succ] at h
      simp only [List.set_cons_succ]
      exact ((List.Perm.swap y b _).trans ((ih j h).cons y)).trans (List.Perm.swap x y _)

theorem swapAt_perm (d : List Card) (i j : Nat) : (swapAt d i j).Perm d := by
  unfold swapAt
  induction d generalizing i j with
  | nil => simp
  | cons x t ih =>
    cases i with
    | zero =>
      cases j with
      | zero => simp
      | succ j =>
        simp only [List.getElem?_cons_zero, List.getElem?_cons_succ]
        cases h : t[j]? with
        | none => simp
        | some b =>
          simp only [List.set_cons_zero, List.set_cons_succ]
          exact set_cons_perm t j b x h
    | succ i =>
      cases j with
      | zero =>
        simp only [List.getElem?_cons_zero, List.getElem?_cons_succ]
        cases h : t[i]? with
        | none => simp
        | some a =>
          simp only [List.set_cons_zero, List.set_cons_succ]
          exact set_cons_perm t i a x h
      | succ j =>
        simp only [List.getElem?_cons_succ]
        have := ih i j
        cases h : t[i]? with
        | none => simp
        | some a =>
          cases h2 : t[j]? with
          | none => simp
          | some b =>
            simp only [h, h2] at this
            simp only [List.set_cons_succ]
            exact this.cons x

theorem shuffle_perm (rnd : Nat → Nat) (deck : List Card) : (shuffle rnd deck).Perm deck := by
  unfold shuffle
  generalize List.range (deck.length - 1) = l
  generalize hn : deck.length = n
  clear hn
  have key : ∀ d0 : List Card, (l.foldl (fun d k => swapAt d (n - 1 - k)
      (rnd (n - 1 - k) % (n - 1 - k + 1))) d0).Perm d0 := by
    induction l with
    | nil => intro d0; exact List.Perm.refl _
    | cons k l ih =>
      intro d0
      simp only [List.foldl_cons]
      exact (ih _).trans (swapAt_perm _ _ _)
  exact key deck

theorem sum_upd {M : Type} [AddCommMonoid M] (g : Seat → M) (j : Seat) (v : M) :
    (∑ x : Seat, (if x = j then v else g x)) + g j = (∑ x : Seat, g x) + v := by
  fin_cases j <;> simp [Fin.sum_univ_four] <;> abel

theorem cardsOf_upd (f : Seat → List Card) (j : Seat) (l : List Card) :
    cardsOf (upd f j l) + (f j : Multiset Card) = cardsOf f + (l : Multiset Card) := by
  have h := sum_upd (fun x => (f x : Multiset Card)) j (l : Multiset Card)
  have e : cardsOf (upd f j l) =
      ∑ x : Seat, (if x = j then (l : Multiset Card) else (f x : Multiset Card)) := by
    unfold cardsOf upd
    apply Finset.sum_congr rfl
    intro x _
    split_ifs <;> rfl
  rw [e]
  exact h

theorem cardsOf_four (f : Seat → List Card) :
    cardsOf f = ((f 0 ++ f 1 ++ f 2 ++ f 3 : List Card) : Multiset Card) := by
  unfold cardsOf
  rw [Fin.sum_univ_four]
  simp only [Multiset.coe_add]

theorem card_cardsOf (f : Seat → List Card) :
    Multiset.card (cardsOf f) = (f 0).length + (f 1).length + (f 2).length + (f 3).length := by
  rw [cardsOf_four]
  simp only [Multiset.coe_card, List.length_append]

theorem dealOne_spec (acc : (Seat → List Card) × List Card) (j : Seat) (hne : acc.2 ≠ []) :
    cardsOf (dealOne acc j).1 + ((dealOne acc j).2 : Multiset Card) =
      cardsOf acc.1 + (acc.2 : Multiset Card) ∧
    (dealOne acc j).2.length + 1 = acc.2.length ∧
    ((dealOne acc j).1 j).length = (acc.1 j).length + 1 ∧
    ∀ x, x ≠ j → (dealOne acc j).1 x = acc.1 x := by
  obtain ⟨c, hc⟩ : ∃ c, acc.2.getLast? = some c := by
    cases h : acc.2.getLast? with
    | none => exact absurd (List.getLast?_eq_none_iff.mp h) hne
    | some c => exact ⟨c, rfl⟩
  have hsplit : acc.2.dropLast ++ [c] = acc.2 := List.dropLast_append_getLast? c hc
  have hd : dealOne acc j = (upd acc.1 j (acc.1 j ++ [c]), acc.2.dropLast) := by
    unfold dealOne
    rw [hc]
  rw [hd]
  refine ⟨?_, ?_, ?_, ?_⟩
  · show cardsOf (upd acc.1 j (acc.1 j ++ [c])) + (acc.2.dropLast : Multiset Card) = _
    have h1 := cardsOf_upd acc.1 j (acc.1 j ++ [c])
    have h2 : ((acc.1 j ++ [c] : List Card) : Multiset Card) = (acc.1 j : Multiset Card) + {c} := by
      rw [← Multiset.coe_add]; rfl
    have h3 : (acc.2 : Multiset Card) = (acc.2.dropLast : Multiset Card) + {c} := by
      conv_lhs => rw [← hsplit]
      rw [← Multiset.coe_add]; rfl
    rw [h2] at h1
    rw [h3]
    have h4 : cardsOf (upd acc.1 j (acc.1 j ++ [c])) + (acc.1 j : Multiset Card) =
        (cardsOf acc.1 + {c}) + (acc.1 j : Multiset Card) := by
      rw [h1]; abel
    have h5 := add_right_cancel h4
    rw [h5]; abel
  · show acc.2.dropLast.length + 1 = acc.2.length
    conv_rhs => rw [← hsplit]
    simp
  · show (upd acc.1 j (acc.1 j ++ [c]) j).length = _
    simp [upd]
  · intro x hx
    show upd acc.1 j (acc.1 j ++ [c]) x = _
    simp [upd, hx]

theorem dealRound_spec (acc : (Seat → List Card) × List Card) (h4 : 4 ≤ acc.2.length) :
    cardsOf (seats.foldl dealOne acc).1 + ((seats.foldl dealOne acc).2 : Multiset Card) =
      cardsOf acc.1 + (acc.2 : Multiset Card) ∧
    (seats.foldl dealOne acc).2.length + 4 = acc.2.length ∧
    ∀ j, ((seats.foldl dealOne acc).1 j).length = (acc.1 j).length + 1 := by
  have e : seats.foldl dealOne acc = dealOne (dealOne (dealOne (dealOne acc 0) 1) 2) 3 := rfl
  rw [e]
  have hne : ∀ a : (Seat → List Card) × List Card, 0 < a.2.length → a.2 ≠ [] := by
    intro a h h0; rw [h0] at h; exact Nat.lt_irrefl _ h
  obtain ⟨t1, l1, k1, f1⟩ := dealOne_spec acc 0 (hne _ (by omega))
  obtain ⟨t2, l2, k2, f2⟩ := dealOne_spec (dealOne acc 0) 1 (hne _ (by omega))
  obtain ⟨t3, l3, k3, f3⟩ := dealOne_spec (dealOne (dealOne acc 0) 1) 2 (hne _ (by omega))
  obtain ⟨t4, l4, k4, f4⟩ :=
    dealOne_spec (dealOne (dealOne (dealOne acc 0) 1) 2) 3 (hne _ (by omega))
  refine ⟨by rw [t4, t3, t2, t1], by omega, ?_⟩
  intro j
  fin_cases j
  · show ((dealOne (dealOne (dealOne (dealOne acc 0) 1) 2) 3).1 0).length = (acc.1 0).length + 1
    rw [f4 0 (by decide), f3 0 (by decide), f2 0 (by decide), k1]
  · show ((dealOne (dealOne (dealOne (dealOne acc 0) 1) 2) 3).1 1).length = (acc.1 1).length + 1
    rw [f4 1 (by decide), f3 1 (by decide), k2, f1 1 (by decide)]
  · show ((dealOne (dealOne (dealOne (dealOne acc 0) 1) 2) 3).1 2).length = (acc.1 2).length + 1
    rw [f4 2 (by decide), k3, f2 2 (by decide), f1 2 (by decide)]
  · show ((dealOne (dealOne (dealOne (dealOne acc 0) 1) 2) 3).1 3).length = (acc.1 3).length + 1
    rw [k4, f3 3 (by decide), f2 3 (by decide), f1 3 (by decide)]

theorem dealRounds_spec (l : List Nat) (acc : (Seat → List Card) × List Card)
    (h : 4 * l.length ≤ acc.2.length) :
    cardsOf (l.foldl (fun a _ => seats.foldl dealOne a) acc).1 +
        ((l.foldl (fun a _ => seats.foldl dealOne a) acc).2 : Multiset Card) =
      cardsOf acc.1 + (acc.2 : Multiset Card) ∧
    (l.foldl (fun a _ => seats.foldl dealOne a) acc).2.length + 4 * l.length = acc.2.length ∧
    ∀ j, ((l.foldl (fun a _ => seats.foldl dealOne a) acc).1 j).length =
      (acc.1 j).length + l.length := by
  induction l generalizing acc with
  | nil => exact ⟨rfl, rfl, fun _ => rfl⟩
  | cons k l ih =>
    simp only [List.foldl_cons, List.length_cons] at h ⊢
    obtain ⟨t1, l1, k1⟩ := dealRound_spec acc (by omega)
    obtain ⟨t2, l2, k2⟩ := ih (seats.foldl dealOne acc) (by omega)
    refine ⟨by rw [t2, t1], by omega, ?_⟩
    intro j
    rw [k2 j, k1 j]
    omega

theorem cardsOf_empty (f : Seat → List Card) (h : ∀ j, f j = []) : cardsOf f = 0 := by
  rw [cardsOf_four, h 0, h 1, h 2, h 3]
  rfl

/-- The deal from any arrangement of the 52 cards into four empty hands. -/
theorem dealFrom_spec (deck : List Card) (s : GameState) (hperm : deck.Perm allCards)
    (hempty : ∀ j, s.hands j = []) :
    (∀ j, ((dealFrom deck s).hands j).length = 6) ∧
    ((dealFrom deck s).hands 0 ++ (dealFrom deck s).hands 1 ++ (dealFrom deck s).hands 2 ++
      (dealFrom deck s).hands 3).Nodup ∧
    (∀ c, c ∈ (dealFrom deck s).hands 0 ++ (dealFrom deck s).hands 1 ++
      (dealFrom deck s).hands 2 ++ (dealFrom deck s).hands 3 → c ∈ deck) ∧
    (dealFrom deck s).trumpSuit = none := by
  have hlen : deck.length = 52 := by rw [hperm.length_eq]; exact allCards_length
  obtain ⟨t, _, k⟩ := dealRounds_spec (List.range 6) (s.hands, deck)
    (by simp only [List.length_range]; show 24 ≤ deck.length; omega)
  generalize hd : (List.range 6).foldl (fun a _ => seats.foldl dealOne a) (s.hands, deck) = dealt
    at t k
  have hh : (dealFrom deck s).hands =
      upd dealt.1 0 ((dealt.1 0).mergeSort (fun a b => decide (handCompare a b ≤ 0))) := by
    unfold dealFrom sortPlayerHand
    rw [hd]
  rw [cardsOf_empty s.hands hempty, zero_add] at t
  have hsort : (((dealt.1 0).mergeSort (fun a b => decide (handCompare a b ≤ 0)) : List Card) :
      Multiset Card) = (dealt.1 0 : Multiset Card) :=
    Multiset.coe_eq_coe.mpr (List.mergeSort_perm _ _)
  have hc : cardsOf (dealFrom deck s).hands = cardsOf dealt.1 := by
    have h1 := cardsOf_upd dealt.1 0
      ((dealt.1 0).mergeSort (fun a b => decide (handCompare a b ≤ 0)))
    rw [hsort] at h1
    rw [hh]
    exact add_right_cancel h1
  have hle : cardsOf (dealFrom deck s).hands ≤ (deck : Multiset Card) := by
    rw [hc, ← t]
    exact Multiset.le_add_right _ _
  have hnd : (deck : Multiset Card).Nodup :=
    Multiset.coe_nodup.mpr (hperm.nodup_iff.mpr allCards_nodup)
  have hl : ∀ j, ((dealFrom deck s).hands j).length = 6 := by
    intro j
    rw [hh]
    by_cases hj : j = 0
    · subst hj
      simp only [upd, if_true, List.length_mergeSort]
      rw [k 0]
      show (s.hands 0).length + (List.range 6).length = 6
      rw [hempty 0]; rfl
    · simp only [upd, hj, if_false]
      rw [k j]
      show (s.hands j).length + (List.range 6).length = 6
      rw [hempty j]; rfl
  refine ⟨hl, ?_, ?_, rfl⟩
  · have := Multiset.nodup_of_le hle hnd
    rw [cardsOf_four] at this
    exact Multiset.coe_nodup.mp this
  · intro c hc2
    have hm : c ∈ cardsOf (dealFrom deck s).hands := by
      rw [cardsOf_four]; exact Multiset.mem_coe.mpr hc2
    exact Multiset.mem_coe.mp (Multiset.mem_of_le hle hm)

/-- C24: for every arrangement of the 52-card deck (every permutation `deck` of `allCards`,
and so for the deck the shuffle loop produces from any random draws `rnd`), `dealCards`
called with four empty hands gives each of the four seats exactly 6 cards, the 24 dealt
cards are pairwise distinct (no card in two hands or twice in one hand) and are cards of the
52-card deck, which has 52 distinct cards, and `trumpSuit` is `null` afterwards. -/
theorem dealCards_spec (s : GameState) (hempty : ∀ j, s.hands j = []) :
    allCards.length = 52 ∧ allCards.Nodup ∧
    (∀ rnd, dealCards rnd s = dealFrom (shuffle rnd allCards) s ∧
      (shuffle rnd allCards).Perm allCards) ∧
    (∀ deck : List Card, deck.Perm allCards →
      (∀ j, ((dealFrom deck s).hands j).length = 6) ∧
      ((dealFrom deck s).hands 0 ++ (dealFrom deck s).hands 1 ++ (dealFrom deck s).hands 2 ++
        (dealFrom deck s).hands 3).Nodup ∧
      (∀ c, c ∈ (dealFrom deck s).hands 0 ++ (dealFrom deck s).hands 1 ++
        (dealFrom deck s).hands 2 ++ (dealFrom deck s).hands 3 → c ∈ allCards) ∧
      (dealFrom deck s).trumpSuit = none) ∧
    (∀ rnd,
      (∀ j, ((dealCards rnd s).hands j).length = 6) ∧
      ((dealCards rnd s).hands 0 ++ (dealCards rnd s).hands 1 ++ (dealCards rnd s).hands 2 ++
        (dealCards rnd s).hands 3).Nodup ∧
      (∀ c, c ∈ (dealCards rnd s).hands 0 ++ (dealCards rnd s).hands 1 ++
        (dealCards rnd s).hands 2 ++ (dealCards rnd s).hands 3 → c ∈ allCards) ∧
      (dealCards rnd s).trumpSuit = none) := by
  refine ⟨allCards_length, allCards_nodup, fun rnd => ⟨rfl, shuffle_perm rnd allCards⟩, ?_, ?_⟩
  · intro deck hperm
    obtain ⟨h1, h2, h3, h4⟩ := dealFrom_spec deck s hperm hempty
    exact ⟨h1, h2, fun c hc => hperm.subset (h3 c hc), h4⟩
  · intro rnd
    rw [dealCards_stages]
    obtain ⟨h1, h2, h3, h4⟩ :=
      dealFrom_spec (shuffle rnd allCards) s (shuffle_perm rnd allCards) hempty
    exact ⟨h1, h2, fun c hc => (shuffle_perm rnd allCards).subset (h3 c hc), h4⟩

/-- C24 at the state `newGame` deals from (four empty hands), with all draws 0: each seat
gets 6 cards and the trump suit is `null`. -/
theorem dealCards_spec_witness :
    (∀ j, (freshState Phase.bidding 0).hands j = []) ∧
    (∀ j, ((dealCards (fun _ => 0) (freshState Phase.bidding 0)).hands j).length = 6) ∧
    (dealCards (fun _ => 0) (freshState Phase.bidding 0)).trumpSuit = none :=
  ⟨fun _ => rfl,
    ((dealCards_spec (freshState Phase.bidding 0) (fun _ => rfl)).2.2.2.2 (fun _ => 0)).1,
    ((dealCards_spec (freshState Phase.bidding 0) (fun _ => rfl)).2.2.2.2 (fun _ => 0)).2.2.2⟩

/-! ## The start of the play -/

theorem processBid_cards (bidIndex : Nat) (s : GameState) :
    (processBid bidIndex s).hands = s.hands ∧
    (processBid bidIndex s).cardsWonInTricks = s.cardsWonInTricks ∧
    (processBid bidIndex s).trickWins = s.trickWins := by
  unfold processBid
  dsimp only
  split
  · split <;> exact ⟨rfl, rfl, rfl⟩
  · exact ⟨rfl, rfl, rfl⟩

theorem processBids_cards (bids : List Nat) :
    ∀ s : GameState,
      (bids.foldl (fun st bidIndex => processBid bidIndex st) s).hands = s.hands ∧
      (bids.foldl (fun st bidIndex => processBid bidIndex st) s).cardsWonInTricks =
        s.cardsWonInTricks ∧
      (bids.foldl (fun st bidIndex => processBid bidIndex st) s).trickWins = s.trickWins := by
  induction bids with
  | nil => intro s; exact ⟨rfl, rfl, rfl⟩
  | cons b rest ih =>
    intro s
    obtain ⟨h1, h2, h3⟩ := ih (processBid b s)
    obtain ⟨g1, g2, g3⟩ := processBid_cards b s
    rw [List.foldl_cons, h1, h2, h3, g1, g2, g3]
    exact ⟨rfl, rfl, rfl⟩

theorem endBiddingPhase_cards (s : GameState) :
    (endBiddingPhase s).hands = s.hands ∧
    (endBiddingPhase s).cardsWonInTricks = s.cardsWonInTricks ∧
    (endBiddingPhase s).trickWins = s.trickWins ∧
    (endBiddingPhase s).currentTrick = (fun _ => none) ∧
    (endBiddingPhase s).playOrder = [] := by
  unfold endBiddingPhase
  cases s.bidWinner <;> exact ⟨rfl, rfl, rfl, rfl, rfl⟩

/-- The play of a round starts from a fresh round: after `dealCards` into four empty hands
with nothing played or won, `startBiddingPhase`, any bids and `endBiddingPhase`. -/
theorem freshRound_of_deal (rnd : Nat → Nat) (bids : List Nat) (s : GameState)
    (hh : ∀ j, s.hands j = []) (hhist : s.historyOfPlayedCards = [])
    (hp : ∀ j, s.cardsWonInTricks j = []) (hw : ∀ j, s.trickWins j = 0) :
    FreshRound (endBiddingPhase (bids.foldl (fun st bidIndex => processBid bidIndex st)
      (startBiddingPhase (dealCards rnd s)))) := by
  obtain ⟨e1, e2, e3, e4, e5⟩ := endBiddingPhase_cards
    (bids.foldl (fun st bidIndex => processBid bidIndex st) (startBiddingPhase (dealCards rnd s)))
  obtain ⟨f1, f2, f3⟩ := processBids_cards bids (startBiddingPhase (dealCards rnd s))
  obtain ⟨d1, d2, _, _⟩ :=
    dealFrom_spec (shuffle rnd allCards) s (shuffle_perm rnd allCards) hh
  have hhands : (endBiddingPhase (bids.foldl (fun st bidIndex => processBid bidIndex st)
      (startBiddingPhase (dealCards rnd s)))).hands = (dealFrom (shuffle rnd allCards) s).hands := by
    rw [e1, f1]; rfl
  refine ⟨?_, ?_, ?_, e5, ?_, ?_, ?_⟩
  · rw [hhands]; exact d2
  · rw [hhands]; exact d1
  · intro j; rw [e4]
  · rw [endBiddingPhase_history, processBids_history]; exact hhist
  · intro j; rw [e2, f2]; exact hp j
  · intro j; rw [e3, f3]; exact hw j

/-- The first round of a game starts its play from a fresh round. -/
theorem freshRound_newGame (dealer : Seat) (rnd : Nat → Nat) (bids : List Nat) :
    FreshRound (endBiddingPhase (bids.foldl (fun st bidIndex => processBid bidIndex st)
      (newGame dealer rnd))) :=
  freshRound_of_deal rnd bids (freshState Phase.bidding dealer) (fun _ => rfl) rfl
    (fun _ => rfl) (fun _ => rfl)

/-- Every later round starts its play from a fresh round. -/
theorem freshRound_dealNewHand (rnd : Nat → Nat) (bids : List Nat) (s : GameState) :
    FreshRound (endBiddingPhase (bids.foldl (fun st bidIndex => processBid bidIndex st)
      (dealNewHand rnd s))) :=
  freshRound_of_deal rnd bids _ (fun _ => rfl) rfl (fun _ => rfl) (fun _ => rfl)

/-! ## A round played in turn order -/

theorem trickCount_eq_four (s : GameState) :
    trickCount s = 4 ↔ ∀ j, s.currentTrick j ≠ none := by
  unfold trickCount
  constructor
  · intro h j
    have e : seats.filter (fun i => (s.currentTrick i).isSome) = seats := by
      apply List.Sublist.eq_of_length (List.filter_sublist _)
      rw [h]; rfl
    have hj := mem_seats j
    rw [← e] at hj
    have hs := (List.mem_filter.mp hj).2
    intro hn
    rw [hn] at hs
    cases hs
  · intro h
    have e : seats.filter (fun i => (s.currentTrick i).isSome) = seats := by
      apply List.filter_eq_self.mpr
      intro j _
      cases hj : s.currentTrick j with
      | none => exact absurd hj (h j)
      | some c => rfl
    rw [e]; rfl

theorem nextSeat_seatAfter (p : Seat) (m : Nat) :
    nextSeat (seatAfter p m) = seatAfter p (m + 1) := by
  apply Fin.ext
  simp only [nextSeat, seatAfter]
  omega

theorem seatAfter_zero (p : Seat) : seatAfter p 0 = p := by
  apply Fin.ext
  simp only [seatAfter, Nat.add_zero]
  exact Nat.mod_eq_of_lt p.isLt

theorem seatAfter_not_mem (p : Seat) (m : Nat) (hm : m < 4) :
    seatAfter p m ∉ (List.range m).map (seatAfter p) := by
  interval_cases m <;> revert p <;> decide

theorem all_seats_mem_iff (p : Seat) (m : Nat) (hm : m ≤ 4) :
    (∀ j, j ∈ (List.range m).map (seatAfter p)) ↔ m = 4 := by
  interval_cases m <;> revert p <;> decide

theorem coe_le_cardsOf (f : Seat → List Card) (j : Seat) :
    (f j : Multiset Card) ≤ cardsOf f := by
  have h := cardsOf_upd f j []
  have h2 : cardsOf (upd f j []) + (f j : Multiset Card) = cardsOf f := by
    rw [h]; exact add_zero _
  rw [← h2]
  exact Multiset.le_add_left _ _

theorem trickCards_upd (s : GameState) (j : Seat) (c : Card) (h : s.currentTrick j = none)
    (tr : Seat → Option Card) (htr : tr = upd s.currentTrick j (some c)) :
    (∑ x : Seat, ((tr x).toList : Multiset Card)) = trickCards s + {c} := by
  have h1 := sum_upd (fun x => ((s.currentTrick x).toList : Multiset Card)) j {c}
  have e : (∑ x : Seat, ((tr x).toList : Multiset Card)) =
      ∑ x : Seat, (if x = j then ({c} : Multiset Card)
        else ((s.currentTrick x).toList : Multiset Card)) := by
    apply Finset.sum_congr rfl
    intro x _
    rw [htr]
    unfold upd
    split_ifs <;> rfl
  rw [e]
  simp only [h, Option.toList, Multiset.coe_nil, add_zero] at h1
  exact h1

theorem filterMap_trick (f : Seat → Option Card) :
    ((seats.filterMap f : List Card) : Multiset Card) =
      ∑ x : Seat, ((f x).toList : Multiset Card) := by
  rw [Fin.sum_univ_four]
  simp only [Multiset.coe_add]
  apply congrArg
  cases h0 : f 0 <;> cases h1 : f 1 <;> cases h2 : f 2 <;> cases h3 : f 3 <;>
    simp [seats, List.filterMap, h0, h1, h2, h3, Option.toList]

theorem freshRound_inv (s : GameState) (h : FreshRound s) :
    (cardsOf s.hands).Nodup ∧ Multiset.card (cardsOf s.hands) = 24 ∧
    TrickInv (cardsOf s.hands) s 0 0 := by
  have ht : trickCards s = 0 := by
    unfold trickCards
    apply Finset.sum_eq_zero
    intro j _
    rw [h.trickEmpty j]; rfl
  have hp : cardsOf s.cardsWonInTricks = 0 := cardsOf_empty _ h.pilesEmpty
  refine ⟨?_, ?_, ?_⟩
  · rw [cardsOf_four]; exact Multiset.coe_nodup.mpr h.handsNodup
  · rw [card_cardsOf, h.handsSix 0, h.handsSix 1, h.handsSix 2, h.handsSix 3]
  · refine ⟨by decide, ⟨s.currentPlayer, ?_, (seatAfter_zero _).symm⟩, ?_, ?_, ?_, ?_, ?_⟩
    · rw [h.orderEmpty]; rfl
    · intro j
      rw [h.orderEmpty]
      simp [h.trickEmpty j]
    · intro j
      rw [h.orderEmpty, h.handsSix j]
      simp
    · apply Finset.sum_eq_zero
      intro j _
      exact h.winsZero j
    · rw [ht, hp, add_zero, add_zero]
    · rw [ht, hp, h.historyEmpty]; rfl

theorem playCard_inv (dealt : Multiset Card) (hnd : dealt.Nodup) (s : GameState) (k m : Nat)
    (hinv : TrickInv dealt s k m) (hm : m < 4) (c : Card)
    (hc : c ∈ s.hands s.currentPlayer) :
    TrickInv dealt (playCard (cardMap c) s) k (m + 1) := by
  obtain ⟨tr, sp, rr, hplay⟩ := playCard_accepted s (cardMap c) c (invCardMap_cardMap c) hc
  rw [hplay]
  obtain ⟨p, hp, hcp⟩ := hinv.order
  have hnot : s.currentPlayer ∉ s.playOrder := by
    rw [hp, hcp]; exact seatAfter_not_mem p m hm
  have hslot : s.currentTrick s.currentPlayer = none := by
    by_contra h
    exact hnot ((hinv.filled _).mp h)
  have hhandle : (s.hands s.currentPlayer : Multiset Card) ≤ dealt := by
    rw [← hinv.cards]
    exact le_trans (coe_le_cardsOf s.hands s.currentPlayer)
      (le_trans (Multiset.le_add_right _ _) (Multiset.le_add_right _ _))
  have hhand : (s.hands s.currentPlayer).Nodup :=
    Multiset.coe_nodup.mp (Multiset.nodup_of_le hhandle hnd)
  have hfilter : (s.hands s.currentPlayer).filter (fun d => decide (d ≠ c)) =
      (s.hands s.currentPlayer).erase c := by
    have hfun : (fun d : Card => decide (d ≠ c)) = (fun d => d != c) := by
      funext d
      by_cases hd : d = c <;> simp [hd]
    rw [hfun]
    exact (List.Nodup.erase_eq_filter hhand c).symm
  rw [hfilter]
  have herase : (((s.hands s.currentPlayer).erase c : List Card) : Multiset Card) + {c} =
      (s.hands s.currentPlayer : Multiset Card) := by
    have := (List.perm_cons_erase hc)
    rw [← Multiset.coe_eq_coe] at this
    rw [this, ← Multiset.cons_coe, ← Multiset.singleton_add, add_comm]
  have hhands : cardsOf (upd s.hands s.currentPlayer ((s.hands s.currentPlayer).erase c)) + {c} =
      cardsOf s.hands := by
    have h1 := cardsOf_upd s.hands s.currentPlayer ((s.hands s.currentPlayer).erase c)
    rw [← herase] at h1
    have h2 : (cardsOf (upd s.hands s.currentPlayer ((s.hands s.currentPlayer).erase c)) + {c}) +
        (((s.hands s.currentPlayer).erase c : List Card) : Multiset Card) =
        cardsOf s.hands + (((s.hands s.currentPlayer).erase c : List Card) : Multiset Card) := by
      rw [← h1]; abel
    exact add_right_cancel h2
  have htrick := trickCards_upd s s.currentPlayer c hslot _ rfl
  refine ⟨hinv.tricks, ⟨p, ?_, ?_⟩, ?_, ?_, hinv.wins, ?_, ?_⟩
  · show s.playOrder ++ [s.currentPlayer] = _
    rw [List.range_succ, List.map_append, hp, hcp]; rfl
  · show nextSeat s.currentPlayer = _
    rw [hcp]; exact nextSeat_seatAfter p m
  · intro j
    show upd s.currentTrick s.currentPlayer (some c) j ≠ none ↔ j ∈ s.playOrder ++ [s.currentPlayer]
    by_cases hj : j = s.currentPlayer
    · simp [upd, hj]
    · simp only [upd, hj, if_false, List.mem_append, List.mem_singleton, or_false]
      exact hinv.filled j
  · intro j
    show (upd s.hands s.currentPlayer ((s.hands s.currentPlayer).erase c) j).length + k +
      (if j ∈ s.playOrder ++ [s.currentPlayer] then 1 else 0) = 6
    have hl := hinv.handLength j
    by_cases hj : j = s.currentPlayer
    · subst hj
      have hlen := List.length_erase_of_mem hc
      have hpos : 0 < (s.hands s.currentPlayer).length := List.length_pos_of_mem hc
      simp only [hnot, if_false] at hl
      simp only [upd, if_true, List.mem_append, List.mem_singleton, or_true, hlen]
      omega
    · simp only [upd, hj, if_false, List.mem_append, List.mem_singleton, or_false]
      exact hl
  · show cardsOf (upd s.hands s.currentPlayer ((s.hands s.currentPlayer).erase c)) +
      (∑ x : Seat, ((upd s.currentTrick s.currentPlayer (some c) x).toList : Multiset Card)) +
      cardsOf s.cardsWonInTricks = dealt
    rw [htrick, ← hinv.cards, ← hhands]
    abel
  · show ((s.historyOfPlayedCards ++ [c] : List Card) : Multiset Card) =
      (∑ x : Seat, ((upd s.currentTrick s.currentPlayer (some c) x).toList : Multiset Card)) +
      cardsOf s.cardsWonInTricks
    rw [htrick, ← Multiset.coe_add, hinv.history]
    show trickCards s + cardsOf s.cardsWonInTricks + {c} = _
    abel

theorem winner_exists (s : GameState) (hfull : ∀ i, s.currentTrick i ≠ none)
    (hne : s.playOrder ≠ []) : ∃ w, determineTrickWinner s = some w := by
  obtain ⟨p0, rest, horder⟩ : ∃ p0 rest, s.playOrder = p0 :: rest := by
    cases h : s.playOrder with
    | nil => exact absurd h hne
    | cons a l => exact ⟨a, l, rfl⟩
  obtain ⟨cl, hcl⟩ := Option.ne_none_iff_exists'.mp (hfull p0)
  obtain ⟨w, _, hw, _⟩ := determineTrickWinner_spec s p0 rest cl horder hcl
  exact ⟨w, hw⟩

theorem sum_wins_upd (g : Seat → Nat) (w : Seat) :
    ∑ j : Seat, upd g w (g w + 1) j = (∑ j : Seat, g j) + 1 := by
  have h := sum_upd g w (g w + 1)
  have e : ∑ j : Seat, upd g w (g w + 1) j = ∑ x : Seat, (if x = w then g w + 1 else g x) := rfl
  rw [e]
  omega

theorem cardsOf_pile (piles : Seat → List Card) (w : Seat) (won : List Card) :
    cardsOf (upd piles w (piles w ++ won)) = cardsOf piles + (won : Multiset Card) := by
  have h := cardsOf_upd piles w (piles w ++ won)
  rw [← Multiset.coe_add] at h
  have h2 : cardsOf (upd piles w (piles w ++ won)) + (piles w : Multiset Card) =
      (cardsOf piles + (won : Multiset Card)) + (piles w : Multiset Card) := by
    rw [h]; abel
  exact add_right_cancel h2

/-- The timers after the fourth card of a trick. -/
theorem endTrick_inv (dealt : Multiset Card) (s1 : GameState) (k : Nat)
    (hinv : TrickInv dealt s1 k 4) :
    ∃ w s2, determineTrickWinner s1 = some w ∧ endTrick s1 = some s2 ∧
      (k < 5 → allHandsEmpty s1 = false ∧ TrickInv dealt (nextTrickCallback w s2) (k + 1) 0) ∧
      (k = 5 → allHandsEmpty s1 = true ∧ (∀ j, s2.hands j = []) ∧
        ∑ j : Seat, s2.trickWins j = 6 ∧ cardsOf s2.cardsWonInTricks = dealt ∧
        ∃ x, s2 = endRound x) := by
  obtain ⟨p, hp, hcp⟩ := hinv.order
  have hall : ∀ j, j ∈ s1.playOrder := by
    rw [hp]; exact (all_seats_mem_iff p 4 (le_refl 4)).mpr rfl
  have hfull : ∀ j, s1.currentTrick j ≠ none := fun j => (hinv.filled j).mpr (hall j)
  have hne : s1.playOrder ≠ [] := List.ne_nil_of_mem (hall 0)
  obtain ⟨w, hw⟩ := winner_exists s1 hfull hne
  have hend := endTrick_some s1 w hw
  have hlen : ∀ j, (s1.hands j).length + k + 1 = 6 := by
    intro j
    have h := hinv.handLength j
    simp only [hall j, if_true] at h
    exact h
  have hk := hinv.tricks
  have hwon : ((seats.filterMap s1.currentTrick : List Card) : Multiset Card) = trickCards s1 :=
    filterMap_trick s1.currentTrick
  by_cases h5 : k = 5
  · have hempty : allHandsEmpty s1 = true := by
      rw [allHandsEmpty, List.all_eq_true]
      intro j _
      exact decide_eq_true (by have := hlen j; omega)
    rw [if_pos hempty] at hend
    obtain ⟨tr, sp, rr, sc, hfr⟩ := endRound_frame
      { s1 with
        prevWinner := some w
        prevTrick := seats.map s1.currentTrick
        trickWins := upd s1.trickWins w (s1.trickWins w + 1)
        cardsWonInTricks := upd s1.cardsWonInTricks w
          (s1.cardsWonInTricks w ++ seats.filterMap s1.currentTrick) }
    refine ⟨w, _, hw, hend, fun hlt => by omega, fun _ => ⟨hempty, ?_, ?_, ?_, ⟨_, rfl⟩⟩⟩
    · intro j
      rw [hfr]
      show s1.hands j = []
      exact List.length_eq_zero.mp (by have := hlen j; omega)
    · rw [hfr]
      show ∑ j : Seat, upd s1.trickWins w (s1.trickWins w + 1) j = 6
      rw [sum_wins_upd, hinv.wins]
      omega
    · rw [hfr]
      show cardsOf (upd s1.cardsWonInTricks w
        (s1.cardsWonInTricks w ++ seats.filterMap s1.currentTrick)) = dealt
      rw [cardsOf_pile, hwon, ← hinv.cards]
      have he : cardsOf s1.hands = 0 := by
        apply cardsOf_empty
        intro j
        exact List.length_eq_zero.mp (by have := hlen j; omega)
      rw [he, zero_add, add_comm]
  · have hempty : allHandsEmpty s1 = false := by
      rw [Bool.eq_false_iff, Ne, allHandsEmpty, List.all_eq_true]
      intro h
      have h0 := of_decide_eq_true (h 0 (mem_seats 0))
      have := hlen 0
      omega
    have hne2 : ¬ allHandsEmpty s1 = true := by rw [hempty]; exact Bool.false_ne_true
    rw [if_neg hne2] at hend
    refine ⟨w, _, hw, hend, fun _ => ⟨hempty, ?_⟩, fun h => absurd h h5⟩
    refine ⟨by omega, ⟨w, rfl, (seatAfter_zero w).symm⟩, ?_, ?_, ?_, ?_, ?_⟩
    · intro j
      show (none : Option Card) ≠ none ↔ j ∈ ([] : List Seat)
      simp
    · intro j
      show (s1.hands j).length + (k + 1) + (if j ∈ ([] : List Seat) then 1 else 0) = 6
      have := hlen j
      simp only [List.not_mem_nil, if_false]
      omega
    · show ∑ j : Seat, upd s1.trickWins w (s1.trickWins w + 1) j = k + 1
      rw [sum_wins_upd, hinv.wins]
    · show cardsOf s1.hands + (∑ j : Seat, (((none : Option Card)).toList : Multiset Card)) +
        cardsOf (upd s1.cardsWonInTricks w
          (s1.cardsWonInTricks w ++ seats.filterMap s1.currentTrick)) = dealt
      rw [cardsOf_pile, hwon, ← hinv.cards]
      simp only [Option.toList, Multiset.coe_nil, Finset.sum_const_zero, add_zero]
      abel
    · show (s1.historyOfPlayedCards : Multiset Card) =
        (∑ j : Seat, (((none : Option Card)).toList : Multiset Card)) +
        cardsOf (upd s1.cardsWonInTricks w
          (s1.cardsWonInTricks w ++ seats.filterMap s1.currentTrick))
      rw [cardsOf_pile, hwon, hinv.history]
      simp only [Option.toList, Multiset.coe_nil, Finset.sum_const_zero, zero_add]
      abel

/-- One turn: a card that is not in the hand of the seat to play is not accepted; a card of
the hand is, and the turn returns a state. -/
theorem playTurn_inv (dealt : Multiset Card) (hnd : dealt.Nodup) (s : GameState) (k m : Nat)
    (hinv : TrickInv dealt s k m) (hm : m < 4) (c : Card) :
    (c ∉ s.hands s.currentPlayer → playTurn c s = none) ∧
    (c ∈ s.hands s.currentPlayer → ∃ s2, playTurn c s = some s2 ∧
      ((m < 3 ∧ TrickInv dealt s2 k (m + 1)) ∨
       (m = 3 ∧ k < 5 ∧ TrickInv dealt s2 (k + 1) 0) ∨
       (m = 3 ∧ k = 5 ∧ (∀ j, s2.hands j = []) ∧ ∑ j : Seat, s2.trickWins j = 6 ∧
          cardsOf s2.cardsWonInTricks = dealt ∧ ∃ x, s2 = endRound x))) := by
  constructor
  · intro hc
    unfold playTurn
    rw [if_neg hc]
  · intro hc
    have h1 := playCard_inv dealt hnd s k m hinv hm c hc
    obtain ⟨p, hp, _⟩ := h1.order
    have hcount : trickCount (playCard (cardMap c) s) = 4 ↔ m + 1 = 4 := by
      rw [trickCount_eq_four, ← all_seats_mem_iff p (m + 1) (by omega), ← hp]
      constructor
      · intro h j; exact (h1.filled j).mp (h j)
      · intro h j; exact (h1.filled j).mpr (h j)
    by_cases h3 : m = 3
    · subst h3
      obtain ⟨w, s2, hw, hend, hlt, heq⟩ := endTrick_inv dealt _ k h1
      have hc4 : trickCount (playCard (cardMap c) s) = 4 := hcount.mpr rfl
      by_cases h5 : k = 5
      · obtain ⟨hempty, r1, r2, r3, r4⟩ := heq h5
        refine ⟨s2, ?_, Or.inr (Or.inr ⟨rfl, h5, r1, r2, r3, r4⟩)⟩
        unfold playTurn
        rw [if_pos hc]
        simp only [hc4, if_true, hw, hend, hempty]
      · have hk := hinv.tricks
        obtain ⟨hempty, r⟩ := hlt (by omega)
        refine ⟨nextTrickCallback w s2, ?_, Or.inr (Or.inl ⟨rfl, by omega, r⟩)⟩
        unfold playTurn
        rw [if_pos hc]
        simp only [hc4, if_true, hw, hend, hempty, Bool.false_eq_true, if_false]
    · have hc4 : ¬ trickCount (playCard (cardMap c) s) = 4 := by
        rw [hcount]; omega
      refine ⟨playCard (cardMap c) s, ?_, Or.inl ⟨by omega, h1⟩⟩
      unfold playTurn
      rw [if_pos hc]
      simp only [hc4, if_false]

/-- A run of turns from a state of a round in progress. -/
theorem playTurns_inv (dealt : Multiset Card) (hnd : dealt.Nodup) (cs : List Card) :
    ∀ (s : GameState) (k m : Nat), TrickInv dealt s k m → m < 4 →
    ∀ s2, playTurns cs s = some s2 →
      4 * k + m + cs.length ≤ 24 ∧
      (4 * k + m + cs.length < 24 →
        TrickInv dealt s2 ((4 * k + m + cs.length) / 4) ((4 * k + m + cs.length) % 4)) ∧
      (4 * k + m + cs.length = 24 →
        (∀ j, s2.hands j = []) ∧ ∑ j : Seat, s2.trickWins j = 6 ∧
        cardsOf s2.cardsWonInTricks = dealt ∧ ∃ x, s2 = endRound x) := by
  induction cs with
  | nil =>
    intro s k m hinv hm s2 hrun
    have hk := hinv.tricks
    have e : s2 = s := by
      simp only [playTurns, Option.some.injEq] at hrun
      exact hrun.symm
    subst e
    simp only [List.length_nil, Nat.add_zero]
    refine ⟨by omega, fun _ => ?_, fun h => by omega⟩
    have e1 : (4 * k + m) / 4 = k := by omega
    have e2 : (4 * k + m) % 4 = m := by omega
    rw [e1, e2]
    exact hinv
  | cons c rest ih =>
    intro s k m hinv hm s2 hrun
    have hk := hinv.tricks
    obtain ⟨hno, hyes⟩ := playTurn_inv dealt hnd s k m hinv hm c
    by_cases hc : c ∈ s.hands s.currentPlayer
    · obtain ⟨s1, h1, hcase⟩ := hyes hc
      simp only [playTurns, h1] at hrun
      simp only [List.length_cons]
      rcases hcase with ⟨hm3, hi⟩ | ⟨hm3, hk5, hi⟩ | ⟨hm3, hk5, r1, r2, r3, r4⟩
      · have := ih s1 k (m + 1) hi (by omega) s2 hrun
        have e : 4 * k + m + (rest.length + 1) = 4 * k + (m + 1) + rest.length := by omega
        rw [e]
        exact this
      · have := ih s1 (k + 1) 0 hi (by omega) s2 hrun
        have e : 4 * k + m + (rest.length + 1) = 4 * (k + 1) + 0 + rest.length := by omega
        rw [e]
        exact this
      · cases rest with
        | nil =>
          have e : s2 = s1 := by
            simp only [playTurns, Option.some.injEq] at hrun
            exact hrun.symm
          subst e
          simp only [List.length_nil]
          exact ⟨by omega, fun h => by omega, fun _ => ⟨r1, r2, r3, r4⟩⟩
        | cons c2 rest2 =>
          have hc2 : c2 ∉ s1.hands s1.currentPlayer := by
            rw [r1 s1.currentPlayer]; exact List.not_mem_nil c2
          have hn : playTurn c2 s1 = none := by
            unfold playTurn
            rw [if_neg hc2]
          simp only [playTurns, hn] at hrun
          cases hrun
    · simp only [playTurns, hno hc] at hrun
      cases hrun

/-- C25: in every round played in turn order from a fresh 6-card deal (each seat plays one
accepted card per trick, `cs` being the cards played so far), at most 24 cards are played;
all four hands are empty exactly when 24 cards have been played, that is at the completion
of the 6th trick and at no earlier point; after `k` completed tricks every hand holds `6 - k`
cards and the trick wins sum to `k`, and for `k < 6` the trick has been reset for the next
lead; before the end the seat to play holds a card and every card of its hand is accepted;
after the 6th trick the state is the one `endRound` returned, and the trick wins sum to
6. -/
theorem round_ends_at_sixth_trick (s0 : GameState) (hfresh : FreshRound s0) (cs : List Card)
    (s : GameState) (hrun : playTurns cs s0 = some s) :
    cs.length ≤ 24 ∧
    (allHandsEmpty s = true ↔ cs.length = 24) ∧
    (∀ k, cs.length = 4 * k →
      (∀ j, (s.hands j).length = 6 - k) ∧ ∑ j : Seat, s.trickWins j = k) ∧
    (∀ k, cs.length = 4 * k → k < 6 → s.playOrder = [] ∧ ∀ j, s.currentTrick j = none) ∧
    (cs.length < 24 → s.hands s.currentPlayer ≠ [] ∧
      ∀ c, c ∈ s.hands s.currentPlayer → ∃ s2, playTurn c s = some s2) ∧
    (cs.length = 24 → (∑ j : Seat, s.trickWins j = 6) ∧ ∃ x, s = endRound x) := by
  obtain ⟨hnd, _, hinv0⟩ := freshRound_inv s0 hfresh
  obtain ⟨hle, hmid, hlast⟩ :=
    playTurns_inv (cardsOf s0.hands) hnd cs s0 0 0 hinv0 (by decide) s hrun
  simp only [Nat.mul_zero, Nat.zero_add, Nat.add_zero] at hle hmid hlast
  have hturn : cs.length < 24 → s.hands s.currentPlayer ≠ [] := by
    intro hlt
    have hinv := hmid hlt
    obtain ⟨p, hp, hcp⟩ := hinv.order
    have hnot : s.currentPlayer ∉ s.playOrder := by
      rw [hp, hcp]; exact seatAfter_not_mem p _ (Nat.mod_lt _ (by decide))
    have hl := hinv.handLength s.currentPlayer
    have hk := hinv.tricks
    simp only [hnot, if_false] at hl
    intro he
    rw [he] at hl
    simp only [List.length_nil] at hl
    omega
  refine ⟨hle, ⟨?_, ?_⟩, ?_, ?_, ?_, ?_⟩
  · intro hempty
    by_contra hne
    have hlt : cs.length < 24 := by omega
    apply hturn hlt
    rw [allHandsEmpty, List.all_eq_true] at hempty
    exact List.length_eq_zero.mp (of_decide_eq_true (hempty _ (mem_seats _)))
  · intro h24
    obtain ⟨r1, _⟩ := hlast h24
    rw [allHandsEmpty, List.all_eq_true]
    intro j _
    exact decide_eq_true (by rw [r1 j]; rfl)
  · intro k hk
    by_cases h24 : cs.length = 24
    · obtain ⟨r1, r2, _⟩ := hlast h24
      have hk6 : k = 6 := by omega
      subst hk6
      exact ⟨fun j => by rw [r1 j]; rfl, r2⟩
    · have hinv := hmid (by omega)
      have e1 : cs.length / 4 = k := by omega
      have e2 : cs.length % 4 = 0 := by omega
      rw [e1, e2] at hinv
      obtain ⟨p, hp, _⟩ := hinv.order
      have hp2 : s.playOrder = [] := hp
      refine ⟨fun j => ?_, hinv.wins⟩
      have hl := hinv.handLength j
      rw [hp2] at hl
      simp only [List.not_mem_nil, if_false] at hl
      omega
  · intro k hk hk6
    have hinv := hmid (by omega)
    have e1 : cs.length / 4 = k := by omega
    have e2 : cs.length % 4 = 0 := by omega
    rw [e1, e2] at hinv
    obtain ⟨p, hp, _⟩ := hinv.order
    have hp2 : s.playOrder = [] := hp
    refine ⟨hp2, fun j => ?_⟩
    by_contra hne
    have := (hinv.filled j).mp hne
    rw [hp2] at this
    exact List.not_mem_nil j this
  · intro hlt
    refine ⟨hturn hlt, fun c hc => ?_⟩
    obtain ⟨s2, h2, _⟩ := (playTurn_inv (cardsOf s0.hands) hnd s _ _ (hmid hlt)
      (Nat.mod_lt _ (by decide)) c).2 hc
    exact ⟨s2, h2⟩
  · intro h24
    obtain ⟨_, r2, _, r4⟩ := hlast h24
    exact ⟨r2, r4⟩

set_option maxRecDepth 1000000 in
/-- C25 on the example round: the play starts from a fresh round, the 24 cards are accepted
in turn, and the hands are empty at the end. -/
theorem round_ends_at_sixth_trick_witness :
    FreshRound exampleAuction ∧
    playTurns exampleRoundCards exampleAuction = some exampleRoundPlayed ∧
    exampleRoundCards.length = 24 ∧
    (allHandsEmpty exampleRoundPlayed = true ↔ exampleRoundCards.length = 24) :=
  have hfresh : FreshRound exampleAuction :=
    ⟨by decide, by decide, by decide, by decide, by decide, by decide, by decide⟩
  have hrun : playTurns exampleRoundCards exampleAuction = some exampleRoundPlayed := by
    have h : (playTurns exampleRoundCards exampleAuction).isSome = true := by decide
    obtain ⟨x, hx⟩ := Option.isSome_iff_exists.mp h
    unfold exampleRoundPlayed
    rw [hx]
    rfl
  ⟨hfresh, hrun, by decide,
    (round_ends_at_sixth_trick exampleAuction hfresh exampleRoundCards exampleRoundPlayed
      hrun).2.1⟩

/-- Card conservation in a round played in turn order: while a seat is due to play, the
cards in the four hands, on the trick and in the four piles are pairwise distinct and are
together the 24 cards dealt, and the history lists the cards of the trick and of the piles,
each once. After the 6th trick the piles hold the 24 cards. -/
theorem cards_conserved_in_turn_order (s0 : GameState) (hfresh : FreshRound s0)
    (cs : List Card) (s : GameState) (hrun : playTurns cs s0 = some s) :
    Multiset.card (cardsOf s0.hands) = 24 ∧
    (cs.length < 24 →
      cardsOf s.hands + trickCards s + cardsOf s.cardsWonInTricks = cardsOf s0.hands ∧
      (cardsOf s.hands + trickCards s + cardsOf s.cardsWonInTricks).Nodup ∧
      (s.historyOfPlayedCards : Multiset Card) = trickCards s + cardsOf s.cardsWonInTricks ∧
      s.historyOfPlayedCards.Nodup) ∧
    (cs.length = 24 → cardsOf s.cardsWonInTricks = cardsOf s0.hands) := by
  obtain ⟨hnd, hcard, hinv0⟩ := freshRound_inv s0 hfresh
  obtain ⟨_, hmid, hlast⟩ :=
    playTurns_inv (cardsOf s0.hands) hnd cs s0 0 0 hinv0 (by decide) s hrun
  simp only [Nat.mul_zero, Nat.zero_add, Nat.add_zero] at hmid hlast
  refine ⟨hcard, fun hlt => ?_, fun h24 => (hlast h24).2.2.1⟩
  have hinv := hmid hlt
  refine ⟨hinv.cards, by rw [hinv.cards]; exact hnd, hinv.history, ?_⟩
  have hle : (s.historyOfPlayedCards : Multiset Card) ≤ cardsOf s0.hands := by
    rw [hinv.history, ← hinv.cards, add_assoc]
    exact Multiset.le_add_left _ _
  exact Multiset.coe_nodup.mp (Multiset.nodup_of_le hle hnd)

set_option maxRecDepth 1000000 in
/-- C30, the code at a reachable state. The play starts from a fresh round; seat 0 leads the
8 of Clubs and seats 1, 2, 3 follow; before the timer of `endTrick` runs, `selectCard` lets
seat 0 play the 2 of Clubs onto the complete trick. When the timers have run, a seat is due
to play and the trick has been collected and reset, but the 8 of Clubs is in no hand, on no
trick and in no pile although the history lists it, the pile of seat 1 holds each of four
cards twice, and hands, trick and piles hold 27 entries. -/
theorem overplayed_round_loses_card :
    FreshRound humanLeadAuction ∧
    determineTrickWinner overplayedTrick = some 1 ∧
    (midRound [RoundEvent.trickEnd, RoundEvent.trickEnd, RoundEvent.nextTrick 1]
      overplayedTrick).isSome = true ∧
    overplayedRound.playOrder = [] ∧
    (∀ j, overplayedRound.currentTrick j = none) ∧
    overplayedRound.currentPlayer = 1 ∧
    (overplayedRound.historyOfPlayedCards =
      [⟨Rank.r8, Suit.C⟩, ⟨Rank.r7, Suit.C⟩, ⟨Rank.r3, Suit.C⟩, ⟨Rank.r4, Suit.C⟩,
        ⟨Rank.r2, Suit.C⟩]) ∧
    (∀ j, (⟨Rank.r8, Suit.C⟩ : Card) ∉ overplayedRound.hands j ∧
      (⟨Rank.r8, Suit.C⟩ : Card) ∉ overplayedRound.cardsWonInTricks j) ∧
    (overplayedRound.cardsWonInTricks 1 =
      [⟨Rank.r2, Suit.C⟩, ⟨Rank.r7, Suit.C⟩, ⟨Rank.r3, Suit.C⟩, ⟨Rank.r4, Suit.C⟩,
        ⟨Rank.r2, Suit.C⟩, ⟨Rank.r7, Suit.C⟩, ⟨Rank.r3, Suit.C⟩, ⟨Rank.r4, Suit.C⟩]) ∧
    (seats.map (fun j => (overplayedRound.hands j).length +
      (overplayedRound.cardsWonInTricks j).length)).sum = 27 ∧
    (seats.map overplayedRound.trickWins).sum = 2 := by
  refine ⟨⟨by decide, by decide, by decide, by decide, by decide, by decide, by decide⟩,
    by decide, by decide, by decide, by decide, by decide, by decide, by decide, by decide,
    by decide, by decide⟩

/-! ## The sampling from the model's output -/

/-- An index the sampling loop returns after a draw above the running total has a positive
entry. -/
theorem sampleLoop_some (random : Rat) (l : List Rat) :
    ∀ (i : Nat) (cumulative : Rat) (k : Nat), cumulative < random →
      sampleLoop random l i cumulative = some k →
      i ≤ k ∧ ∃ p, l[k - i]? = some p ∧ 0 < p := by
  induction l with
  | nil => intro i cumulative k _ h; simp [sampleLoop] at h
  | cons p rest ih =>
    intro i cumulative k hc h
    unfold sampleLoop at h
    by_cases hle : random ≤ cumulative + p
    · rw [if_pos hle] at h
      have e : i = k := Option.some.inj h
      subst e
      refine ⟨le_refl _, p, by simp, ?_⟩
      linarith
    · rw [if_neg hle] at h
      obtain ⟨hik, q, hq, hpos⟩ := ih (i + 1) (cumulative + p) k (lt_of_not_le hle) h
      refine ⟨by omega, q, ?_, hpos⟩
      have e : k - i = (k - (i + 1)) + 1 := by omega
      rw [e, List.getElem?_cons_succ]
      exact hq

/-- Over a list that is not empty the loop ends without a return only when the draw is
above the total. -/
theorem sampleLoop_none (random : Rat) (rest : List Rat) :
    ∀ (p : Rat) (i : Nat) (cumulative : Rat),
      sampleLoop random (p :: rest) i cumulative = none →
      cumulative + (p :: rest).sum < random := by
  induction rest with
  | nil =>
    intro p i cumulative h
    unfold sampleLoop at h
    by_cases hle : random ≤ cumulative + p
    · rw [if_pos hle] at h; cases h
    · simp only [List.sum_cons, List.sum_nil, add_zero]
      exact lt_of_not_le hle
  | cons q rest ih =>
    intro p i cumulative h
    unfold sampleLoop at h
    by_cases hle : random ≤ cumulative + p
    · rw [if_pos hle] at h; cases h
    · rw [if_neg hle] at h
      have := ih q (i + 1) (cumulative + p) h
      rw [List.sum_cons, ← add_assoc]
      exact this

theorem sum_map_div (l : List Rat) (c : Rat) :
    (l.map (fun prob => prob / c)).sum = l.sum / c := by
  induction l with
  | nil => simp
  | cons a t ih => simp only [List.map_cons, List.sum_cons, ih, add_div]

theorem masked_getElem (actionProbs : List Rat) (legal : List Bool) (k : Nat) (m : Rat)
    (h : (actionProbs.enum.map
      (fun ip => if legal.getD ip.1 false then ip.2 else 0))[k]? = some m)
    (hm : m ≠ 0) : maskAt legal k = true := by
  rw [List.getElem?_map, List.getElem?_enum] at h
  cases ha : actionProbs[k]? with
  | none => rw [ha] at h; cases h
  | some a =>
    rw [ha] at h
    simp only [Option.map_some', Option.some.injEq] at h
    by_contra hl
    have hl2 : legal.getD k false = false := by
      unfold maskAt at hl
      exact Bool.eq_false_iff.mpr hl
    rw [hl2] at h
    exact hm (by rw [← h]; rfl)

/-- With a draw in `(0, 1]` and a sum of the masked probabilities other than 0, the index
the sampling returns has a true entry in the mask. -/
theorem sampleAction_legal (actionProbs : List Rat) (random : Rat) (legal : List Bool)
    (h0 : 0 < random) (h1 : random ≤ 1)
    (hsum : (actionProbs.enum.map
      (fun ip => if legal.getD ip.1 false then ip.2 else 0)).foldl (fun a b => a + b) 0 ≠ 0) :
    maskAt legal (sampleAction actionProbs random legal) = true := by
  unfold sampleAction
  dsimp only
  rw [if_neg hsum]
  generalize hmk : actionProbs.enum.map
    (fun ip => if legal.getD ip.1 false then ip.2 else 0) = masked at hsum
  have hfold : masked.foldl (fun a b => a + b) 0 = masked.sum := (List.sum_eq_foldl).symm
  rw [hfold] at hsum ⊢
  cases hloop : sampleLoop random (masked.map (fun prob => prob / masked.sum)) 0 0 with
  | none =>
    exfalso
    cases hmasked : masked with
    | nil => rw [hmasked] at hsum; exact hsum rfl
    | cons a t =>
      rw [hmasked] at hloop hsum
      rw [List.map_cons] at hloop
      have := sampleLoop_none random _ _ 0 0 hloop
      have e : (a / (a :: t).sum :: List.map (fun prob => prob / (a :: t).sum) t) =
          (a :: t).map (fun prob => prob / (a :: t).sum) := rfl
      rw [e, sum_map_div, zero_add, div_self hsum] at this
      exact absurd h1 (not_le_of_lt this)
  | some k =>
    obtain ⟨_, q, hq, hpos⟩ := sampleLoop_some random _ 0 0 k h0 hloop
    rw [Nat.sub_zero, List.getElem?_map] at hq
    cases hm : masked[k]? with
    | none => rw [hm] at hq; cases hq
    | some m =>
      rw [hm] at hq
      simp only [Option.map_some', Option.some.injEq] at hq
      have hne : m ≠ 0 := by
        intro hz
        rw [hz, zero_div] at hq
        rw [← hq] at hpos
        exact lt_irrefl _ hpos
      show maskAt legal k = true
      rw [← hmk] at hm
      exact masked_getElem actionProbs legal k m hm hne

/-- With Pass legal (index 0, as in every mask of `getLegalBids`), probabilities that are
not negative and a draw in `[0, 1]`, the index the sampling returns has a true entry in the
mask. -/
theorem sampleAction_pass_legal (actionProbs : List Rat) (random : Rat) (legal : List Bool)
    (hpass : maskAt legal 0 = true) (hnn : ∀ p, p ∈ actionProbs → 0 ≤ p)
    (h0 : 0 ≤ random) (h1 : random ≤ 1) :
    maskAt legal (sampleAction actionProbs random legal) = true := by
  by_cases hsum : (actionProbs.enum.map
      (fun ip => if legal.getD ip.1 false then ip.2 else 0)).foldl (fun a b => a + b) 0 = 0
  · unfold sampleAction
    dsimp only
    rw [if_pos hsum]
    exact hpass
  · rcases lt_or_eq_of_le h0 with hpos | hzero
    · exact sampleAction_legal actionProbs random legal hpos h1 hsum
    · unfold sampleAction
      dsimp only
      rw [if_neg hsum]
      generalize hmk : actionProbs.enum.map
        (fun ip => if legal.getD ip.1 false then ip.2 else 0) = masked at hsum
      have hfold : masked.foldl (fun a b => a + b) 0 = masked.sum := (List.sum_eq_foldl).symm
      rw [hfold] at hsum ⊢
      have hmnn : ∀ m, m ∈ masked → 0 ≤ m := by
        intro m hm
        rw [← hmk] at hm
        obtain ⟨ip, hip, rfl⟩ := List.mem_map.mp hm
        split_ifs
        · rcases ip with ⟨i, a⟩
          obtain ⟨hi, ha⟩ := List.mem_enum hip
          exact hnn a (by rw [ha]; exact List.getElem_mem hi)
        · exact le_refl 0
      have hs : 0 ≤ masked.sum := List.sum_nonneg hmnn
      cases hmasked : masked with
      | nil => rw [hmasked] at hsum; exact absurd rfl hsum
      | cons a t =>
        have ha : 0 ≤ a := hmnn a (by rw [hmasked]; exact List.mem_cons_self _ _)
        rw [← hmasked]
        have hq : 0 ≤ a / masked.sum := div_nonneg ha hs
        rw [hmasked, List.map_cons, ← hmasked]
        unfold sampleLoop
        rw [if_pos (by rw [← hzero, zero_add]; exact hq)]
        exact hpass

/-- The bid of a non-human seat is legal: for every mask of `getLegalBids`, every draw in
`[0, 1)` and either no model or a model output without negative entries, `getAIBidAction`
returns an index with a true entry in the mask. -/
theorem getAIBidAction_legal (s : GameState) (model : Option (List Rat)) (random : Rat)
    (h0 : 0 ≤ random) (h1 : random < 1)
    (hnn : ∀ actionProbs, model = some actionProbs → ∀ p, p ∈ actionProbs → 0 ≤ p) :
    ∃ i, getAIBidAction model random (getLegalBids s) = some i ∧
      maskAt (getLegalBids s) i = true := by
  have hpass : maskAt (getLegalBids s) 0 = true := by
    rw [getLegalBids_eq]; rfl
  cases model with
  | none =>
    obtain ⟨i, hi⟩ := randomLegalAction_returns random (getLegalBids s) h0 h1 ⟨0, hpass⟩
    exact ⟨i, hi, randomLegalAction_legal random _ i hi⟩
  | some actionProbs =>
    exact ⟨_, rfl, sampleAction_pass_legal actionProbs random _ hpass
      (hnn actionProbs rfl) h0 (le_of_lt h1)⟩

end PitchAI
